import Mathlib

/-!
# log4u: a leveled, asynchronous logger

A shallow embedding of `log4u.go` (and of the older `core.go`) together with
the properties of its level gate, formatter, caller resolver and consumer loop.

Conventions of the embedding
* a Go `string` / `[]byte` is a `List Nat` of byte values;
* a Go `int` is an `Int` (64-bit range is stated where it matters);
* a Go `LogLevel` (`uint8`) is a `Nat`;
* code that can panic, or block on the channel, returns an `Outcome`.
-/

namespace Log4uPkg

/-! ## Bytes and outcomes -/

/-- A Go byte string. -/
abbrev Bytes := List Nat

/-- The bytes of an ASCII literal of the source. -/
def ascii (s : String) : Bytes := s.toList.map Char.toNat

/-- What a piece of Go code does: it returns, it blocks on a channel operation
that is not enabled in the current state, or it panics. -/
inductive Outcome (α : Type) where
  | done (a : α)
  | blocked
  | panicked
  deriving Repr, DecidableEq

/-- Sequencing of Go statements. -/
def Outcome.bind {α β : Type} (x : Outcome α) (f : α → Outcome β) : Outcome β :=
  match x with
  | .done a => f a
  | .blocked => .blocked
  | .panicked => .panicked

/-- An `Option` read as a slice/index operation that panics on `none`. -/
def Outcome.ofOption {α : Type} : Option α → Outcome α
  | some a => .done a
  | none => .panicked

/-! ## Levels and flags (`log4u.go` 17-35) -/

def ErrorLevel : Nat := 0
def WarnLevel : Nat := 1
def InfoLevel : Nat := 2
def OutLevel : Nat := 3

def Ldate : Nat := 1
def Ltime : Nat := 2
def Lmicroseconds : Nat := 4
def Llongfile : Nat := 8
def Lshortfile : Nat := 16
def LUTC : Nat := 32
def Lmsgprefix : Nat := 64
def LstdFlags : Nat := Ldate ||| Ltime

/-- The `Logger` of `log4u.go`. The writer `out` is kept outside (see `Sink`):
the four loggers of `init` write to the same file and console. -/
structure Logger where
  prefix_ : Bytes
  flag : Nat
  buf : Bytes
  deriving Repr, DecidableEq

def newLogger (pre : Bytes) (flag : Nat) : Logger :=
  { prefix_ := pre, flag := flag, buf := [] }

/-! ## itoa (`log4u.go` 49-63) -/

/-- Wrap-around of a 64-bit signed integer. -/
def wrap64 (x : Int) : Int := (x + 2 ^ 63) % 2 ^ 64 - 2 ^ 63

/-- The loop of `itoa` and the store after it. `k` is `bp + 1`, the number of
slots of the 20-byte array `b` not yet written; `acc` is `b[bp+1:]`. With
`k = 0` the next store `b[bp]` has `bp = -1` and panics. -/
def itoaLoop : Nat → Int → Int → Bytes → Option Bytes
  | 0, _, _, _ => none
  | k + 1, i, wid, acc =>
    if i ≥ 10 ∨ wid > 1 then
      let q := Int.tdiv i 10
      itoaLoop k q (wrap64 (wid - 1)) (((48 + i - q * 10) % 256).toNat :: acc)
    else
      some (((48 + i) % 256).toNat :: acc)

/-- Go `itoa(buf, i, wid)`: the new value of `*buf`, or `none` on a panic. -/
def itoa (buf : Bytes) (i : Int) (wid : Int) : Option Bytes :=
  (itoaLoop 20 i wid []).map (fun ds => buf ++ ds)

/-! ## Time (the part of `time.Time` that `formatHeader` reads) -/

/-- A calendar reading of an instant. -/
structure Civil where
  year : Int
  month : Int
  day : Int
  hour : Int
  minute : Int
  second : Int
  nanosecond : Int
  deriving Repr, DecidableEq

/-- A `time.Time`: the reading of the instant in the location of the value and
the reading of the same instant in UTC. -/
structure Time where
  wall : Civil
  utc : Civil
  deriving Repr, DecidableEq

def Time.UTC (t : Time) : Time := { wall := t.utc, utc := t.utc }
def Time.Date (t : Time) : Int × Int × Int := (t.wall.year, t.wall.month, t.wall.day)
def Time.Clock (t : Time) : Int × Int × Int := (t.wall.hour, t.wall.minute, t.wall.second)
def Time.Nanosecond (t : Time) : Int := t.wall.nanosecond

/-! ## formatHeader (`log4u.go` 65-115) -/

/-- Lines 73-81: the date field. -/
def headerDate (flag : Nat) (buf : Bytes) (t : Time) : Option Bytes :=
  if flag &&& Ldate ≠ 0 then
    match t.Date with
    | (year, month, day) =>
      (itoa buf year 4).bind fun buf =>
      (itoa (buf ++ [45]) month 2).bind fun buf =>
      (itoa (buf ++ [45]) day 2).bind fun buf =>
      some (buf ++ [32])
  else some buf

/-- Lines 82-94: the clock field. -/
def headerClock (flag : Nat) (buf : Bytes) (t : Time) : Option Bytes :=
  if flag &&& (Ltime ||| Lmicroseconds) ≠ 0 then
    match t.Clock with
    | (hour, min, sec) =>
      (itoa buf hour 2).bind fun buf =>
      (itoa (buf ++ [58]) min 2).bind fun buf =>
      (itoa (buf ++ [58]) sec 2).bind fun buf =>
      (if flag &&& Lmicroseconds ≠ 0 then
        itoa (buf ++ [46]) (Int.tdiv t.Nanosecond 1000) 6
       else some buf).bind fun buf =>
      some (buf ++ [32])
  else some buf

/-- Lines 69-95: the date/time block. -/
def headerTime (flag : Nat) (buf : Bytes) (t : Time) : Option Bytes :=
  if flag &&& (Ldate ||| Ltime ||| Lmicroseconds) ≠ 0 then
    let t := if flag &&& LUTC ≠ 0 then t.UTC else t
    (headerDate flag buf t).bind fun buf => headerClock flag buf t
  else some buf

/-- Lines 98-104: the loop `for i := len(file) - 1; i > 0; i--` that looks
for the last `/`. The argument is `i`; the result is `short`. -/
def shortLoop (file : Bytes) : Nat → Bytes
  | 0 => file
  | i + 1 => if file.getD (i + 1) 0 = 47 then file.drop (i + 2) else shortLoop file i

/-- Lines 96-111: the file block. -/
def headerFile (flag : Nat) (buf : Bytes) (file : Bytes) (line : Int) : Option Bytes :=
  if flag &&& (Lshortfile ||| Llongfile) ≠ 0 then
    let file := if flag &&& Lshortfile ≠ 0 then shortLoop file (file.length - 1) else file
    (itoa (buf ++ file ++ [58]) line (-1)).bind fun buf =>
    some (buf ++ [58, 32])
  else some buf

/-- Go `(l *Logger).formatHeader(buf, t, file, line)`: the new `*buf`, `none` on a panic. -/
def formatHeader (l : Logger) (buf : Bytes) (t : Time) (file : Bytes) (line : Int) :
    Option Bytes :=
  let buf := if l.flag &&& Lmsgprefix = 0 then buf ++ l.prefix_ else buf
  (headerTime l.flag buf t).bind fun buf =>
  (headerFile l.flag buf file line).bind fun buf =>
  some (if l.flag &&& Lmsgprefix ≠ 0 then buf ++ l.prefix_ else buf)

/-! ## The sink and Output (`log4u.go` 117-130) -/

/-- The `io.Writer` behind the loggers: the slices accepted so far, oldest
first, and whether `Write(p)` returns an error after a given history. -/
structure Sink where
  written : List Bytes
  failing : List Bytes → Bytes → Bool

/-- Go `out.Write(p)`: the sink afterwards and whether `err != nil`. -/
def Sink.Write (out : Sink) (p : Bytes) : Sink × Bool :=
  if out.failing out.written p then (out, true)
  else ({ out with written := out.written ++ [p] }, false)

/-- The body with its final newline (`log4u.go` 122-125), appended to `buf`. -/
def appendBody (buf : Bytes) (s : Bytes) : Bytes :=
  let buf := buf ++ s
  if s.length = 0 ∨ s.getD (s.length - 1) 0 ≠ 10 then buf ++ [10] else buf

/-- Lines 120-125 of `(l *Logger).Output`: the contents of `l.buf` when
`Write` is called, `none` when `formatHeader` panics. -/
def Logger.line (l : Logger) (now : Time) (s file : Bytes) (line : Int) : Option Bytes :=
  (formatHeader l (l.buf.take 0) now file line).map fun buf => appendBody buf s

/-- Go `(l *Logger).Output(s, file, line)` with `now` the value of `time.Now()`. -/
def Logger.Output (l : Logger) (out : Sink) (now : Time) (s file : Bytes) (line : Int) :
    Outcome (Logger × Sink) :=
  (Outcome.ofOption (l.line now s file line)).bind fun buf =>
  match out.Write buf with
  | (out, err) => if err then .panicked else .done ({ l with buf := buf }, out)

/-! ## Records, the channel and the logger state (`log4u.go` 155-171) -/

structure logInfo where
  level : Nat
  line : Int
  file : Bytes
  val : Bytes
  deriving Repr, DecidableEq

/-- A buffered channel `chan *logInfo`. -/
structure Chan where
  buf : List logInfo
  cap : Nat
  deriving Repr, DecidableEq

/-- Go `c <- x`: blocks while the buffer is full. -/
def Chan.send (c : Chan) (x : logInfo) : Outcome Chan :=
  if c.buf.length < c.cap then .done { c with buf := c.buf ++ [x] } else .blocked

/-- Go `<-c`: blocks while the buffer is empty. -/
def Chan.recv (c : Chan) : Outcome (logInfo × Chan) :=
  match c.buf with
  | [] => .blocked
  | x :: rest => .done (x, { c with buf := rest })

structure Log4u where
  o : Logger
  i : Logger
  w : Logger
  e : Logger
  level : Nat
  c : Chan
  deriving Repr, DecidableEq

/-- The value `init` gives `globalLog4u` (`log4u.go` 146-151). -/
def initLog4u : Log4u :=
  { o := newLogger (ascii "") 0
    i := newLogger (ascii "\x1b[34mINFO\x1b[0m ") (LstdFlags ||| Lmsgprefix ||| Lshortfile)
    w := newLogger (ascii "\x1b[33mWARN\x1b[0m ") (LstdFlags ||| Lmsgprefix ||| Lshortfile)
    e := newLogger (ascii "\x1b[31mERROR\x1b[0m ") (LstdFlags ||| Lmsgprefix ||| Lshortfile)
    level := OutLevel
    c := { buf := [], cap := 200 } }

/-- Go `Inject()`. -/
def Inject (globalLog4u : Log4u) : Log4u := globalLog4u

/-- Go `SetLevel(level)` (`log4u.go` 177-184), on the value of `globalLog4u`. -/
def SetLevel (globalLog4u : Log4u) (level : Nat) : Log4u :=
  if level = OutLevel ∨ level = InfoLevel ∨ level = WarnLevel ∨ level = ErrorLevel then
    { globalLog4u with level := level }
  else
    { globalLog4u with level := OutLevel }

/-! ## Library functions used by the caller resolver

`bytes.Index`, `bytes.IndexByte`, `bytes.LastIndexByte`, slicing and
`strconv.ParseInt(s, 0, 64)`, after the Go standard library. -/

/-- The index of the first occurrence of `sep` in `s`. -/
def findSub (sep : Bytes) : Bytes → Option Nat
  | [] => if sep = [] then some 0 else none
  | x :: rest =>
    if sep.isPrefixOf (x :: rest) then some 0 else (findSub sep rest).map (fun n => n + 1)

/-- The index of the first byte `c` in `s`. -/
def findByte (c : Nat) : Bytes → Option Nat
  | [] => none
  | x :: rest => if x = c then some 0 else (findByte c rest).map (fun n => n + 1)

/-- The index of the last byte `c` in `s`. -/
def findLastByte (c : Nat) : Bytes → Option Nat
  | [] => none
  | x :: rest =>
    match findLastByte c rest with
    | some n => some (n + 1)
    | none => if x = c then some 0 else none

/-- An index result as Go reports it: `-1` when there is none. -/
def orMinusOne : Option Nat → Int
  | some n => (n : Int)
  | none => -1

/-- Go `bytes.Index(s, sep)`. -/
def Index (s sep : Bytes) : Int := orMinusOne (findSub sep s)

/-- Go `bytes.IndexByte(s, c)`. -/
def IndexByte (s : Bytes) (c : Nat) : Int := orMinusOne (findByte c s)

/-- Go `bytes.LastIndexByte(s, c)`. -/
def LastIndexByte (s : Bytes) (c : Nat) : Int := orMinusOne (findLastByte c s)

/-- Go `s[i:]`: panics unless `0 <= i <= len(s)`. -/
def sliceFrom (s : Bytes) (i : Int) : Outcome Bytes :=
  if 0 ≤ i ∧ i ≤ (s.length : Int) then .done (s.drop i.toNat) else .panicked

/-- Go `s[:j]`: panics unless `0 <= j <= len(s)` (the indices used here never
exceed the length, so the capacity of the slice plays no part). -/
def sliceTo (s : Bytes) (j : Int) : Outcome Bytes :=
  if 0 ≤ j ∧ j ≤ (s.length : Int) then .done (s.take j.toNat) else .panicked

/-- Go `lower(c)` of strconv: `c | ('x' - 'X')`. -/
def lower (c : Nat) : Nat := c ||| 32

/-- The result of the digit loop of `strconv.ParseUint`. -/
inductive UintResult where
  | value (n : Nat) (underscores : Bool)
  | syntaxError
  | rangeError
  deriving Repr, DecidableEq

/-- The digit loop of `strconv.ParseUint` for 64 bits: `n` is the value so far. -/
def parseDigits (base : Nat) (base0 : Bool) : Bytes → Nat → Bool → UintResult
  | [], n, us => .value n us
  | c :: rest, n, us =>
    if c = 95 ∧ base0 = true then parseDigits base base0 rest n true
    else
      let d : Option Nat :=
        if 48 ≤ c ∧ c ≤ 57 then some (c - 48)
        else if 97 ≤ lower c ∧ lower c ≤ 122 then some (lower c - 97 + 10)
        else none
      match d with
      | none => .syntaxError
      | some d =>
        if d ≥ base then .syntaxError
        else if n ≥ (2 ^ 64 - 1) / base + 1 then .rangeError
        else if n * base + d > 2 ^ 64 - 1 then .rangeError
        else parseDigits base base0 rest (n * base + d) us

/-- The loop of `strconv.underscoreOK`; `saw` is the class of the previous
character: `94` at the start, `48` digit or base prefix, `95` underscore,
`33` anything else. -/
def underscoreLoop (hex : Bool) : Bytes → Nat → Bool
  | [], saw => saw ≠ 95
  | c :: rest, saw =>
    if (48 ≤ c ∧ c ≤ 57) ∨ (hex = true ∧ 97 ≤ lower c ∧ lower c ≤ 102) then
      underscoreLoop hex rest 48
    else if c = 95 then
      if saw ≠ 48 then false else underscoreLoop hex rest 95
    else if saw = 95 then false
    else underscoreLoop hex rest 33

/-- Go `strconv.underscoreOK(s)`. -/
def underscoreOK (s : Bytes) : Bool :=
  let s := match s with
    | c :: rest => if c = 45 ∨ c = 43 then rest else s
    | [] => s
  match s with
  | 48 :: c :: rest =>
    if lower c = 98 ∨ lower c = 111 ∨ lower c = 120 then
      underscoreLoop (lower c = 120) rest 48
    else underscoreLoop false s 94
  | _ => underscoreLoop false s 94

/-- Go `strconv.ParseUint(s, 0, 64)`: the value returned, and whether the
error is nil (`0`), a syntax error (`1`) or a range error (`2`). -/
def ParseUint (s : Bytes) : Nat × Nat :=
  match s with
  | [] => (0, 1)
  | c0 :: _ =>
    let r : UintResult :=
      if c0 = 48 then
        if s.length ≥ 3 ∧ lower (s.getD 1 0) = 98 then parseDigits 2 true (s.drop 2) 0 false
        else if s.length ≥ 3 ∧ lower (s.getD 1 0) = 111 then parseDigits 8 true (s.drop 2) 0 false
        else if s.length ≥ 3 ∧ lower (s.getD 1 0) = 120 then parseDigits 16 true (s.drop 2) 0 false
        else parseDigits 8 true (s.drop 1) 0 false
      else parseDigits 10 true s 0 false
    match r with
    | .syntaxError => (0, 1)
    | .rangeError => (2 ^ 64 - 1, 2)
    | .value n us => if us = true ∧ underscoreOK s = false then (0, 1) else (n, 0)

/-- Go `strconv.ParseInt(s, 0, 64)`: the value returned (the error is dropped
by the caller). -/
def ParseInt (s : Bytes) : Int :=
  match s with
  | [] => 0
  | c0 :: rest =>
    let neg : Bool := c0 = 45
    let s := if c0 = 43 ∨ c0 = 45 then rest else s
    match ParseUint s with
    | (un, err) =>
      if err = 1 then 0
      else if neg = false ∧ un ≥ 2 ^ 63 then 2 ^ 63 - 1
      else if neg = true ∧ un > 2 ^ 63 then -(2 ^ 63)
      else if neg = true then -(un : Int) else (un : Int)

/-! ## The caller resolver (`log4u.go` 186-219) -/

/-- What the Go runtime reports at one call of a public operation:
`debug.Stack()` as read inside `getFileAndLineByStack`, and
`runtime.Caller(skip)` as read inside `getFileAndLine` (the file and line when
`ok`, `none` otherwise). -/
structure Site where
  stack : Bytes
  Caller : Int → Option (Bytes × Int)

/-- Go `getFileAndLine(depth)`. -/
def getFileAndLine (site : Site) (depth : Int) : Bytes × Int :=
  match site.Caller (wrap64 (depth + 1)) with
  | some (file, line) => (file, line)
  | none => (ascii "???", 0)

def panicBytes : Bytes := ascii "/src/runtime/panic.go"
def otherBytes : Bytes := ascii ")\n\t"

/-- Go `getFileAndLineByStack(depth)`. -/
def getFileAndLineByStack (site : Site) (depth : Int) : Outcome (Bytes × Int) :=
  let stack := site.stack
  let index := Index stack panicBytes
  if index = -1 then .done (getFileAndLine site (wrap64 (depth + 1)))
  else
    (sliceFrom stack index).bind fun stack =>
    let index := Index stack otherBytes
    (sliceFrom stack index).bind fun stack =>
    (sliceFrom stack 3).bind fun stack =>
    let index := IndexByte stack 32
    (sliceTo stack index).bind fun stack =>
    let index := LastIndexByte stack 58
    (sliceFrom stack (index + 1)).bind fun digits =>
    let line := ParseInt digits
    (sliceTo stack index).bind fun file =>
    .done (file, line)

/-! ## The public operations (`log4u.go` 257-367) -/

/-- Package `fmt`: the type of the operands and the two renderers. -/
structure Fmt where
  Any : Type
  Sprintln : List Any → Bytes
  Sprintf : Bytes → List Any → Bytes

/-- Go `(l *Log4u).OUT(v...)`. -/
def Log4u.OUT (F : Fmt) (l : Log4u) (v : List F.Any) : Outcome Log4u :=
  if l.level < OutLevel then .done l
  else
    let str := F.Sprintln v
    (l.c.send { level := OutLevel, line := 0, file := [], val := str }).bind fun c =>
    .done { l with c := c }

/-- Go `(l *Log4u).INFO(v...)`. -/
def Log4u.INFO (F : Fmt) (l : Log4u) (site : Site) (v : List F.Any) : Outcome Log4u :=
  if l.level < InfoLevel then .done l
  else
    let str := F.Sprintln v
    (getFileAndLineByStack site 1).bind fun (file, line) =>
    (l.c.send { level := InfoLevel, line := line, file := file, val := str }).bind fun c =>
    .done { l with c := c }

/-- Go `(l *Log4u).INFOF(format, v...)`. -/
def Log4u.INFOF (F : Fmt) (l : Log4u) (site : Site) (format : Bytes) (v : List F.Any) :
    Outcome Log4u :=
  if l.level < InfoLevel then .done l
  else
    let str := F.Sprintf format v
    (getFileAndLineByStack site 1).bind fun (file, line) =>
    (l.c.send { level := InfoLevel, line := line, file := file, val := str }).bind fun c =>
    .done { l with c := c }

/-- Go `(l *Log4u).WARN(v...)`. -/
def Log4u.WARN (F : Fmt) (l : Log4u) (site : Site) (v : List F.Any) : Outcome Log4u :=
  if l.level < WarnLevel then .done l
  else
    let str := F.Sprintln v
    (getFileAndLineByStack site 1).bind fun (file, line) =>
    (l.c.send { level := WarnLevel, line := line, file := file, val := str }).bind fun c =>
    .done { l with c := c }

/-- Go `(l *Log4u).WARNF(format, v...)`. -/
def Log4u.WARNF (F : Fmt) (l : Log4u) (site : Site) (format : Bytes) (v : List F.Any) :
    Outcome Log4u :=
  if l.level < WarnLevel then .done l
  else
    let str := F.Sprintf format v
    (getFileAndLineByStack site 1).bind fun (file, line) =>
    (l.c.send { level := WarnLevel, line := line, file := file, val := str }).bind fun c =>
    .done { l with c := c }

/-- Go `(l *Log4u).ERROR(v...)`. -/
def Log4u.ERROR (F : Fmt) (l : Log4u) (site : Site) (v : List F.Any) : Outcome Log4u :=
  let str := F.Sprintln v
  (getFileAndLineByStack site 1).bind fun (file, line) =>
  (l.c.send { level := ErrorLevel, line := line, file := file, val := str }).bind fun c =>
  .done { l with c := c }

/-- Go `(l *Log4u).ERRORF(format, v...)`. -/
def Log4u.ERRORF (F : Fmt) (l : Log4u) (site : Site) (format : Bytes) (v : List F.Any) :
    Outcome Log4u :=
  let str := F.Sprintf format v
  (getFileAndLineByStack site 1).bind fun (file, line) =>
  (l.c.send { level := ErrorLevel, line := line, file := file, val := str }).bind fun c =>
  .done { l with c := c }

/-- Go `OUT(v...)`, on the value of `globalLog4u`. -/
def OUT (F : Fmt) (globalLog4u : Log4u) (v : List F.Any) : Outcome Log4u :=
  if globalLog4u.level < OutLevel then .done globalLog4u
  else
    let str := F.Sprintln v
    (globalLog4u.c.send { level := OutLevel, line := 0, file := [], val := str }).bind fun c =>
    .done { globalLog4u with c := c }

/-- Go `INFO(v...)`. -/
def INFO (F : Fmt) (globalLog4u : Log4u) (site : Site) (v : List F.Any) : Outcome Log4u :=
  if globalLog4u.level < InfoLevel then .done globalLog4u
  else
    let str := F.Sprintln v
    (getFileAndLineByStack site 1).bind fun (file, line) =>
    (globalLog4u.c.send { level := InfoLevel, line := line, file := file, val := str }).bind
      fun c => .done { globalLog4u with c := c }

/-- Go `INFOF(format, v...)`. -/
def INFOF (F : Fmt) (globalLog4u : Log4u) (site : Site) (format : Bytes) (v : List F.Any) :
    Outcome Log4u :=
  if globalLog4u.level < InfoLevel then .done globalLog4u
  else
    let str := F.Sprintf format v
    (getFileAndLineByStack site 1).bind fun (file, line) =>
    (globalLog4u.c.send { level := InfoLevel, line := line, file := file, val := str }).bind
      fun c => .done { globalLog4u with c := c }

/-- Go `WARN(v...)`. -/
def WARN (F : Fmt) (globalLog4u : Log4u) (site : Site) (v : List F.Any) : Outcome Log4u :=
  if globalLog4u.level < WarnLevel then .done globalLog4u
  else
    let str := F.Sprintln v
    (getFileAndLineByStack site 1).bind fun (file, line) =>
    (globalLog4u.c.send { level := WarnLevel, line := line, file := file, val := str }).bind
      fun c => .done { globalLog4u with c := c }

/-- Go `WARNF(format, v...)`. -/
def WARNF (F : Fmt) (globalLog4u : Log4u) (site : Site) (format : Bytes) (v : List F.Any) :
    Outcome Log4u :=
  if globalLog4u.level < WarnLevel then .done globalLog4u
  else
    let str := F.Sprintf format v
    (getFileAndLineByStack site 1).bind fun (file, line) =>
    (globalLog4u.c.send { level := WarnLevel, line := line, file := file, val := str }).bind
      fun c => .done { globalLog4u with c := c }

/-- Go `ERROR(v...)`. -/
def ERROR (F : Fmt) (globalLog4u : Log4u) (site : Site) (v : List F.Any) : Outcome Log4u :=
  let str := F.Sprintln v
  (getFileAndLineByStack site 1).bind fun (file, line) =>
  (globalLog4u.c.send { level := ErrorLevel, line := line, file := file, val := str }).bind
    fun c => .done { globalLog4u with c := c }

/-- Go `ERRORF(format, v...)`. -/
def ERRORF (F : Fmt) (globalLog4u : Log4u) (site : Site) (format : Bytes) (v : List F.Any) :
    Outcome Log4u :=
  let str := F.Sprintf format v
  (getFileAndLineByStack site 1).bind fun (file, line) =>
  (globalLog4u.c.send { level := ErrorLevel, line := line, file := file, val := str }).bind
    fun c => .done { globalLog4u with c := c }

/-! ## The consumer loop (`log4u.go` 232-255) -/

/-- The `switch info.level` of `(l *Log4u).outLog` (lines 243-253), with `now`
the value `time.Now()` has inside `Output`. -/
def Log4u.dispatch (l : Log4u) (out : Sink) (now : Time) (info : logInfo) :
    Outcome (Log4u × Sink) :=
  if info.level = OutLevel then
    (l.o.Output out now info.val info.file info.line).bind fun (o, out) =>
    .done ({ l with o := o }, out)
  else if info.level = InfoLevel then
    (l.i.Output out now info.val info.file info.line).bind fun (i, out) =>
    .done ({ l with i := i }, out)
  else if info.level = WarnLevel then
    (l.w.Output out now info.val info.file info.line).bind fun (w, out) =>
    .done ({ l with w := w }, out)
  else if info.level = ErrorLevel then
    (l.e.Output out now info.val info.file info.line).bind fun (e, out) =>
    .done ({ l with e := e }, out)
  else .done (l, out)

/-- Go `(l *Log4u).errCatch()`: given whether `recover()` returned a value
that is not nil, the status `os.Exit` is called with, if it is called. -/
def errCatch (errNotNil : Bool) : Option Nat :=
  if errNotNil then some 1 else none

/-- The process: the singleton, the sink behind its loggers, and the exit
status once `os.Exit` has run. -/
structure Proc where
  globalLog4u : Log4u
  out : Sink
  exit : Option Nat

/-- A step of the goroutine `go globalLog4u.outLog()`: one iteration of the
loop under `defer l.errCatch()`: the receive `info := <-l.c`, then the switch.
A panic of the iteration is recovered by `errCatch` (the value recovered is
the error of `Write` or a runtime error, never nil). Nothing runs once the
process has exited. -/
def Proc.outLogStep (p : Proc) (now : Time) : Outcome Proc :=
  match p.exit with
  | some _ => .blocked
  | none =>
    match p.globalLog4u.c.recv with
    | .blocked => .blocked
    | .panicked => .panicked
    | .done (info, c) =>
      let l := { p.globalLog4u with c := c }
      match l.dispatch p.out now info with
      | .done (l, out) => .done { p with globalLog4u := l, out := out }
      | .blocked => .blocked
      | .panicked =>
        match errCatch true with
        | some code => .done { p with globalLog4u := l, exit := some code }
        | none => .done { p with globalLog4u := l }

/-! ## Producers and schedules -/

/-- A call of one of the seven public operations, with its operands and what
the runtime reports at the call. -/
inductive Call (F : Fmt) where
  | OUT (v : List F.Any)
  | INFO (site : Site) (v : List F.Any)
  | INFOF (site : Site) (format : Bytes) (v : List F.Any)
  | WARN (site : Site) (v : List F.Any)
  | WARNF (site : Site) (format : Bytes) (v : List F.Any)
  | ERROR (site : Site) (v : List F.Any)
  | ERRORF (site : Site) (format : Bytes) (v : List F.Any)

/-- The level of the operation called. -/
def Call.level {F : Fmt} : Call F → Nat
  | .OUT _ => OutLevel
  | .INFO _ _ | .INFOF _ _ _ => InfoLevel
  | .WARN _ _ | .WARNF _ _ _ => WarnLevel
  | .ERROR _ _ | .ERRORF _ _ _ => ErrorLevel

/-- The body the call renders from its operands. -/
def Call.body {F : Fmt} : Call F → Bytes
  | .OUT v | .INFO _ v | .WARN _ v | .ERROR _ v => F.Sprintln v
  | .INFOF _ format v | .WARNF _ format v | .ERRORF _ format v => F.Sprintf format v

/-- The location the call records: none is resolved by `OUT`, whose record
keeps the zero values of `file` and `line`. -/
def Call.locate {F : Fmt} : Call F → Outcome (Bytes × Int)
  | .OUT _ => .done ([], 0)
  | .INFO site _ | .INFOF site _ _ | .WARN site _ | .WARNF site _ _
  | .ERROR site _ | .ERRORF site _ _ => getFileAndLineByStack site 1

/-- The call made as a method on `l`. -/
def Call.method {F : Fmt} (l : Log4u) : Call F → Outcome Log4u
  | .OUT v => l.OUT F v
  | .INFO site v => l.INFO F site v
  | .INFOF site format v => l.INFOF F site format v
  | .WARN site v => l.WARN F site v
  | .WARNF site format v => l.WARNF F site format v
  | .ERROR site v => l.ERROR F site v
  | .ERRORF site format v => l.ERRORF F site format v

/-- The call made through the free function, on `globalLog4u`. -/
def Call.free {F : Fmt} (globalLog4u : Log4u) : Call F → Outcome Log4u
  | .OUT v => Log4uPkg.OUT F globalLog4u v
  | .INFO site v => Log4uPkg.INFO F globalLog4u site v
  | .INFOF site format v => Log4uPkg.INFOF F globalLog4u site format v
  | .WARN site v => Log4uPkg.WARN F globalLog4u site v
  | .WARNF site format v => Log4uPkg.WARNF F globalLog4u site format v
  | .ERROR site v => Log4uPkg.ERROR F globalLog4u site v
  | .ERRORF site format v => Log4uPkg.ERRORF F globalLog4u site format v

/-- The call made by a producer: as a method on the instance `Inject()`
returns, or through the free function. -/
def Call.run {F : Fmt} (asMethod : Bool) (globalLog4u : Log4u) (c : Call F) : Outcome Log4u :=
  if asMethod then c.method (Inject globalLog4u) else c.free globalLog4u

/-- What happens in the process, one step at a time: a producer makes a call
(as a method on `Inject()` or through the free function), the consumer
goroutine runs one iteration of its loop at clock reading `now`, or the
threshold is set. -/
inductive Event (F : Fmt) where
  | call (asMethod : Bool) (c : Call F)
  | consume (now : Time)
  | setLevel (level : Nat)

/-- One step of the process. -/
def Proc.step {F : Fmt} (p : Proc) : Event F → Outcome Proc
  | .call asMethod c =>
    match p.exit with
    | some _ => .blocked
    | none =>
      (c.run asMethod p.globalLog4u).bind fun l => .done { p with globalLog4u := l }
  | .consume now => p.outLogStep now
  | .setLevel level =>
    match p.exit with
    | some _ => .blocked
    | none => .done { p with globalLog4u := SetLevel p.globalLog4u level }

/-- A schedule run from `p`: it stops at the first step that blocks or panics. -/
def Proc.run {F : Fmt} (p : Proc) : List (Event F) → Outcome Proc
  | [] => .done p
  | ev :: rest => (p.step ev).bind fun p => p.run rest

/-! ## Reference layout of the header -/

/-- The range of a Go `int`. -/
def isInt64 (x : Int) : Prop := -(2 ^ 63) ≤ x ∧ x < 2 ^ 63

instance (x : Int) : Decidable (isInt64 x) := by unfold isInt64; infer_instance

/-- The decimal numeral of `n` by repeated division, with `fuel` steps left. -/
def decimalFuel : Nat → Nat → Bytes
  | 0, _ => []
  | fuel + 1, n => if n < 10 then [48 + n] else decimalFuel fuel (n / 10) ++ [48 + n % 10]

/-- The decimal numeral of `n` in ASCII, most significant digit first
(`decimal_eq_digits` relates it to `Nat.digits`). -/
def decimal (n : Nat) : Bytes := decimalFuel (n + 1) n

/-- Left padding with `'0'` to `w` characters. -/
def zeroPad (w : Nat) (ds : Bytes) : Bytes := List.replicate (w - ds.length) 48 ++ ds

/-- The numeral of a field, zero-padded to `w` characters. -/
def pad (w : Nat) (x : Int) : Bytes := zeroPad w (decimal x.toNat)

/-- A calendar reading as the time package gives it (years from 0 on). -/
def Civil.valid (c : Civil) : Prop :=
  (0 ≤ c.year ∧ c.year < 2 ^ 63) ∧ (1 ≤ c.month ∧ c.month ≤ 12) ∧ (1 ≤ c.day ∧ c.day ≤ 31) ∧
  (0 ≤ c.hour ∧ c.hour ≤ 23) ∧ (0 ≤ c.minute ∧ c.minute ≤ 59) ∧
  (0 ≤ c.second ∧ c.second ≤ 59) ∧ (0 ≤ c.nanosecond ∧ c.nanosecond ≤ 999999999)

instance (c : Civil) : Decidable c.valid := by unfold Civil.valid; infer_instance

def Time.valid (t : Time) : Prop := t.wall.valid ∧ t.utc.valid

instance (t : Time) : Decidable t.valid := by unfold Time.valid; infer_instance

/-- The date field: `YYYY-MM-DD ` -/
def dateField (c : Civil) : Bytes :=
  pad 4 c.year ++ [45] ++ pad 2 c.month ++ [45] ++ pad 2 c.day ++ [32]

/-- The clock field `HH:MM:SS`. -/
def clockField (c : Civil) : Bytes :=
  pad 2 c.hour ++ [58] ++ pad 2 c.minute ++ [58] ++ pad 2 c.second

/-- The microseconds suffix: `.` and six digits. -/
def microField (c : Civil) : Bytes := [46] ++ pad 6 (c.nanosecond / 1000)

/-- The date/time block as `formatHeader` lays it out: the date when `Ldate`
is set; the clock when `Ltime` or `Lmicroseconds` is set, with the
microseconds suffix when `Lmicroseconds` is set, and a space after it. -/
def dateTimeBlock (flag : Nat) (t : Time) : Bytes :=
  let c := if flag &&& LUTC ≠ 0 then t.utc else t.wall
  (if flag &&& Ldate ≠ 0 then dateField c else []) ++
  (if flag &&& Ltime ≠ 0 ∨ flag &&& Lmicroseconds ≠ 0 then
    clockField c ++ (if flag &&& Lmicroseconds ≠ 0 then microField c else []) ++ [32]
   else [])

/-- The date/time block with the clock tied to `Ltime` alone: the date when
`Ldate` is set, the clock when `Ltime` is set, the microseconds suffix when
`Lmicroseconds` is set, and a space after the clock part. -/
def dateTimeBlockTimeOnly (flag : Nat) (t : Time) : Bytes :=
  let c := if flag &&& LUTC ≠ 0 then t.utc else t.wall
  (if flag &&& Ldate ≠ 0 then dateField c else []) ++
  (if flag &&& Ltime ≠ 0 ∨ flag &&& Lmicroseconds ≠ 0 then
    (if flag &&& Ltime ≠ 0 then clockField c else []) ++
    (if flag &&& Lmicroseconds ≠ 0 then microField c else []) ++ [32]
   else [])

/-- The file block: the name (the short name when `Lshortfile` is set), `:`,
the line number without padding, `: `. -/
def fileBlock (flag : Nat) (file : Bytes) (line : Int) : Bytes :=
  if flag &&& Lshortfile ≠ 0 ∨ flag &&& Llongfile ≠ 0 then
    (if flag &&& Lshortfile ≠ 0 then shortLoop file (file.length - 1) else file) ++
      [58] ++ decimal line.toNat ++ [58, 32]
  else []


/-! ## Reference behaviour of a schedule -/

/-- The logger the switch of `outLog` picks for a record of one of the four
levels. -/
def Log4u.loggerOf (l : Log4u) (level : Nat) : Logger :=
  if level = OutLevel then l.o
  else if level = InfoLevel then l.i
  else if level = WarnLevel then l.w
  else l.e

/-- The configuration of a logger: its prefix and flags. -/
def Logger.config (l : Logger) : Bytes × Nat := (l.prefix_, l.flag)

/-- The configurations of the four loggers. -/
def Log4u.configs (l : Log4u) : (Bytes × Nat) × (Bytes × Nat) × (Bytes × Nat) × (Bytes × Nat) :=
  (l.o.config, l.i.config, l.w.config, l.e.config)

/-- The line the logger of the record's level renders for it at `now`. -/
def Log4u.lineOf (l : Log4u) (now : Time) (r : logInfo) : Option Bytes :=
  (l.loggerOf r.level).line now r.val r.file r.line

/-- The record a call builds, when its location is resolved. -/
def Call.record? {F : Fmt} (c : Call F) : Option logInfo :=
  match c.locate with
  | .done (file, line) => some { level := c.level, line := line, file := file, val := c.body }
  | _ => none

/-- The threshold in force after `SetLevel(v)`. -/
def clampLevel (v : Nat) : Nat :=
  if v = ErrorLevel ∨ v = WarnLevel ∨ v = InfoLevel ∨ v = OutLevel then v else OutLevel

/-- The calls of a schedule that pass the gate, in call order; `t` is the
threshold at the start. -/
def passing {F : Fmt} : Nat → List (Event F) → List (Call F)
  | _, [] => []
  | t, .call _ c :: rest => if c.level ≤ t then c :: passing t rest else passing t rest
  | t, .consume _ :: rest => passing t rest
  | _, .setLevel v :: rest => passing (clampLevel v) rest

/-- The clock readings of the consumer steps of a schedule, in order. -/
def consumeTimes {F : Fmt} : List (Event F) → List Time
  | [] => []
  | .consume now :: rest => now :: consumeTimes rest
  | _ :: rest => consumeTimes rest

/-- The schedule of one producer and an eager consumer: each call in turn,
followed by a step of the consumer at `now` when the call passes the gate at
threshold `t`. -/
def eagerSchedule {F : Fmt} (t : Nat) (now : Time) : List (Bool × Call F) → List (Event F)
  | [] => []
  | (asMethod, c) :: rest =>
    if c.level ≤ t then .call asMethod c :: .consume now :: eagerSchedule t now rest
    else .call asMethod c :: eagerSchedule t now rest

/-! ## Example values -/

/-- An instance of package `fmt` for operands that are strings: `Sprintln`
joins them with spaces and ends the line; `Sprintf` is given for a format
without verbs and without operands, where it returns the format. -/
def stringFmt : Fmt :=
  { Any := Bytes
    Sprintln := fun v => List.intercalate [32] v ++ [10]
    Sprintf := fun format _ => format }

/-- The instant 2009-01-23 01:23:23.123123 in a zone eight hours ahead of UTC. -/
def exampleTime : Time :=
  { wall := ⟨2009, 1, 23, 1, 23, 23, 123123000⟩
    utc := ⟨2009, 1, 22, 17, 23, 23, 123123000⟩ }

/-- A call from ordinary code at `/p/main.go:7`: the stack trace holds no
frame of `panic.go`, and the frame three levels above `getFileAndLine` is the
caller of the public operation. -/
def exampleSite : Site :=
  { stack := ascii "goroutine 1 [running]:\nruntime/debug.Stack()\n\t/go/src/runtime/debug/stack.go:24 +0x5e\n"
    Caller := fun skip => if skip = 3 then some (ascii "/p/main.go", 7) else none }

/-- A sink that accepts every write. -/
def goodSink : Sink := { written := [], failing := fun _ _ => false }

/-- A sink that refuses every write. -/
def brokenSink : Sink := { written := [], failing := fun _ _ => true }

/-- The process at threshold `Warn`, nothing queued, nothing written. -/
def warnProc : Proc :=
  { globalLog4u := SetLevel initLog4u WarnLevel, out := goodSink, exit := none }

/-- The calls `Info("x")`, `Warn("y")`, `Error("z")` of one producer, then two
steps of the consumer. -/
def warnSchedule : List (Event stringFmt) :=
  [ .call false (.INFO exampleSite [ascii "x"]),
    .call false (.WARN exampleSite [ascii "y"]),
    .call false (.ERROR exampleSite [ascii "z"]),
    .consume exampleTime,
    .consume exampleTime ]

def warnLineY : Bytes := ascii "2009-01-23 01:23:23 main.go:7: \x1b[33mWARN\x1b[0m y\n"
def warnLineZ : Bytes := ascii "2009-01-23 01:23:23 main.go:7: \x1b[31mERROR\x1b[0m z\n"

/-- The process after `warnSchedule`. -/
def warnProcAfter : Proc :=
  { globalLog4u :=
      { warnProc.globalLog4u with
        w := { warnProc.globalLog4u.w with buf := warnLineY }
        e := { warnProc.globalLog4u.e with buf := warnLineZ } }
    out := { goodSink with written := [warnLineY, warnLineZ] }
    exit := none }

/-- A process whose sink refuses every write, with one `Info` record queued. -/
def brokenProc : Proc :=
  { globalLog4u :=
      { initLog4u with
        c := { buf := [{ level := InfoLevel, line := 7, file := ascii "/p/main.go",
                         val := ascii "x\n" },
                       { level := ErrorLevel, line := 9, file := ascii "/p/main.go",
                         val := ascii "z\n" }],
               cap := 200 } }
    out := brokenSink
    exit := none }

/-- A stack trace as `debug.Stack()` prints it for a call of `INFO` from a
goroutine whose function lives in a file of the user named
`/home/u/app/src/runtime/panic.go`: the marker occurs in that path, and no
frame line follows it. -/
def ownPanicFileTrace : Bytes :=
  ascii ("goroutine 18 [running]:\nruntime/debug.Stack()\n\t/usr/local/go/src/runtime/debug/stack.go:24 +0x5e\n" ++
    "github.com/fine-snow/log4u.getFileAndLineByStack(0x1)\n\t/go/pkg/mod/github.com/fine-snow/log4u/log4u.go:203 +0x1d\n" ++
    "github.com/fine-snow/log4u.INFO(\x7b0xc000012345, 0x1, 0x1\x7d)\n\t/go/pkg/mod/github.com/fine-snow/log4u/log4u.go:326 +0x6f\n" ++
    "main.worker()\n\t/home/u/app/src/runtime/panic.go:12 +0x45\n" ++
    "created by main.main in goroutine 1\n\t/home/u/app/main.go:8 +0x25\n")

/-- The call site of `ownPanicFileTrace`. -/
def ownPanicFileSite : Site :=
  { stack := ownPanicFileTrace
    Caller := fun skip =>
      if skip = 3 then some (ascii "/home/u/app/src/runtime/panic.go", 12) else none }

/-- A logger with no prefix and the given flags. -/
def plainLogger (flag : Nat) : Logger := { prefix_ := [], flag := flag, buf := [] }

/-- The short name as the comment on `Lshortfile` describes it: the final
element of the path, what follows the last `/`. -/
def finalElement (file : Bytes) : Bytes :=
  match findLastByte 47 file with
  | some i => file.drop (i + 1)
  | none => file

/-! ## Reference reading of a stack trace -/

/-- The number a string of decimal digits denotes. -/
def digitsValue (ds : Bytes) : Nat := ds.foldl (fun n c => n * 10 + (c - 48)) 0

/-- A non-empty decimal numeral without a leading zero (the numeral `0` itself
counts as one). -/
def isNumeral (ds : Bytes) : Prop :=
  ds ≠ [] ∧ (∀ c ∈ ds, 48 ≤ c ∧ c ≤ 57) ∧ (ds.head? ≠ some 48 ∨ ds = [48])

instance (ds : Bytes) : Decidable (isNumeral ds) := by unfold isNumeral; infer_instance

/-- No proper suffix of `sep` is a prefix of it: two occurrences of `sep`
cannot overlap. -/
def noBorder (sep : Bytes) : Prop :=
  ∀ j : Fin sep.length, 0 < j.val → sep.drop j.val ≠ sep.take (sep.length - j.val)

instance (sep : Bytes) : Decidable (noBorder sep) := by unfold noBorder; infer_instance

/-- The result of a piece of code that returns, under `f`. -/
def Outcome.map {α β : Type} (f : α → β) : Outcome α → Outcome β
  | .done a => .done (f a)
  | .blocked => .blocked
  | .panicked => .panicked

/-- The site of a call of a public operation as `runtime.Caller` numbers the
frames inside `getFileAndLine`: skip 0, 1 and 2 are the frames `inner` of
`getFileAndLine`, `getFileAndLineByStack` and the public operation; skip
`3 + k` is frame `k` of `callers`, whose first frame is the one that called
the public operation. A negative skip is not asked for by these calls and
reports nothing here. -/
def frameSite (stack : Bytes) (inner callers : List (Bytes × Int)) : Site :=
  { stack := stack
    Caller := fun skip => if 0 ≤ skip then (inner ++ callers).get? skip.toNat else none }

/-- The site a call hands to the resolver; `OUT` resolves nothing. -/
def Call.site? {F : Fmt} : Call F → Option Site
  | .OUT _ => none
  | .INFO site _ | .INFOF site _ _ | .WARN site _ | .WARNF site _ _
  | .ERROR site _ | .ERRORF site _ _ => some site

/-- A call of `WARN` at `/app/main.go:14` from ordinary code, with the frames
the runtime numbers. -/
def mainCallSite : Site :=
  frameSite exampleSite.stack
    [(ascii "/p/log4u.go", 190), (ascii "/p/log4u.go", 206), (ascii "/p/log4u.go", 344)]
    [(ascii "/app/main.go", 14), (ascii "/usr/local/go/src/runtime/proc.go", 267)]

/-- The gate of the specification: a call is emitted when its level is at most
the threshold. -/
def shouldEmit (callLevel threshold : Nat) : Bool := decide (callLevel ≤ threshold)

/-- A call under the single rule of the specification: when `shouldEmit` allows
it the location is resolved (`OUT` resolves none) and the record is sent;
otherwise nothing happens. -/
def Call.gated {F : Fmt} (l : Log4u) (c : Call F) : Outcome Log4u :=
  if shouldEmit c.level l.level = true then
    c.locate.bind fun (file, line) =>
    (l.c.send { level := c.level, line := line, file := file, val := c.body }).bind fun ch =>
    .done { l with c := ch }
  else .done l

/-- A trace captured while a panic is being recovered: the frame of
`runtime/panic.go`, then the frame of the function that panicked. -/
def recoveredPanicTrace : Bytes :=
  ascii ("goroutine 1 [running]:\nruntime/debug.Stack()\n\t/usr/local/go/src/runtime/debug/stack.go:24 +0x5e\n" ++
    "github.com/fine-snow/log4u.getFileAndLineByStack(0x1)\n\t/p/log4u.go:203 +0x1f\n" ++
    "github.com/fine-snow/log4u.ERROR(\x7b0xc000012345, 0x1, 0x1\x7d)\n\t/p/log4u.go:359 +0x3\n" ++
    "main.main.func1()\n\t/app/main.go:9 +0x45\n" ++
    "panic(\x7b0x48a2c0, 0x4b8f50\x7d)\n\t/usr/local/go/src/runtime/panic.go:884 +0x212\n" ++
    "main.load(...)\n\t/app/load.go:10 +0x1d\nmain.main()\n\t/app/main.go:14 +0x1d\n")

/-- The parts of `recoveredPanicTrace` before the marker, between the marker
and the next `)\n\t`, and after the line number. -/
def recoveredPanicPre : Bytes :=
  ascii ("goroutine 1 [running]:\nruntime/debug.Stack()\n\t/usr/local/go/src/runtime/debug/stack.go:24 +0x5e\n" ++
    "github.com/fine-snow/log4u.getFileAndLineByStack(0x1)\n\t/p/log4u.go:203 +0x1f\n" ++
    "github.com/fine-snow/log4u.ERROR(\x7b0xc000012345, 0x1, 0x1\x7d)\n\t/p/log4u.go:359 +0x3\n" ++
    "main.main.func1()\n\t/app/main.go:9 +0x45\n" ++
    "panic(\x7b0x48a2c0, 0x4b8f50\x7d)\n\t/usr/local/go")

def recoveredPanicMid : Bytes := ascii ":884 +0x212\nmain.load(..."

def recoveredPanicRest : Bytes := ascii "+0x1d\nmain.main()\n\t/app/main.go:14 +0x1d\n"

/-- A trace of the same shape whose frame line carries the numeral `2^63`. -/
def hugeLineTrace : Bytes :=
  ascii "/src/runtime/panic.go:884 +0x212\nmain.load(...)\n\t/app/load.go:9223372036854775808 +0x1d\n"

/-- A process with a channel of capacity 2 that is full. -/
def fullProc : Proc :=
  { globalLog4u :=
      { initLog4u with
        c := { buf := [{ level := OutLevel, line := 0, file := [], val := ascii "a\n" },
                       { level := OutLevel, line := 0, file := [], val := ascii "b\n" }],
               cap := 2 } }
    out := goodSink
    exit := none }

/-! ## Traces the resolver misreads -/

/-- A trace captured by `ERROR` called from a deferred function that recovers
a panic, in a program whose sources lie under `/home/u/my app`: the frame line
after the frame of `runtime/panic.go` holds a space inside the path. -/
def spacePathTrace : Bytes :=
  ascii ("goroutine 1 [running]:\nruntime/debug.Stack()\n\t/usr/local/go/src/runtime/debug/stack.go:24 +0x5e\n" ++
    "github.com/fine-snow/log4u.getFileAndLineByStack(0x1)\n\t/p/log4u.go:203 +0x1f\n" ++
    "github.com/fine-snow/log4u.ERROR(\x7b0xc000012345, 0x1, 0x1\x7d)\n\t/p/log4u.go:359 +0x3\n" ++
    "main.main.func1()\n\t/home/u/my app/main.go:9 +0x45\n" ++
    "panic(\x7b0x48a2c0, 0x4b8f50\x7d)\n\t/usr/local/go/src/runtime/panic.go:884 +0x212\n" ++
    "main.load(...)\n\t/home/u/my app/load.go:10 +0x1d\nmain.main()\n\t/home/u/my app/main.go:14 +0x1d\n")

/-- The call site of `spacePathTrace`: `runtime.Caller` reports the deferred
function that made the call. -/
def spacePathSite : Site :=
  { stack := spacePathTrace
    Caller := fun skip => if skip = 3 then some (ascii "/home/u/my app/main.go", 9) else none }

/-- The trace of `recoveredPanicTrace` when the compiler has inlined
`main.load` into `main.main`: the runtime prints the location of an inlined
frame without a pc offset, so no space ends its line. -/
def inlinedFrameTrace : Bytes :=
  ascii ("goroutine 1 [running]:\nruntime/debug.Stack()\n\t/usr/local/go/src/runtime/debug/stack.go:24 +0x5e\n" ++
    "github.com/fine-snow/log4u.getFileAndLineByStack(0x1)\n\t/p/log4u.go:203 +0x1f\n" ++
    "github.com/fine-snow/log4u.ERROR(\x7b0xc000012345, 0x1, 0x1\x7d)\n\t/p/log4u.go:359 +0x3\n" ++
    "main.main.func1()\n\t/app/main.go:9 +0x45\n" ++
    "panic(\x7b0x48a2c0, 0x4b8f50\x7d)\n\t/usr/local/go/src/runtime/panic.go:884 +0x212\n" ++
    "main.load(...)\n\t/app/load.go:10\nmain.main()\n\t/app/main.go:14 +0x1d\n")

/-- Reference reading of a traceback, after the layout the Go runtime prints:
a frame is a line `name(args)` followed by a line made of a tab, the file, a
colon, the line number and, unless the frame is inlined, a space and the pc
offset. `frameLocation stack` is the location of the first frame after the
first occurrence of the marker: the text from the first `)\n\t` after the
marker to the end of that line, cut at its first space, split at its last
colon, the part after the colon read as a decimal numeral. -/
def frameLocation (stack : Bytes) : Option (Bytes × Nat) :=
  match findSub panicBytes stack with
  | none => none
  | some i =>
    match findSub otherBytes (stack.drop i) with
    | none => none
    | some j =>
      let loc := (((stack.drop i).drop (j + 3)).takeWhile (fun c => c ≠ 10)).takeWhile
        (fun c => c ≠ 32)
      match findLastByte 58 loc with
      | none => none
      | some k =>
        if isNumeral (loc.drop (k + 1)) then some (loc.take k, digitsValue (loc.drop (k + 1)))
        else none

/-- The calls `Info("x")`, `Warn("y")` from ordinary code, then `Error("z")`
from the deferred function of `spacePathSite`. -/
def lostErrorCalls : List (Event stringFmt) :=
  [ .call false (.INFO exampleSite [ascii "x"]),
    .call false (.WARN exampleSite [ascii "y"]),
    .call false (.ERROR spacePathSite [ascii "z"]) ]

end Log4uPkg

/-! # core.go -/

namespace CorePkg

open Log4uPkg (Bytes Logger OutLevel InfoLevel WarnLevel ErrorLevel Outcome Fmt)

structure logInfo where
  level : Nat
  val : Bytes
  deriving Repr, DecidableEq

/-- The `Log4u` of `core.go`; its loggers are `*log.Logger` of the standard
library, kept here by prefix and flags. -/
structure Log4u where
  o : Logger
  i : Logger
  w : Logger
  e : Logger
  level : Nat
  c : List logInfo
  cap : Nat
  deriving Repr, DecidableEq

/-- Go `SetLevel(level)` of `core.go` (71-78). -/
def SetLevel (globalLog4u : Log4u) (level : Nat) : Log4u :=
  if level = OutLevel ∨ level = InfoLevel ∨ level = WarnLevel ∨ level = ErrorLevel then
    { globalLog4u with level := level }
  else
    { globalLog4u with level := OutLevel }

/-- Go `l.c <- x` on the channel of `core.go`: blocks while the buffer is full. -/
def Log4u.send (l : Log4u) (x : logInfo) : Outcome Log4u :=
  if l.c.length < l.cap then .done { l with c := l.c ++ [x] } else .blocked

/-! The operations of `core.go` (108-208). Each gives what the call itself
writes to `os.Stdout` before it reaches the channel, and then the outcome of
the rest of the call. -/

/-- Go `(l *Log4u).OUT(v...)` of `core.go`. -/
def Log4u.OUT (F : Fmt) (l : Log4u) (v : List F.Any) : Bytes × Outcome Log4u :=
  if l.level < OutLevel then ([], .done l)
  else
    let str := F.Sprintln v
    ([], l.send { level := OutLevel, val := str })

/-- Go `(l *Log4u).INFO(v...)` of `core.go`. -/
def Log4u.INFO (F : Fmt) (l : Log4u) (v : List F.Any) : Bytes × Outcome Log4u :=
  if l.level < InfoLevel then ([], .done l)
  else
    let str := F.Sprintln v
    ([], l.send { level := InfoLevel, val := str })

/-- Go `(l *Log4u).INFOF(format, v...)` of `core.go`. -/
def Log4u.INFOF (F : Fmt) (l : Log4u) (format : Bytes) (v : List F.Any) :
    Bytes × Outcome Log4u :=
  if l.level < InfoLevel then ([], .done l)
  else
    let str := F.Sprintf format v
    ([], l.send { level := InfoLevel, val := str })

/-- Go `(l *Log4u).WARN(v...)` of `core.go`. -/
def Log4u.WARN (F : Fmt) (l : Log4u) (v : List F.Any) : Bytes × Outcome Log4u :=
  if l.level < WarnLevel then ([], .done l)
  else
    let str := F.Sprintln v
    ([], l.send { level := WarnLevel, val := str })

/-- Go `(l *Log4u).WARNF(format, v...)` of `core.go`. -/
def Log4u.WARNF (F : Fmt) (l : Log4u) (format : Bytes) (v : List F.Any) :
    Bytes × Outcome Log4u :=
  if l.level < WarnLevel then ([], .done l)
  else
    let str := F.Sprintf format v
    ([], l.send { level := WarnLevel, val := str })

/-- Go `(l *Log4u).ERROR(v...)` of `core.go` (148-153). `Caller` is
`runtime.Caller(skip)` as read inside the method; `file` is the empty string
when the runtime reports nothing; `fmt.Println(file)` writes `file` and a
newline to `os.Stdout`. -/
def Log4u.ERROR (F : Fmt) (l : Log4u) (Caller : Int → Option (Bytes × Int)) (v : List F.Any) :
    Bytes × Outcome Log4u :=
  let str := F.Sprintln v
  let file : Bytes := match Caller 2 with
    | some (file, _) => file
    | none => []
  (file ++ [10], l.send { level := ErrorLevel, val := str })

/-- Go `(l *Log4u).ERRORF(format, v...)` of `core.go`. -/
def Log4u.ERRORF (F : Fmt) (l : Log4u) (format : Bytes) (v : List F.Any) :
    Bytes × Outcome Log4u :=
  let str := F.Sprintf format v
  ([], l.send { level := ErrorLevel, val := str })

/-- Go `New()` of `core.go`. -/
def New (globalLog4u : Log4u) : Log4u := globalLog4u

/-- Go `OUT(v...)` of `core.go`. -/
def OUT (F : Fmt) (globalLog4u : Log4u) (v : List F.Any) : Bytes × Outcome Log4u :=
  if globalLog4u.level < OutLevel then ([], .done globalLog4u)
  else
    let str := F.Sprintln v
    ([], globalLog4u.send { level := OutLevel, val := str })

/-- Go `INFO(v...)` of `core.go`. -/
def INFO (F : Fmt) (globalLog4u : Log4u) (v : List F.Any) : Bytes × Outcome Log4u :=
  if globalLog4u.level < InfoLevel then ([], .done globalLog4u)
  else
    let str := F.Sprintln v
    ([], globalLog4u.send { level := InfoLevel, val := str })

/-- Go `INFOF(format, v...)` of `core.go`. -/
def INFOF (F : Fmt) (globalLog4u : Log4u) (format : Bytes) (v : List F.Any) :
    Bytes × Outcome Log4u :=
  if globalLog4u.level < InfoLevel then ([], .done globalLog4u)
  else
    let str := F.Sprintf format v
    ([], globalLog4u.send { level := InfoLevel, val := str })

/-- Go `WARN(v...)` of `core.go`. -/
def WARN (F : Fmt) (globalLog4u : Log4u) (v : List F.Any) : Bytes × Outcome Log4u :=
  if globalLog4u.level < WarnLevel then ([], .done globalLog4u)
  else
    let str := F.Sprintln v
    ([], globalLog4u.send { level := WarnLevel, val := str })

/-- Go `WARNF(format, v...)` of `core.go`. -/
def WARNF (F : Fmt) (globalLog4u : Log4u) (format : Bytes) (v : List F.Any) :
    Bytes × Outcome Log4u :=
  if globalLog4u.level < WarnLevel then ([], .done globalLog4u)
  else
    let str := F.Sprintf format v
    ([], globalLog4u.send { level := WarnLevel, val := str })

/-- Go `ERROR(v...)` of `core.go`. -/
def ERROR (F : Fmt) (globalLog4u : Log4u) (v : List F.Any) : Bytes × Outcome Log4u :=
  let str := F.Sprintln v
  ([], globalLog4u.send { level := ErrorLevel, val := str })

/-- Go `ERRORF(format, v...)` of `core.go`. -/
def ERRORF (F : Fmt) (globalLog4u : Log4u) (format : Bytes) (v : List F.Any) :
    Bytes × Outcome Log4u :=
  let str := F.Sprintf format v
  ([], globalLog4u.send { level := ErrorLevel, val := str })

/-- The value `init` of `core.go` gives `globalLog4u` (42-47). -/
def initLog4u : Log4u :=
  { o := Log4uPkg.newLogger (Log4uPkg.ascii "") 0
    i := Log4uPkg.newLogger (Log4uPkg.ascii "\x1b[34mINFO\x1b[0m ")
      (Log4uPkg.LstdFlags ||| Log4uPkg.Lmsgprefix ||| Log4uPkg.Llongfile)
    w := Log4uPkg.newLogger (Log4uPkg.ascii "\x1b[33mWARN\x1b[0m ")
      (Log4uPkg.LstdFlags ||| Log4uPkg.Lmsgprefix ||| Log4uPkg.Llongfile)
    e := Log4uPkg.newLogger (Log4uPkg.ascii "\x1b[31mERROR\x1b[0m ")
      (Log4uPkg.LstdFlags ||| Log4uPkg.Lmsgprefix)
    level := OutLevel
    c := []
    cap := 100 }

end CorePkg

/-! # Theorems -/

namespace Log4uPkg

/-! ## itoa -/

theorem wrap64_id (x : Int) (h : isInt64 x) : wrap64 x = x := by
  unfold isInt64 at h
  unfold wrap64
  have h1 : 0 ≤ x + 2 ^ 63 := by omega
  have h2 : x + 2 ^ 63 < 2 ^ 64 := by omega
  rw [Int.emod_eq_of_lt h1 h2]; omega

theorem itoaLoop_acc (k : Nat) : ∀ (i wid : Int) (acc : Bytes),
    itoaLoop k i wid acc = (itoaLoop k i wid []).map (fun ds => ds ++ acc) := by
  induction k with
  | zero => intro i wid acc; simp [itoaLoop]
  | succ k ih =>
    intro i wid acc
    unfold itoaLoop
    split
    · simp only []
      rw [ih _ _ (_ :: acc), ih _ _ [_]]
      simp [Option.map_map, Function.comp_def]
    · simp

theorem itoa_append (a b : Bytes) (i wid : Int) :
    itoa (a ++ b) i wid = (itoa b i wid).map (fun r => a ++ r) := by
  simp [itoa, Option.map_map, Function.comp_def, List.append_assoc]

theorem itoa_eq (buf : Bytes) (i wid : Int) :
    itoa buf i wid = (itoa [] i wid).map (fun r => buf ++ r) := by
  simp [itoa, Option.map_map, Function.comp_def]


theorem decimalFuel_eq_digits (fuel : Nat) : ∀ n : Nat, n < fuel →
    decimalFuel fuel n =
      if n = 0 then [48] else (Nat.digits 10 n).reverse.map (fun d => 48 + d) := by
  induction fuel with
  | zero => intro n h; omega
  | succ fuel ih =>
    intro n hn
    unfold decimalFuel
    by_cases h : n < 10
    · rw [if_pos h]
      by_cases h0 : n = 0
      · subst h0; rfl
      · rw [if_neg h0, Nat.digits_of_lt 10 n h0 h]; rfl
    · rw [if_neg h, ih (n / 10) (by omega)]
      have h0 : n ≠ 0 := by omega
      have hq : n / 10 ≠ 0 := by omega
      rw [if_neg h0, if_neg hq, Nat.digits_def' (by norm_num : 1 < 10) (by omega : 0 < n)]
      simp

theorem decimal_eq_digits (n : Nat) :
    decimal n = if n = 0 then [48] else (Nat.digits 10 n).reverse.map (fun d => 48 + d) :=
  decimalFuel_eq_digits (n + 1) n (Nat.lt_succ_self n)

theorem decimal_lt_ten (n : Nat) (h : n < 10) : decimal n = [48 + n] := by
  rw [decimal_eq_digits]
  split
  · subst_vars; rfl
  · rename_i h0
    rw [Nat.digits_of_lt 10 n h0 h]; rfl

theorem decimal_ge_ten (n : Nat) (h : 10 ≤ n) :
    decimal n = decimal (n / 10) ++ [48 + n % 10] := by
  have h0 : n ≠ 0 := by omega
  have hq : n / 10 ≠ 0 := by omega
  rw [decimal_eq_digits, decimal_eq_digits]
  rw [if_neg h0, if_neg hq, Nat.digits_def' (by norm_num : 1 < 10) (by omega : 0 < n)]
  simp

theorem decimal_length_pos (n : Nat) : 0 < (decimal n).length := by
  by_cases h : n < 10
  · rw [decimal_lt_ten n h]; simp
  · rw [decimal_ge_ten n (by omega)]; simp

theorem digit_byte (n : Nat) :
    ((48 + (n : Int) - Int.tdiv (n : Int) 10 * 10) % 256).toNat = 48 + n % 10 := by
  rw [Int.tdiv_eq_ediv (by omega) (by norm_num)]
  omega

theorem itoaLoop_nat (k : Nat) : ∀ (n : Nat) (wid : Int) (acc : Bytes),
    (decimal n).length ≤ k → wid ≤ k → -(2 ^ 63) + (k : Int) ≤ wid → (k : Int) ≤ 2 ^ 63 →
    itoaLoop k (n : Int) wid acc = some (zeroPad (max wid 1).toNat (decimal n) ++ acc) := by
  induction k with
  | zero =>
    intro n wid acc hlen
    have := decimal_length_pos n
    omega
  | succ k ih =>
    intro n wid acc hlen hw hlo hk
    unfold itoaLoop
    split
    · rename_i hc
      simp only []
      have hq : Int.tdiv (n : Int) 10 = ((n / 10 : Nat) : Int) := by
        rw [Int.tdiv_eq_ediv (by omega) (by norm_num)]; omega
      rw [digit_byte, hq, wrap64_id _ (by unfold isInt64; push_cast at *; omega)]
      by_cases h10 : 10 ≤ n
      · have hd := decimal_ge_ten n h10
        rw [hd] at hlen ⊢
        simp only [List.length_append, List.length_singleton] at hlen
        rw [ih (n / 10) (wid - 1) _ (by omega) (by push_cast at *; omega)
          (by push_cast at *; omega) (by push_cast at *; omega)]
        simp only [zeroPad, List.length_append, List.length_singleton, Option.some.injEq]
        have hp := decimal_length_pos (n / 10)
        have : (max (wid - 1) 1).toNat - (decimal (n / 10)).length =
            (max wid 1).toNat - ((decimal (n / 10)).length + 1) := by omega
        rw [this]; simp
      · have hw1 : wid > 1 := by
          rcases hc with hc | hc
          · omega
          · exact hc
        have hn : n < 10 := by omega
        have hq0 : n / 10 = 0 := by omega
        rw [hq0, ih 0 (wid - 1) _ (by rw [decimal_lt_ten 0 (by norm_num)]; simp; omega)
          (by push_cast at *; omega) (by push_cast at *; omega) (by push_cast at *; omega)]
        rw [decimal_lt_ten 0 (by norm_num), decimal_lt_ten n hn, Nat.mod_eq_of_lt hn]
        simp only [zeroPad, List.length_singleton, Option.some.injEq]
        have : (max wid 1).toNat - 1 = ((max (wid - 1) 1).toNat - 1) + 1 := by omega
        rw [this, List.replicate_succ']
        simp
    · rename_i hc
      have hn : n < 10 := by omega
      have hw1 : wid ≤ 1 := by omega
      rw [decimal_lt_ten n hn]
      have : (max wid 1).toNat = 1 := by omega
      simp only [zeroPad, this, List.length_singleton]
      have : ((48 + (n : Int)) % 256).toNat = 48 + n := by omega
      rw [this]; simp


theorem decimal_length_le (k : Nat) : ∀ n : Nat, n < 10 ^ (k + 1) → (decimal n).length ≤ k + 1 := by
  induction k with
  | zero => intro n hn; rw [decimal_lt_ten n (by simpa using hn)]; simp
  | succ k ih =>
    intro n hn
    by_cases h : n < 10
    · rw [decimal_lt_ten n h]; simp
    · rw [decimal_ge_ten n (by omega)]
      have : n / 10 < 10 ^ (k + 1) := by
        rw [Nat.div_lt_iff_lt_mul (by norm_num)]
        rw [pow_succ] at hn; exact hn
      have := ih (n / 10) this
      simp; omega

theorem itoa_nat (buf : Bytes) (n : Nat) (wid : Int) (hn : n < 2 ^ 63)
    (hlo : -(2 ^ 63) + 20 ≤ wid) (hhi : wid ≤ 20) :
    itoa buf (n : Int) wid = some (buf ++ zeroPad (max wid 1).toNat (decimal n)) := by
  have hlen : (decimal n).length ≤ 20 := by
    have := decimal_length_le 19 n (by norm_num at hn ⊢; omega)
    omega
  unfold itoa
  rw [itoaLoop_nat 20 n wid [] hlen (by simpa using hhi) (by simpa using hlo) (by norm_num)]
  simp

theorem tdiv_ten_lt (i : Int) (k : Nat) (h : i < 10 ^ (k + 1)) : Int.tdiv i 10 < 10 ^ k := by
  by_cases h0 : 0 ≤ i
  · rw [Int.tdiv_eq_ediv h0 (by norm_num)]
    apply Int.ediv_lt_of_lt_mul (by norm_num)
    rw [pow_succ] at h; exact h
  · have : Int.tdiv i 10 ≤ 0 := by
      have h1 := Int.tdiv_nonneg (a := -i) (b := 10) (by omega) (by norm_num)
      rw [Int.neg_tdiv] at h1; omega
    have : (0 : Int) < 10 ^ k := by positivity
    omega

theorem itoaLoop_isSome (k : Nat) : ∀ (i wid : Int) (acc : Bytes),
    i < 10 ^ k → wid ≤ k → 1 ≤ k → -(2 ^ 63) + (k : Int) ≤ wid → (k : Int) ≤ 2 ^ 63 →
    (itoaLoop k i wid acc).isSome = true := by
  induction k with
  | zero => intro i wid acc _ _ h; omega
  | succ k ih =>
    intro i wid acc hi hw _ hlo hk
    unfold itoaLoop
    split
    · rename_i hc
      simp only []
      have hk1 : 1 ≤ k := by
        rcases Nat.eq_zero_or_pos k with h0 | h0
        · subst h0; simp at hi hw; omega
        · exact h0
      rw [wrap64_id _ (by unfold isInt64; push_cast at *; omega)]
      exact ih _ _ _ (tdiv_ten_lt i k hi) (by push_cast at *; omega) hk1
        (by push_cast at *; omega) (by push_cast at *; omega)
    · simp

theorem itoa_isSome (buf : Bytes) (i wid : Int) (hi : isInt64 i)
    (hlo : -(2 ^ 63) + 20 ≤ wid) (hhi : wid ≤ 20) : (itoa buf i wid).isSome = true := by
  unfold itoa
  rw [Option.isSome_map']
  exact itoaLoop_isSome 20 i wid [] (by unfold isInt64 at hi; norm_num at hi ⊢; omega)
    (by simpa using hhi) (by norm_num) (by simpa using hlo) (by norm_num)

/-! ## formatHeader -/

theorem and_or_ne_zero (x a b : Nat) : x &&& (a ||| b) ≠ 0 ↔ (x &&& a ≠ 0 ∨ x &&& b ≠ 0) := by
  rw [Nat.and_or_distrib_left]
  constructor
  · intro h
    by_contra hc
    push_neg at hc
    rw [hc.1, hc.2] at h
    exact h rfl
  · intro h hc
    have h1 : x &&& a = 0 := by
      apply Nat.eq_of_testBit_eq; intro i
      have := congrArg (fun n => Nat.testBit n i) hc
      simp only [Nat.testBit_or, Nat.zero_testBit, Bool.or_eq_false_iff] at this
      simp [this.1]
    have h2 : x &&& b = 0 := by
      apply Nat.eq_of_testBit_eq; intro i
      have := congrArg (fun n => Nat.testBit n i) hc
      simp only [Nat.testBit_or, Nat.zero_testBit, Bool.or_eq_false_iff] at this
      simp [this.2]
    rcases h with h | h
    · exact h h1
    · exact h h2

theorem headerDate_append (flag : Nat) (a b : Bytes) (t : Time) :
    headerDate flag (a ++ b) t = (headerDate flag b t).map (fun r => a ++ r) := by
  unfold headerDate
  split
  · simp only [Time.Date, itoa]
    cases itoaLoop 20 t.wall.year 4 [] <;> cases itoaLoop 20 t.wall.month 2 [] <;>
      cases itoaLoop 20 t.wall.day 2 [] <;> simp
  · simp

theorem headerClock_append (flag : Nat) (a b : Bytes) (t : Time) :
    headerClock flag (a ++ b) t = (headerClock flag b t).map (fun r => a ++ r) := by
  unfold headerClock
  split
  · simp only [Time.Clock, itoa]
    cases itoaLoop 20 t.wall.hour 2 [] <;> cases itoaLoop 20 t.wall.minute 2 [] <;>
      cases itoaLoop 20 t.wall.second 2 [] <;>
      cases itoaLoop 20 (Int.tdiv t.Nanosecond 1000) 6 [] <;> simp <;> split <;> simp
  · simp

theorem headerTime_append (flag : Nat) (a b : Bytes) (t : Time) :
    headerTime flag (a ++ b) t = (headerTime flag b t).map (fun r => a ++ r) := by
  unfold headerTime
  split
  · simp only [headerDate_append flag a b]
    cases headerDate flag b (if flag &&& LUTC ≠ 0 then t.UTC else t) with
    | none => simp
    | some r => simp [headerClock_append flag a r]
  · simp

theorem headerFile_append (flag : Nat) (a b : Bytes) (file : Bytes) (line : Int) :
    headerFile flag (a ++ b) file line = (headerFile flag b file line).map (fun r => a ++ r) := by
  unfold headerFile
  split
  · simp only [itoa]
    cases itoaLoop 20 line (-1) [] <;> simp
  · simp

theorem formatHeader_append (l : Logger) (a b : Bytes) (t : Time) (file : Bytes) (line : Int) :
    formatHeader l (a ++ b) t file line = (formatHeader l b t file line).map (fun r => a ++ r) := by
  unfold formatHeader
  simp only []
  have e : (if l.flag &&& Lmsgprefix = 0 then a ++ b ++ l.prefix_ else a ++ b) =
      a ++ (if l.flag &&& Lmsgprefix = 0 then b ++ l.prefix_ else b) := by
    split <;> simp
  rw [e, headerTime_append]
  cases headerTime l.flag (if l.flag &&& Lmsgprefix = 0 then b ++ l.prefix_ else b) t with
  | none => simp
  | some r =>
    simp only [Option.map_some', Option.some_bind, headerFile_append l.flag a r]
    cases headerFile l.flag r file line with
    | none => simp
    | some r2 => simp; split <;> simp

theorem itoa_int (buf : Bytes) (i wid : Int) (h0 : 0 ≤ i) (hi : i < 2 ^ 63)
    (hlo : -(2 ^ 63) + 20 ≤ wid) (hhi : wid ≤ 20) :
    itoa buf i wid = some (buf ++ pad (max wid 1).toNat i) := by
  have e : i = ((i.toNat : Nat) : Int) := (Int.toNat_of_nonneg h0).symm
  have hn : i.toNat < 2 ^ 63 := by omega
  unfold pad
  conv_lhs => rw [e]
  exact itoa_nat buf i.toNat wid hn hlo hhi

theorem headerDate_layout (flag : Nat) (buf : Bytes) (t : Time) (ht : t.wall.valid) :
    headerDate flag buf t = some (buf ++ if flag &&& Ldate ≠ 0 then dateField t.wall else []) := by
  obtain ⟨hy, hm, hd, -⟩ := ht
  unfold headerDate
  split
  · simp only [Time.Date]
    rw [itoa_int _ _ 4 hy.1 hy.2 (by norm_num) (by norm_num)]
    simp only [Option.some_bind]
    rw [itoa_int _ _ 2 (by omega) (by omega) (by norm_num) (by norm_num)]
    simp only [Option.some_bind]
    rw [itoa_int _ _ 2 (by omega) (by omega) (by norm_num) (by norm_num)]
    simp [dateField]
  · simp

theorem headerClock_layout (flag : Nat) (buf : Bytes) (t : Time) (ht : t.wall.valid) :
    headerClock flag buf t = some (buf ++
      if flag &&& Ltime ≠ 0 ∨ flag &&& Lmicroseconds ≠ 0 then
        clockField t.wall ++ (if flag &&& Lmicroseconds ≠ 0 then microField t.wall else []) ++ [32]
      else []) := by
  obtain ⟨-, -, -, hh, hm, hs, hn⟩ := ht
  unfold headerClock
  rw [if_congr (and_or_ne_zero flag Ltime Lmicroseconds) rfl rfl]
  split
  · simp only [Time.Clock]
    rw [itoa_int _ _ 2 (by omega) (by omega) (by norm_num) (by norm_num)]
    simp only [Option.some_bind]
    rw [itoa_int _ _ 2 (by omega) (by omega) (by norm_num) (by norm_num)]
    simp only [Option.some_bind]
    rw [itoa_int _ _ 2 (by omega) (by omega) (by norm_num) (by norm_num)]
    simp only [Option.some_bind]
    split
    · have e : Int.tdiv t.Nanosecond 1000 = t.wall.nanosecond / 1000 := by
        unfold Time.Nanosecond
        exact Int.tdiv_eq_ediv hn.1 (by norm_num)
      rw [e, itoa_int _ _ 6 (by omega) (by omega) (by norm_num) (by norm_num)]
      simp [clockField, microField]
    · simp [clockField]
  · simp

theorem headerTime_layout (flag : Nat) (buf : Bytes) (t : Time) (ht : t.valid) :
    headerTime flag buf t = some (buf ++ dateTimeBlock flag t) := by
  unfold headerTime dateTimeBlock
  have hany : flag &&& (Ldate ||| Ltime ||| Lmicroseconds) ≠ 0 ↔
      (flag &&& Ldate ≠ 0 ∨ flag &&& Ltime ≠ 0 ∨ flag &&& Lmicroseconds ≠ 0) := by
    rw [Nat.or_assoc, and_or_ne_zero, and_or_ne_zero]
  by_cases hany2 : flag &&& (Ldate ||| Ltime ||| Lmicroseconds) ≠ 0
  · rw [if_pos hany2]
    simp only []
    by_cases hu : flag &&& LUTC ≠ 0
    · simp only [if_pos hu]
      rw [headerDate_layout flag buf t.UTC ht.2]
      simp only [Option.some_bind]
      rw [headerClock_layout flag _ t.UTC ht.2]
      simp [Time.UTC]
    · simp only [if_neg hu]
      rw [headerDate_layout flag buf t ht.1]
      simp only [Option.some_bind]
      rw [headerClock_layout flag _ t ht.1]
      simp
  · rw [if_neg hany2]
    have := (not_congr hany).mp hany2
    push_neg at this
    simp [this.1, this.2.1, this.2.2]

theorem headerFile_layout (flag : Nat) (buf file : Bytes) (line : Int)
    (h0 : 0 ≤ line) (hl : line < 2 ^ 63) :
    headerFile flag buf file line = some (buf ++ fileBlock flag file line) := by
  unfold headerFile fileBlock
  rw [if_congr (and_or_ne_zero flag Lshortfile Llongfile) rfl rfl]
  split
  · simp only []
    rw [itoa_int _ _ (-1) h0 hl (by norm_num) (by norm_num)]
    have : (max (-1 : Int) 1).toNat = 1 := by decide
    have hz : zeroPad 1 (decimal line.toNat) = decimal line.toNat := by
      have := decimal_length_pos line.toNat
      unfold zeroPad
      have : 1 - (decimal line.toNat).length = 0 := by omega
      rw [this]; simp
    simp [pad, hz]
  · simp

theorem headerFile_isSome (flag : Nat) (buf file : Bytes) (line : Int) (hl : isInt64 line) :
    (headerFile flag buf file line).isSome = true := by
  unfold headerFile
  split
  · simp only []
    have := itoa_isSome (buf ++ (if flag &&& Lshortfile ≠ 0 then
      shortLoop file (file.length - 1) else file) ++ [58]) line (-1) hl (by norm_num) (by norm_num)
    obtain ⟨r, hr⟩ := Option.isSome_iff_exists.mp this
    rw [hr]; simp
  · simp

theorem formatHeader_layout (l : Logger) (buf : Bytes) (t : Time) (file : Bytes) (line : Int)
    (ht : t.valid) (h0 : 0 ≤ line) (hl : line < 2 ^ 63) :
    formatHeader l buf t file line = some (buf ++
      (if l.flag &&& Lmsgprefix = 0 then l.prefix_ else []) ++
      dateTimeBlock l.flag t ++ fileBlock l.flag file line ++
      (if l.flag &&& Lmsgprefix ≠ 0 then l.prefix_ else [])) := by
  unfold formatHeader
  simp only []
  rw [headerTime_layout _ _ _ ht]
  simp only [Option.some_bind]
  rw [headerFile_layout _ _ _ _ h0 hl]
  simp only [Option.some_bind]
  by_cases h : l.flag &&& Lmsgprefix = 0 <;> simp [h]

theorem formatHeader_isSome (l : Logger) (buf : Bytes) (t : Time) (file : Bytes) (line : Int)
    (ht : t.valid) (hl : isInt64 line) : (formatHeader l buf t file line).isSome = true := by
  unfold formatHeader
  simp only []
  rw [headerTime_layout _ _ _ ht]
  simp only [Option.some_bind]
  obtain ⟨r, hr⟩ := Option.isSome_iff_exists.mp (headerFile_isSome l.flag
    ((if l.flag &&& Lmsgprefix = 0 then buf ++ l.prefix_ else buf) ++ dateTimeBlock l.flag t)
    file line hl)
  rw [hr]; simp

/-! ## The short file name -/

theorem findLastByte_none (c : Nat) : ∀ s : Bytes, findLastByte c s = none →
    ∀ k, k < s.length → s.getD k 0 ≠ c := by
  intro s
  induction s with
  | nil => intro _ k hk; simp at hk
  | cons x rest ih =>
    intro h k hk
    unfold findLastByte at h
    cases hr : findLastByte c rest with
    | some n => rw [hr] at h; cases h
    | none =>
      rw [hr] at h
      simp only at h
      have hx : x ≠ c := by
        intro e; rw [if_pos e] at h; cases h
      cases k with
      | zero => simpa using hx
      | succ k =>
        have := ih hr k (by simpa using hk)
        simpa using this

theorem findLastByte_some (c : Nat) : ∀ (s : Bytes) (j : Nat), findLastByte c s = some j →
    j < s.length ∧ s.getD j 0 = c ∧ ∀ k, j < k → k < s.length → s.getD k 0 ≠ c := by
  intro s
  induction s with
  | nil => intro j h; simp [findLastByte] at h
  | cons x rest ih =>
    intro j h
    unfold findLastByte at h
    cases hr : findLastByte c rest with
    | some n =>
      rw [hr] at h
      simp only [Option.some.injEq] at h
      subst h
      obtain ⟨h1, h2, h3⟩ := ih n hr
      refine ⟨by simpa using h1, by simpa using h2, ?_⟩
      intro k hk hlen
      cases k with
      | zero => omega
      | succ k =>
        have := h3 k (by omega) (by simpa using hlen)
        simpa using this
    | none =>
      rw [hr] at h
      simp only at h
      by_cases hx : x = c
      · rw [if_pos hx] at h
        simp only [Option.some.injEq] at h
        subst h
        refine ⟨by simp, by simpa using hx, ?_⟩
        intro k hk hlen
        cases k with
        | zero => omega
        | succ k =>
          have := findLastByte_none c rest hr k (by simpa using hlen)
          simpa using this
      · rw [if_neg hx] at h; cases h

theorem shortLoop_found (file : Bytes) : ∀ n j : Nat, 1 ≤ j → j ≤ n → file.getD j 0 = 47 →
    (∀ k, j < k → k ≤ n → file.getD k 0 ≠ 47) → shortLoop file n = file.drop (j + 1) := by
  intro n
  induction n with
  | zero => intro j h1 h2; omega
  | succ n ih =>
    intro j h1 h2 hj hk
    unfold shortLoop
    by_cases h : file.getD (n + 1) 0 = 47
    · rw [if_pos h]
      have : j = n + 1 := by
        by_contra hne
        exact hk (n + 1) (by omega) (by omega) h
      rw [this]
    · rw [if_neg h]
      have hjn : j ≤ n := by
        rcases Nat.lt_or_ge j (n + 1) with hlt | hge
        · omega
        · have : j = n + 1 := by omega
          rw [this] at hj; exact absurd hj h
      exact ih j h1 hjn hj (fun k hk1 hk2 => hk k hk1 (by omega))

theorem shortLoop_not_found (file : Bytes) : ∀ n : Nat,
    (∀ k, 1 ≤ k → k ≤ n → file.getD k 0 ≠ 47) → shortLoop file n = file := by
  intro n
  induction n with
  | zero => intro _; rfl
  | succ n ih =>
    intro hk
    unfold shortLoop
    rw [if_neg (hk (n + 1) (by omega) (by omega))]
    exact ih (fun k h1 h2 => hk k h1 (by omega))

theorem shortLoop_eq_finalElement (file : Bytes) (h : findLastByte 47 file ≠ some 0) :
    shortLoop file (file.length - 1) = finalElement file := by
  unfold finalElement
  cases hf : findLastByte 47 file with
  | none =>
    simp only
    apply shortLoop_not_found
    intro k _ hk
    by_cases hlen : k < file.length
    · exact findLastByte_none 47 file hf k hlen
    · omega
  | some j =>
    simp only
    obtain ⟨h1, h2, h3⟩ := findLastByte_some 47 file j hf
    have hj : j ≠ 0 := by
      intro e; rw [e] at hf; exact h hf
    exact shortLoop_found file _ j (by omega) (by omega) h2
      (fun k hk1 hk2 => h3 k hk1 (by omega))

theorem shortLoop_leading_slash (file : Bytes) (h : findLastByte 47 file = some 0) :
    shortLoop file (file.length - 1) = file := by
  obtain ⟨h1, h2, h3⟩ := findLastByte_some 47 file 0 h
  apply shortLoop_not_found
  intro k hk1 hk2
  exact h3 k (by omega) (by omega)

/-! ## Output -/

theorem getD_last (s : Bytes) (hs : s ≠ []) :
    s.getLast? = some (s.getD (s.length - 1) 0) := by
  rw [List.getLast?_eq_getElem?, List.getD_eq_getElem?_getD]
  have : s.length - 1 < s.length := by
    have := List.length_pos.mpr hs; omega
  rw [List.getElem?_eq_getElem this]; rfl

theorem appendBody_eq (buf s : Bytes) :
    appendBody buf s =
      if s ≠ [] ∧ s.getLast? = some 10 then buf ++ s else buf ++ s ++ [10] := by
  unfold appendBody
  by_cases hs : s = []
  · subst hs; simp
  · have hl : s.length ≠ 0 := by simpa using hs
    rw [getD_last s hs]
    simp only [hl, false_or, ne_eq, hs, not_false_eq_true, true_and, Option.some.injEq]
    by_cases h : s.getD (s.length - 1) 0 = 10 <;> simp [h]

theorem appendBody_getLast (buf s : Bytes) : (appendBody buf s).getLast? = some 10 := by
  rw [appendBody_eq]
  split
  · rename_i h
    rw [List.getLast?_append_of_ne_nil _ h.1]; exact h.2
  · simp

theorem Output_eq (l : Logger) (out : Sink) (now : Time) (s file : Bytes) (line : Int)
    (L : Bytes) (h : l.line now s file line = some L) :
    l.Output out now s file line =
      if out.failing out.written L then .panicked
      else .done ({ l with buf := L }, { out with written := out.written ++ [L] }) := by
  unfold Logger.Output
  rw [h]
  simp only [Outcome.ofOption, Outcome.bind, Sink.Write]
  by_cases hf : out.failing out.written L = true <;> simp [hf]

/-- Claim C5. For every logger, body `s`, file and line (an `int`) and clock
reading, `formatHeader` gives a header and `Output` presents to `Write` the
header followed by `s` when `s` is not empty and ends in a newline, and the
header, `s` and one newline otherwise; that line ends in a newline; it is what
the sink receives unless the write fails. -/
theorem Output_trailing_newline (l : Logger) (out : Sink) (now : Time) (s file : Bytes)
    (line : Int) (hnow : now.valid) (hline : isInt64 line) :
    ∃ header L : Bytes, formatHeader l [] now file line = some header ∧
      L = (if s ≠ [] ∧ s.getLast? = some 10 then header ++ s else header ++ s ++ [10]) ∧
      L.getLast? = some 10 ∧
      l.line now s file line = some L ∧
      l.Output out now s file line =
        if out.failing out.written L then .panicked
        else .done ({ l with buf := L }, { out with written := out.written ++ [L] }) := by
  obtain ⟨header, hh⟩ := Option.isSome_iff_exists.mp
    (formatHeader_isSome l [] now file line hnow hline)
  have hline2 : l.line now s file line = some (appendBody header s) := by
    simp [Logger.line, hh]
  refine ⟨header, appendBody header s, hh, appendBody_eq header s, appendBody_getLast header s,
    hline2, Output_eq l out now s file line _ hline2⟩

set_option maxRecDepth 8000 in
theorem Output_trailing_newline_witness :
    (∃ header L : Bytes, formatHeader initLog4u.i [] exampleTime (ascii "/p/main.go") 7 =
        some header ∧
      L = (if ascii "x" ≠ [] ∧ (ascii "x").getLast? = some 10 then header ++ ascii "x"
            else header ++ ascii "x" ++ [10]) ∧
      L.getLast? = some 10 ∧
      initLog4u.i.line exampleTime (ascii "x") (ascii "/p/main.go") 7 = some L ∧
      initLog4u.i.Output goodSink exampleTime (ascii "x") (ascii "/p/main.go") 7 =
        if goodSink.failing goodSink.written L then .panicked
        else .done ({ initLog4u.i with buf := L },
          { goodSink with written := goodSink.written ++ [L] })) ∧
    initLog4u.i.line exampleTime (ascii "x") (ascii "/p/main.go") 7 =
      some (ascii "2009-01-23 01:23:23 main.go:7: \x1b[34mINFO\x1b[0m x\n") ∧
    initLog4u.i.line exampleTime (ascii "x\n") (ascii "/p/main.go") 7 =
      some (ascii "2009-01-23 01:23:23 main.go:7: \x1b[34mINFO\x1b[0m x\n") ∧
    initLog4u.o.line exampleTime (ascii "") (ascii "") 0 = some (ascii "\n") :=
  ⟨Output_trailing_newline initLog4u.i goodSink exampleTime (ascii "x") (ascii "/p/main.go") 7
    (by decide) (by decide), rfl, rfl, rfl⟩

/-- Claim C8. The line `Output` renders is the line rendered with an empty
prefix, with the prefix put in once: before everything else when `Lmsgprefix`
is not set, and between the rest of the header and the body when it is set. -/
theorem prefix_placement (l : Logger) (now : Time) (s file : Bytes) (line : Int) :
    l.line now s file line =
      (formatHeader { l with prefix_ := [] } [] now file line).map fun core =>
        if l.flag &&& Lmsgprefix = 0 then l.prefix_ ++ core ++ appendBody [] s
        else core ++ l.prefix_ ++ appendBody [] s := by
  have hb : ∀ h : Bytes, appendBody h s = h ++ appendBody [] s := by
    intro h; simp only [appendBody_eq]; split <;> simp
  unfold Logger.line formatHeader
  simp only [List.take_zero, List.nil_append, List.append_nil, ite_self]
  by_cases hp : l.flag &&& Lmsgprefix = 0
  · simp only [hp, if_true, ne_eq, not_true_eq_false, if_false]
    have := headerTime_append l.flag l.prefix_ [] now
    rw [List.append_nil] at this
    rw [this]
    cases h1 : headerTime l.flag [] now with
    | none => simp
    | some r1 =>
      simp only [Option.map_some', Option.some_bind]
      rw [headerFile_append l.flag l.prefix_ r1]
      cases h2 : headerFile l.flag r1 file line with
      | none => simp
      | some r2 => simp [hb (l.prefix_ ++ r2)]
  · simp only [hp, if_false, ne_eq, not_false_eq_true, if_true]
    cases h1 : headerTime l.flag [] now with
    | none => simp
    | some r1 =>
      simp only [Option.some_bind]
      cases h2 : headerFile l.flag r1 file line with
      | none => simp
      | some r2 => simp [hb (r2 ++ l.prefix_)]

set_option maxRecDepth 8000 in
theorem prefix_placement_witness :
    (newLogger (ascii "P ") (Ltime ||| Llongfile)).line exampleTime (ascii "m") (ascii "a.go") 5
      = some (ascii "P 01:23:23 a.go:5: m\n") ∧
    (newLogger (ascii "P ") (Ltime ||| Llongfile ||| Lmsgprefix)).line exampleTime (ascii "m")
        (ascii "a.go") 5
      = some (ascii "01:23:23 a.go:5: P m\n") :=
  ⟨(prefix_placement (newLogger (ascii "P ") (Ltime ||| Llongfile)) exampleTime (ascii "m")
      (ascii "a.go") 5).trans rfl,
   (prefix_placement (newLogger (ascii "P ") (Ltime ||| Llongfile ||| Lmsgprefix)) exampleTime
      (ascii "m") (ascii "a.go") 5).trans rfl⟩

/-! ## Producers and the consumer -/

theorem enqueue_done (l l1 : Log4u) (lev : Nat) (loc : Outcome (Bytes × Int)) (body : Bytes)
    (h : (loc.bind fun (file, line) =>
          (l.c.send { level := lev, line := line, file := file, val := body }).bind fun c =>
          Outcome.done { l with c := c }) = .done l1) :
    ∃ r, (match loc with
        | .done (file, line) => some { level := lev, line := line, file := file, val := body }
        | _ => none) = some r ∧ r.level = lev ∧
      l1 = { l with c := { l.c with buf := l.c.buf ++ [r] } } := by
  cases loc with
  | blocked => simp [Outcome.bind] at h
  | panicked => simp [Outcome.bind] at h
  | done fl =>
    obtain ⟨file, line⟩ := fl
    simp only [Outcome.bind, Chan.send] at h
    by_cases hr : l.c.buf.length < l.c.cap
    · rw [if_pos hr] at h
      simp only at h
      injection h with e
      exact ⟨_, rfl, rfl, e.symm⟩
    · rw [if_neg hr] at h; simp at h

theorem call_run_done {F : Fmt} (c : Call F) (asMethod : Bool) (l l1 : Log4u)
    (h : c.run asMethod l = .done l1) :
    (¬ c.level ≤ l.level ∧ l1 = l) ∨
    (c.level ≤ l.level ∧ ∃ r, c.record? = some r ∧ r.level = c.level ∧
      l1 = { l with c := { l.c with buf := l.c.buf ++ [r] } }) := by
  cases c <;> cases asMethod <;>
    simp only [Call.run, Inject, Call.method, Call.free, Log4u.OUT, OUT,
        Log4u.INFO, INFO, Log4u.INFOF, INFOF, Log4u.WARN, WARN, Log4u.WARNF, WARNF,
        Log4u.ERROR, ERROR, Log4u.ERRORF, ERRORF, Bool.false_eq_true, if_false, if_true] at h <;>
    simp only [Call.level, Call.record?, Call.locate, Call.body] <;>
    first
    | (split at h
       · rename_i hg
         injection h with e
         left; exact ⟨Nat.not_le.mpr hg, e.symm⟩
       · rename_i hg
         right; exact ⟨Nat.not_lt.mp hg, enqueue_done l l1 _ _ _ h⟩)
    | (split at h
       · rename_i hg
         injection h with e
         left; exact ⟨Nat.not_le.mpr hg, e.symm⟩
       · rename_i hg
         right; exact ⟨Nat.not_lt.mp hg, enqueue_done l l1 OutLevel (.done ([], 0)) _ h⟩)
    | (right; exact ⟨Nat.zero_le _, enqueue_done l l1 _ _ _ h⟩)

theorem line_congr (l l2 : Logger) (h : l.config = l2.config) (now : Time) (s file : Bytes)
    (line : Int) : l.line now s file line = l2.line now s file line := by
  simp only [Logger.config, Prod.mk.injEq] at h
  simp [Logger.line, formatHeader, h.1, h.2]

theorem lineOf_congr (l l2 : Log4u) (h : l.configs = l2.configs) (now : Time) (r : logInfo) :
    l.lineOf now r = l2.lineOf now r := by
  simp only [Log4u.configs, Prod.mk.injEq] at h
  unfold Log4u.lineOf Log4u.loggerOf
  split
  · exact line_congr _ _ h.1 _ _ _ _
  · split
    · exact line_congr _ _ h.2.1 _ _ _ _
    · split
      · exact line_congr _ _ h.2.2.1 _ _ _ _
      · exact line_congr _ _ h.2.2.2 _ _ _ _

theorem Output_cases (l : Logger) (out : Sink) (now : Time) (s file : Bytes) (line : Int) :
    l.Output out now s file line = .panicked ∨
    ∃ L, l.line now s file line = some L ∧ out.failing out.written L = false ∧
      l.Output out now s file line =
        .done ({ l with buf := L }, { out with written := out.written ++ [L] }) := by
  cases h : l.line now s file line with
  | none => left; simp [Logger.Output, h, Outcome.ofOption, Outcome.bind]
  | some L =>
    rw [Output_eq l out now s file line L h]
    by_cases hf : out.failing out.written L = true
    · left; simp [hf]
    · right; exact ⟨L, rfl, by simpa using hf, by simp [hf]⟩

theorem dispatch_cases (l : Log4u) (out : Sink) (now : Time) (info : logInfo)
    (hlev : info.level ≤ OutLevel) :
    l.dispatch out now info = .panicked ∨
    ∃ L l2, l.lineOf now info = some L ∧ out.failing out.written L = false ∧
      l.dispatch out now info = .done (l2, { out with written := out.written ++ [L] }) ∧
      l2.configs = l.configs ∧ l2.c = l.c ∧ l2.level = l.level := by
  unfold Log4u.dispatch Log4u.lineOf Log4u.loggerOf
  by_cases h3 : info.level = OutLevel
  · simp only [if_pos h3]
    rcases Output_cases l.o out now info.val info.file info.line with h | ⟨L, h1, hf, h2⟩
    · left; rw [h]; rfl
    · right; rw [h2]; exact ⟨L, _, h1, hf, rfl, rfl, rfl, rfl⟩
  · simp only [if_neg h3]
    by_cases h2 : info.level = InfoLevel
    · simp only [if_pos h2]
      rcases Output_cases l.i out now info.val info.file info.line with h | ⟨L, h1, hf, h2⟩
      · left; rw [h]; rfl
      · right; rw [h2]; exact ⟨L, _, h1, hf, rfl, rfl, rfl, rfl⟩
    · simp only [if_neg h2]
      by_cases h1 : info.level = WarnLevel
      · simp only [if_pos h1]
        rcases Output_cases l.w out now info.val info.file info.line with h | ⟨L, h1, hf, h2⟩
        · left; rw [h]; rfl
        · right; rw [h2]; exact ⟨L, _, h1, hf, rfl, rfl, rfl, rfl⟩
      · simp only [if_neg h1]
        have h0 : info.level = ErrorLevel := by
          simp only [OutLevel, InfoLevel, WarnLevel, ErrorLevel] at *; omega
        simp only [if_pos h0]
        rcases Output_cases l.e out now info.val info.file info.line with h | ⟨L, h1, hf, h2⟩
        · left; rw [h]; rfl
        · right; rw [h2]; exact ⟨L, _, h1, hf, rfl, rfl, rfl, rfl⟩

theorem bind_done {α β : Type} (x : Outcome α) (f : α → Outcome β) (b : β)
    (h : x.bind f = .done b) : ∃ a, x = .done a ∧ f a = .done b := by
  cases x with
  | done a => exact ⟨a, rfl, h⟩
  | blocked => simp [Outcome.bind] at h
  | panicked => simp [Outcome.bind] at h

theorem step_exited {F : Fmt} (p : Proc) (code : Nat) (hx : p.exit = some code) (ev : Event F) :
    p.step ev = .blocked := by
  cases ev <;> simp [Proc.step, Proc.outLogStep, hx]

theorem run_exited {F : Fmt} (p p2 : Proc) (code : Nat) (hx : p.exit = some code)
    (evs : List (Event F)) (h : p.run evs = .done p2) : evs = [] ∧ p2 = p := by
  cases evs with
  | nil => simp only [Proc.run] at h; injection h with e; exact ⟨rfl, e.symm⟩
  | cons ev rest =>
    simp only [Proc.run, step_exited p code hx ev, Outcome.bind] at h
    cases h

theorem Call.level_le {F : Fmt} (c : Call F) : c.level ≤ OutLevel := by
  cases c <;> simp [Call.level, OutLevel, InfoLevel, WarnLevel, ErrorLevel]

theorem SetLevel_level (g : Log4u) (v : Nat) : (SetLevel g v).level = clampLevel v := by
  unfold SetLevel clampLevel
  by_cases h : v = ErrorLevel ∨ v = WarnLevel ∨ v = InfoLevel ∨ v = OutLevel
  · have h2 : v = OutLevel ∨ v = InfoLevel ∨ v = WarnLevel ∨ v = ErrorLevel := by tauto
    rw [if_pos h, if_pos h2]
  · have h2 : ¬ (v = OutLevel ∨ v = InfoLevel ∨ v = WarnLevel ∨ v = ErrorLevel) := by tauto
    rw [if_neg h, if_neg h2]

theorem SetLevel_rest (g : Log4u) (v : Nat) :
    (SetLevel g v).c = g.c ∧ (SetLevel g v).o = g.o ∧ (SetLevel g v).i = g.i ∧
    (SetLevel g v).w = g.w ∧ (SetLevel g v).e = g.e := by
  unfold SetLevel
  split <;> exact ⟨rfl, rfl, rfl, rfl, rfl⟩

theorem outLogStep_done (p p1 : Proc) (now : Time) (h : p.outLogStep now = .done p1)
    (hlev : ∀ r ∈ p.globalLog4u.c.buf, r.level ≤ OutLevel) :
    p.exit = none ∧ ∃ r rest, p.globalLog4u.c.buf = r :: rest ∧
      p1.globalLog4u.c = { p.globalLog4u.c with buf := rest } ∧
      p1.globalLog4u.configs = p.globalLog4u.configs ∧
      p1.globalLog4u.level = p.globalLog4u.level ∧
      ((p1.exit = some 1 ∧ p1.out = p.out ∧
          ∀ L, p.globalLog4u.lineOf now r = some L → p.out.failing p.out.written L = true) ∨
       (p1.exit = none ∧ ∃ L, p.globalLog4u.lineOf now r = some L ∧
          p.out.failing p.out.written L = false ∧
          p1.out = { p.out with written := p.out.written ++ [L] })) := by
  unfold Proc.outLogStep at h
  cases hx : p.exit with
  | some code => rw [hx] at h; cases h
  | none =>
    rw [hx] at h
    refine ⟨rfl, ?_⟩
    cases hq : p.globalLog4u.c.buf with
    | nil => simp [Chan.recv, hq] at h
    | cons r rest =>
      simp only [Chan.recv, hq] at h
      have hr : r.level ≤ OutLevel := hlev r (by rw [hq]; exact List.mem_cons_self _ _)
      refine ⟨r, rest, rfl, ?_⟩
      rcases dispatch_cases { p.globalLog4u with c := { p.globalLog4u.c with buf := rest } }
        p.out now r hr with hd | ⟨L, l2, hL, hf, hd, hc, hcc, hlv⟩
      · rw [hd] at h
        simp only [errCatch, if_true] at h
        injection h with e
        subst e
        refine ⟨rfl, rfl, rfl, Or.inl ⟨rfl, rfl, ?_⟩⟩
        intro L hL
        by_contra hf
        have hL2 : Log4u.lineOf { p.globalLog4u with c := { p.globalLog4u.c with buf := rest } }
            now r = some L := by rw [← hL]; exact lineOf_congr _ _ rfl now r
        unfold Log4u.lineOf at hL2
        have hO := Output_eq _ p.out now r.val r.file r.line L hL2
        rw [if_neg hf] at hO
        have hr2 : r.level = OutLevel ∨ r.level = InfoLevel ∨ r.level = WarnLevel ∨
            r.level = ErrorLevel := by
          simp only [OutLevel, InfoLevel, WarnLevel, ErrorLevel] at *; omega
        unfold Log4u.dispatch at hd
        unfold Log4u.loggerOf at hO
        rcases hr2 with h3 | h3 | h3 | h3 <;>
          simp [h3, OutLevel, InfoLevel, WarnLevel, ErrorLevel] at hd hO <;>
          simp [hO, Outcome.bind] at hd
      · rw [hd] at h
        simp only at h
        injection h with e
        subst e
        refine ⟨hcc, hc, hlv, Or.inr ⟨rfl, L, ?_, hf, rfl⟩⟩
        rw [← hL]; exact lineOf_congr _ _ rfl now r

theorem run_invariant {F : Fmt} (evs : List (Event F)) : ∀ (p0 p : Proc),
    p0.exit = none → (∀ r ∈ p0.globalLog4u.c.buf, r.level ≤ OutLevel) →
    p0.run evs = .done p → p.exit = none →
    ∃ recs : List logInfo,
      recs.map some = (passing p0.globalLog4u.level evs).map Call.record? ∧
      (consumeTimes evs).length ≤ (p0.globalLog4u.c.buf ++ recs).length ∧
      p.globalLog4u.c.buf = (p0.globalLog4u.c.buf ++ recs).drop (consumeTimes evs).length ∧
      p.out.written.map some = p0.out.written.map some ++
        List.zipWith p0.globalLog4u.lineOf (consumeTimes evs) (p0.globalLog4u.c.buf ++ recs) := by
  induction evs with
  | nil =>
    intro p0 p _ _ hrun _
    simp only [Proc.run] at hrun
    injection hrun with e
    subst e
    exact ⟨[], by simp [passing], by simp [consumeTimes], by simp [consumeTimes],
      by simp [consumeTimes]⟩
  | cons ev rest ih =>
    intro p0 p h0 hlev hrun hlive
    simp only [Proc.run] at hrun
    obtain ⟨p1, hstep, hrest⟩ := bind_done _ _ _ hrun
    have hlive1 : p1.exit = none := by
      cases hx : p1.exit with
      | none => rfl
      | some code =>
        have := (run_exited p1 p code hx rest hrest).2
        rw [this, hx] at hlive; cases hlive
    cases ev with
    | call asMethod c =>
      simp only [Proc.step, h0] at hstep
      obtain ⟨l1, hcall, hp1⟩ := bind_done _ _ _ hstep
      injection hp1 with hp1
      subst hp1
      rcases call_run_done c asMethod _ _ hcall with ⟨hgate, hl1⟩ | ⟨hgate, r, hrec, hrl, hl1⟩
      · subst hl1
        obtain ⟨recs, h1, h2, h3, h4⟩ := ih _ p hlive1 hlev hrest hlive
        exact ⟨recs, by simpa [passing, hgate] using h1, by simpa [consumeTimes] using h2,
          by simpa [consumeTimes] using h3, by simpa [consumeTimes] using h4⟩
      · subst hl1
        have hlev1 : ∀ x ∈ p0.globalLog4u.c.buf ++ [r], x.level ≤ OutLevel := by
          intro x hx
          rcases List.mem_append.mp hx with hx | hx
          · exact hlev x hx
          · rw [List.mem_singleton.mp hx, hrl]; exact c.level_le
        obtain ⟨recs, h1, h2, h3, h4⟩ := ih _ p hlive1 hlev1 hrest hlive
        refine ⟨r :: recs, ?_, ?_, ?_, ?_⟩
        · simp only [passing, if_pos hgate, List.map_cons, hrec]
          exact congrArg _ h1
        · simpa [consumeTimes] using h2
        · simpa [consumeTimes] using h3
        · simp only [consumeTimes]
          rw [h4]
          simp only [List.append_assoc, List.singleton_append]
          rfl
    | consume now =>
      simp only [Proc.step] at hstep
      obtain ⟨-, r, q, hq, hc1, hcfg, hlv, hcase⟩ := outLogStep_done p0 p1 now hstep hlev
      rcases hcase with ⟨hx, -⟩ | ⟨-, L, hL, -, hout⟩
      · rw [hx] at hlive1; cases hlive1
      · have hlev1 : ∀ x ∈ p1.globalLog4u.c.buf, x.level ≤ OutLevel := by
          intro x hx
          rw [hc1] at hx
          exact hlev x (by rw [hq]; exact List.mem_cons_of_mem _ hx)
        obtain ⟨recs, h1, h2, h3, h4⟩ := ih _ p hlive1 hlev1 hrest hlive
        rw [hc1] at h2 h3 h4
        simp only at h2 h3 h4
        refine ⟨recs, ?_, ?_, ?_, ?_⟩
        · rw [← hlv]; simpa [passing] using h1
        · simp only [consumeTimes, hq, List.cons_append, List.length_cons]; omega
        · simp only [consumeTimes, hq, List.cons_append, List.length_cons, List.drop_succ_cons]
          exact h3
        · simp only [consumeTimes, hq, List.cons_append, List.zipWith_cons_cons, hL]
          rw [h4, hout]
          simp only [List.map_append, List.map_cons, List.map_nil, List.append_assoc,
            List.singleton_append]
          congr 2
          congr 1
          funext now x
          exact lineOf_congr _ _ hcfg now x
    | setLevel v =>
      simp only [Proc.step, h0] at hstep
      injection hstep with hp1
      subst hp1
      obtain ⟨hc, ho, hi, hw, he⟩ := SetLevel_rest p0.globalLog4u v
      have hlev1 : ∀ x ∈ (SetLevel p0.globalLog4u v).c.buf, x.level ≤ OutLevel := by
        rw [hc]; exact hlev
      obtain ⟨recs, h1, h2, h3, h4⟩ := ih _ p hlive1 hlev1 hrest hlive
      simp only [hc, SetLevel_level] at h1 h2 h3 h4
      refine ⟨recs, by simpa [passing] using h1, by simpa [consumeTimes] using h2,
        by simpa [consumeTimes] using h3, ?_⟩
      simp only [consumeTimes]
      rw [h4]
      congr 2
      funext now x
      exact lineOf_congr _ _ (by simp [Log4u.configs, ho, hi, hw, he]) now x

/-! ## A schedule that always runs -/

theorem call_run_pass {F : Fmt} (l : Log4u) (c : Call F) (asMethod : Bool)
    (file : Bytes) (line : Int) (hle : c.level ≤ l.level)
    (hloc : c.locate = .done (file, line)) (hroom : l.c.buf.length < l.c.cap) :
    c.run asMethod l =
      .done { l with c := { l.c with buf := l.c.buf ++
        [{ level := c.level, line := line, file := file, val := c.body }] } } := by
  cases c <;> cases asMethod <;>
    simp_all [Call.run, Inject, Call.level, Call.locate, Call.method, Call.free, Call.body,
      Log4u.OUT, Log4u.INFO, Log4u.INFOF, Log4u.WARN, Log4u.WARNF, OUT, INFO, INFOF, WARN,
      WARNF, Log4u.ERROR, Log4u.ERRORF, ERROR, ERRORF, Outcome.bind, Chan.send, Nat.not_lt.mpr]

theorem call_run_skip {F : Fmt} (l : Log4u) (c : Call F) (asMethod : Bool)
    (hlt : ¬ c.level ≤ l.level) : c.run asMethod l = .done l := by
  have hlt2 : l.level < c.level := Nat.not_le.mp hlt
  cases c <;> cases asMethod <;>
    simp_all [Call.run, Inject, Call.level, Call.method, Call.free, Log4u.OUT, Log4u.INFO,
      Log4u.INFOF, Log4u.WARN, Log4u.WARNF, OUT, INFO, INFOF, WARN, WARNF, ErrorLevel]

theorem dispatch_done (l : Log4u) (out : Sink) (now : Time) (info : logInfo) (L : Bytes)
    (hlev : info.level ≤ OutLevel) (hL : l.lineOf now info = some L)
    (hf : out.failing out.written L = false) :
    ∃ l2, l.dispatch out now info = .done (l2, { out with written := out.written ++ [L] }) ∧
      l2.configs = l.configs ∧ l2.c = l.c ∧ l2.level = l.level := by
  rcases dispatch_cases l out now info hlev with hd | ⟨L2, l2, hL2, -, hd, h1, h2, h3⟩
  · exfalso
    unfold Log4u.lineOf at hL
    have hO := Output_eq _ out now info.val info.file info.line L hL
    rw [hf] at hO
    simp only [Bool.false_eq_true, if_false] at hO
    have hr2 : info.level = OutLevel ∨ info.level = InfoLevel ∨ info.level = WarnLevel ∨
        info.level = ErrorLevel := by
      simp only [OutLevel, InfoLevel, WarnLevel, ErrorLevel] at *; omega
    unfold Log4u.dispatch at hd
    unfold Log4u.loggerOf at hO
    rcases hr2 with h3 | h3 | h3 | h3 <;>
      simp [h3, OutLevel, InfoLevel, WarnLevel, ErrorLevel] at hd hO <;>
      simp [hO, Outcome.bind] at hd
  · rw [hL] at hL2
    injection hL2 with e
    subst e
    exact ⟨l2, hd, h1, h2, h3⟩

theorem lineOf_isSome (l : Log4u) (now : Time) (r : logInfo) (hnow : now.valid)
    (hl : isInt64 r.line) : ∃ L, l.lineOf now r = some L := by
  unfold Log4u.lineOf Logger.line
  obtain ⟨h, hh⟩ := Option.isSome_iff_exists.mp
    (formatHeader_isSome (l.loggerOf r.level) ((l.loggerOf r.level).buf.take 0) now r.file
      r.line hnow hl)
  exact ⟨_, by rw [hh]; rfl⟩

/-- The schedule of one producer and an eager consumer runs to the end for
every list of calls whose locations resolve, with a sink that accepts every
write, and leaves the queue empty and the process alive. -/
theorem pipeline_runs {F : Fmt} (now : Time) (hnow : now.valid)
    (calls : List (Bool × Call F)) :
    (∀ mc ∈ calls, ∃ file line, mc.2.locate = .done (file, line) ∧ isInt64 line) →
    ∀ p0 : Proc, p0.exit = none → p0.globalLog4u.c.buf = [] → 0 < p0.globalLog4u.c.cap →
      (∀ h b, p0.out.failing h b = false) →
      ∃ p, p0.run (eagerSchedule p0.globalLog4u.level now calls) = .done p ∧
        p.exit = none ∧ p.globalLog4u.c.buf = [] := by
  induction calls with
  | nil =>
    intro _ p0 h0 hq _ _
    exact ⟨p0, rfl, h0, hq⟩
  | cons mc rest ih =>
    intro hloc p0 h0 hq hcap hsink
    obtain ⟨asMethod, c⟩ := mc
    obtain ⟨g, out, ex⟩ := p0
    simp only at h0 hq hcap hsink
    subst h0
    have hrest : ∀ mc ∈ rest, ∃ file line, mc.2.locate = .done (file, line) ∧ isInt64 line :=
      fun mc hmc => hloc mc (List.mem_cons_of_mem _ hmc)
    by_cases hg : c.level ≤ g.level
    · obtain ⟨file, line, hl, hint⟩ := hloc (asMethod, c) (List.mem_cons_self _ _)
      have hcall := call_run_pass g c asMethod file line hg hl (by rw [hq]; exact hcap)
      rw [hq] at hcall
      obtain ⟨L, hL⟩ := lineOf_isSome { g with c := { g.c with buf := [] } } now
        { level := c.level, line := line, file := file, val := c.body } hnow hint
      obtain ⟨l2, hd, -, hc2, hlv2⟩ := dispatch_done { g with c := { g.c with buf := [] } } out now
        { level := c.level, line := line, file := file, val := c.body } L c.level_le hL
        (hsink _ _)
      obtain ⟨p, hp, hx, hpq⟩ := ih hrest
        { globalLog4u := l2, out := { out with written := out.written ++ [L] }, exit := none }
        rfl (by rw [hc2]) (by rw [hc2]; exact hcap) hsink
      refine ⟨p, ?_, hx, hpq⟩
      simp only [eagerSchedule, if_pos hg, Proc.run, Proc.step, hcall, Outcome.bind,
        Proc.outLogStep, Chan.recv, List.nil_append]
      simp only [hd]
      simp only [hlv2] at hp
      exact hp
    · obtain ⟨p, hp, hx, hpq⟩ := ih hrest ⟨g, out, none⟩ rfl hq hcap hsink
      refine ⟨p, ?_, hx, hpq⟩
      simp only [eagerSchedule, if_neg hg, Proc.run, Proc.step,
        call_run_skip g c asMethod hg, Outcome.bind]
      exact hp

/-! ## The level gate, the setter, the pipeline -/

/-- The level gate where the resolver returns. For each of OUT, INFO, INFOF,
WARN, WARNF (a call whose level is not `ErrorLevel`), made as a method or
through the free function, at any threshold `l.level`: when the level of the
call is at most the threshold, the location is resolved and the channel has
room, the call returns with exactly one record of that level appended at the
end of the queue; when the level is above the threshold the call returns with
the state unchanged. -/
theorem level_gate_non_error {F : Fmt} (l : Log4u) (c : Call F) (asMethod : Bool)
    (hc : c.level ≠ ErrorLevel) :
    (c.level ≤ l.level → ∀ file line, c.locate = .done (file, line) →
      l.c.buf.length < l.c.cap →
        c.run asMethod l =
          .done { l with c := { l.c with buf := l.c.buf ++
            [{ level := c.level, line := line, file := file, val := c.body }] } })
    ∧ (l.level < c.level → c.run asMethod l = .done l) := by
  constructor
  · intro hle file line hloc hroom
    cases c <;> cases asMethod <;>
      simp_all [Call.run, Inject, Call.level, Call.locate, Call.method, Call.free, Call.body,
        Log4u.OUT, Log4u.INFO, Log4u.INFOF, Log4u.WARN, Log4u.WARNF, OUT, INFO, INFOF, WARN,
        WARNF, Outcome.bind, Chan.send, Nat.not_lt.mpr]
  · intro hlt
    cases c <;> cases asMethod <;>
      simp_all [Call.run, Inject, Call.level, Call.method, Call.free, Log4u.OUT, Log4u.INFO,
        Log4u.INFOF, Log4u.WARN, Log4u.WARNF, OUT, INFO, INFOF, WARN, WARNF]

theorem level_gate_non_error_witness :
    Call.run (F := stringFmt) false (SetLevel initLog4u WarnLevel)
        (.WARN exampleSite [ascii "y"]) =
      .done { SetLevel initLog4u WarnLevel with
        c := { buf := [{ level := WarnLevel, line := 7, file := ascii "/p/main.go",
                         val := ascii "y\n" }], cap := 200 } }
    ∧ Call.run (F := stringFmt) true (SetLevel initLog4u WarnLevel)
        (.INFO exampleSite [ascii "x"]) = .done (SetLevel initLog4u WarnLevel) :=
  ⟨(level_gate_non_error (F := stringFmt) (SetLevel initLog4u WarnLevel)
      (.WARN exampleSite [ascii "y"]) false (by decide)).1 (by decide)
      (ascii "/p/main.go") 7 (by decide) (by decide),
   (level_gate_non_error (F := stringFmt) (SetLevel initLog4u WarnLevel)
      (.INFO exampleSite [ascii "x"]) true (by decide)).2 (by decide)⟩

/-- No gate on errors, where the resolver returns. ERROR and ERRORF, as a
method or through the free function, at every value of the threshold: once the
location is resolved and the channel has room, the call returns with exactly
one record of level `ErrorLevel` appended at the end of the queue. -/
theorem error_never_gated {F : Fmt} (l : Log4u) (c : Call F) (asMethod : Bool)
    (file : Bytes) (line : Int) (hc : c.level = ErrorLevel)
    (hloc : c.locate = .done (file, line)) (hroom : l.c.buf.length < l.c.cap) :
    c.run asMethod l =
      .done { l with c := { l.c with buf := l.c.buf ++
        [{ level := ErrorLevel, line := line, file := file, val := c.body }] } } := by
  cases c <;> cases asMethod <;>
    simp_all [Call.run, Inject, Call.level, Call.locate, Call.method, Call.free, Call.body,
      Log4u.ERROR, Log4u.ERRORF, ERROR, ERRORF, Outcome.bind, Chan.send, OutLevel, InfoLevel,
      WarnLevel, ErrorLevel]

theorem error_never_gated_witness :
    Call.run (F := stringFmt) true (SetLevel initLog4u ErrorLevel)
        (.ERRORF exampleSite (ascii "z") []) =
      .done { SetLevel initLog4u ErrorLevel with
        c := { buf := [{ level := ErrorLevel, line := 7, file := ascii "/p/main.go",
                         val := ascii "z" }], cap := 200 } } :=
  error_never_gated (F := stringFmt) (SetLevel initLog4u ErrorLevel)
    (.ERRORF exampleSite (ascii "z") []) true (ascii "/p/main.go") 7 (by decide) (by decide)
    (by decide)

/-- Claim C3. `SetLevel` of `log4u.go` and of `core.go` on any value `v`: the
threshold becomes `v` when `v` is one of the four levels and `OutLevel`
otherwise; with a value outside the four levels the state is the one
`SetLevel(OutLevel)` leaves; the threshold afterwards is one of the four
levels. -/
theorem SetLevel_clamps (g : Log4u) (gc : CorePkg.Log4u) (v : Nat) :
    ((SetLevel g v).level =
        if v = ErrorLevel ∨ v = WarnLevel ∨ v = InfoLevel ∨ v = OutLevel then v else OutLevel)
    ∧ ((CorePkg.SetLevel gc v).level =
        if v = ErrorLevel ∨ v = WarnLevel ∨ v = InfoLevel ∨ v = OutLevel then v else OutLevel)
    ∧ (¬ (v = ErrorLevel ∨ v = WarnLevel ∨ v = InfoLevel ∨ v = OutLevel) →
        SetLevel g v = SetLevel g OutLevel ∧ CorePkg.SetLevel gc v = CorePkg.SetLevel gc OutLevel)
    ∧ ((SetLevel g v).level ∈ [ErrorLevel, WarnLevel, InfoLevel, OutLevel])
    ∧ ((CorePkg.SetLevel gc v).level ∈ [ErrorLevel, WarnLevel, InfoLevel, OutLevel]) := by
  have e0 : SetLevel g OutLevel = { g with level := OutLevel } := by
    unfold SetLevel; rw [if_pos (Or.inl rfl)]
  have c0 : CorePkg.SetLevel gc OutLevel = { gc with level := OutLevel } := by
    unfold CorePkg.SetLevel; rw [if_pos (Or.inl rfl)]
  by_cases h : v = ErrorLevel ∨ v = WarnLevel ∨ v = InfoLevel ∨ v = OutLevel
  · have h2 : v = OutLevel ∨ v = InfoLevel ∨ v = WarnLevel ∨ v = ErrorLevel := by tauto
    have e1 : SetLevel g v = { g with level := v } := by unfold SetLevel; rw [if_pos h2]
    have c1 : CorePkg.SetLevel gc v = { gc with level := v } := by
      unfold CorePkg.SetLevel; rw [if_pos h2]
    rw [e1, c1, if_pos h]
    refine ⟨rfl, rfl, fun hn => absurd h hn, ?_, ?_⟩ <;> simpa using h
  · have h2 : ¬ (v = OutLevel ∨ v = InfoLevel ∨ v = WarnLevel ∨ v = ErrorLevel) := by tauto
    have e1 : SetLevel g v = { g with level := OutLevel } := by unfold SetLevel; rw [if_neg h2]
    have c1 : CorePkg.SetLevel gc v = { gc with level := OutLevel } := by
      unfold CorePkg.SetLevel; rw [if_neg h2]
    rw [e1, c1, e0, c0, if_neg h]
    refine ⟨rfl, rfl, fun _ => ⟨rfl, rfl⟩, ?_, ?_⟩ <;> simp

theorem SetLevel_clamps_witness :
    (SetLevel initLog4u 200).level = OutLevel ∧
    SetLevel initLog4u 200 = SetLevel initLog4u OutLevel ∧
    (SetLevel initLog4u WarnLevel).level = WarnLevel :=
  ⟨(SetLevel_clamps initLog4u ⟨initLog4u.o, initLog4u.i, initLog4u.w, initLog4u.e, 3, [], 100⟩
      200).1.trans (by decide),
   ((SetLevel_clamps initLog4u ⟨initLog4u.o, initLog4u.i, initLog4u.w, initLog4u.e, 3, [], 100⟩
      200).2.2.1 (by decide)).1,
   (SetLevel_clamps initLog4u ⟨initLog4u.o, initLog4u.i, initLog4u.w, initLog4u.e, 3, [], 100⟩
      WarnLevel).1.trans (by decide)⟩

/-- Order and filtering along a run that ends alive. For every threshold and
every schedule of calls, consumer steps (and threshold changes) run from an
empty queue in a process that is still alive at the end: the records enqueued are those of the calls that pass the
gate, in call order; the consumer has written one line for each of the first
`k` of them, `k` the number of consumer steps, in the same order, each rendered
by the logger of the record's level from the body rendered at the call; the
others are still queued; once the queue is empty every passing call has its
line. -/
theorem fifo_single_producer {F : Fmt} (p0 p : Proc) (evs : List (Event F))
    (hq : p0.globalLog4u.c.buf = []) (h0 : p0.exit = none)
    (hrun : p0.run evs = .done p) (hlive : p.exit = none) :
    ∃ recs : List logInfo,
      recs.map some = (passing p0.globalLog4u.level evs).map Call.record? ∧
      (consumeTimes evs).length ≤ recs.length ∧
      p.globalLog4u.c.buf = recs.drop (consumeTimes evs).length ∧
      p.out.written.map some = p0.out.written.map some ++
        List.zipWith p0.globalLog4u.lineOf (consumeTimes evs) recs ∧
      (p.globalLog4u.c.buf = [] →
        p.out.written.length = p0.out.written.length + recs.length) := by
  obtain ⟨recs, h1, h2, h3, h4⟩ := run_invariant evs p0 p h0 (by rw [hq]; simp) hrun hlive
  rw [hq, List.nil_append] at h2 h3 h4
  refine ⟨recs, h1, h2, h3, h4, ?_⟩
  intro hempty
  rw [hempty] at h3
  have hk : recs.length ≤ (consumeTimes evs).length := by
    have := congrArg List.length h3
    simp only [List.length_nil, List.length_drop] at this
    omega
  have := congrArg List.length h4
  simp only [List.length_map, List.length_append, List.length_zipWith] at this
  omega

theorem fifo_single_producer_witness :
    warnProc.run warnSchedule = .done warnProcAfter ∧
    warnProcAfter.out.written = [warnLineY, warnLineZ] ∧
    ∃ recs : List logInfo,
      recs.map some = (passing warnProc.globalLog4u.level warnSchedule).map Call.record? ∧
      (consumeTimes warnSchedule).length ≤ recs.length ∧
      warnProcAfter.globalLog4u.c.buf = recs.drop (consumeTimes warnSchedule).length ∧
      warnProcAfter.out.written.map some = warnProc.out.written.map some ++
        List.zipWith warnProc.globalLog4u.lineOf (consumeTimes warnSchedule) recs ∧
      (warnProcAfter.globalLog4u.c.buf = [] →
        warnProcAfter.out.written.length = warnProc.out.written.length + recs.length) :=
  ⟨rfl, rfl, fifo_single_producer warnProc warnProcAfter warnSchedule rfl rfl rfl rfl⟩

/-- One producer and an eager consumer, in full. For every list of calls whose
locations resolve, a valid clock reading and a sink that accepts every write,
the schedule runs to its end from an empty queue: the process is alive, the
queue is empty again, the records enqueued are those of the passing calls in
call order, and the sink has gained exactly one line for each of them, in that
order, rendered by the logger of the record's level. -/
theorem eager_pipeline_total {F : Fmt} (now : Time) (hnow : now.valid)
    (calls : List (Bool × Call F))
    (hloc : ∀ mc ∈ calls, ∃ file line, mc.2.locate = .done (file, line) ∧ isInt64 line)
    (p0 : Proc) (h0 : p0.exit = none) (hq : p0.globalLog4u.c.buf = [])
    (hcap : 0 < p0.globalLog4u.c.cap) (hsink : ∀ h b, p0.out.failing h b = false) :
    ∃ (p : Proc) (recs : List logInfo),
      p0.run (eagerSchedule p0.globalLog4u.level now calls) = .done p ∧ p.exit = none ∧
      p.globalLog4u.c.buf = [] ∧
      recs.map some =
        (passing p0.globalLog4u.level (eagerSchedule p0.globalLog4u.level now calls)).map
          Call.record? ∧
      p.out.written.map some = p0.out.written.map some ++
        List.zipWith p0.globalLog4u.lineOf
          (consumeTimes (eagerSchedule p0.globalLog4u.level now calls)) recs ∧
      p.out.written.length = p0.out.written.length + recs.length := by
  obtain ⟨p, hp, hx, hpq⟩ := pipeline_runs now hnow calls hloc p0 h0 hq hcap hsink
  obtain ⟨recs, h1, _, _, h4, h5⟩ := fifo_single_producer p0 p _ hq h0 hp hx
  exact ⟨p, recs, hp, hx, hpq, h1, h4, h5 hpq⟩

/-- Claim C10. When `Write` fails on the line of the record at the head of the
queue, `Output` panics, `errCatch` calls `os.Exit(1)`: the step of the
consumer ends with exit status 1 and the sink as it was, the record taken off
the queue; after it no step of the process runs, so nothing more is written. -/
theorem sink_failure_fatal (p : Proc) (now : Time) (info : logInfo) (rest : List logInfo)
    (L : Bytes) (hlive : p.exit = none) (hq : p.globalLog4u.c.buf = info :: rest)
    (hlev : info.level ≤ OutLevel)
    (hline : p.globalLog4u.lineOf now info = some L)
    (hfail : p.out.failing p.out.written L = true) :
    (p.globalLog4u.loggerOf info.level).Output p.out now info.val info.file info.line
        = .panicked ∧
    errCatch true = some 1 ∧
    ∃ p1, p.outLogStep now = .done p1 ∧ p1.exit = some 1 ∧ p1.out = p.out ∧
      p1.globalLog4u.c.buf = rest ∧
      (∀ now2, p1.outLogStep now2 = .blocked) ∧
      (∀ (F : Fmt) (ev : Event F), p1.step ev = .blocked) ∧
      (∀ (F : Fmt) (evs : List (Event F)) (p2 : Proc), p1.run evs = .done p2 →
        p2.out.written = p.out.written) := by
  have hO : (p.globalLog4u.loggerOf info.level).Output p.out now info.val info.file info.line
      = .panicked := by
    rw [Output_eq _ p.out now info.val info.file info.line L hline, if_pos hfail]
  refine ⟨hO, rfl, ?_⟩
  have hlevs : p.globalLog4u.c.buf = info :: rest := hq
  cases hs : p.outLogStep now with
  | blocked =>
    exfalso
    simp only [Proc.outLogStep, hlive, Chan.recv, hq] at hs
    rcases dispatch_cases { p.globalLog4u with c := { p.globalLog4u.c with buf := rest } }
      p.out now info hlev with hd | ⟨L2, l2, -, -, hd, -⟩ <;> rw [hd] at hs <;>
      simp [errCatch] at hs
  | panicked =>
    exfalso
    simp only [Proc.outLogStep, hlive, Chan.recv, hq] at hs
    rcases dispatch_cases { p.globalLog4u with c := { p.globalLog4u.c with buf := rest } }
      p.out now info hlev with hd | ⟨L2, l2, -, -, hd, -⟩ <;> rw [hd] at hs <;>
      simp [errCatch] at hs
  | done p1 =>
    have hstep := hs
    simp only [Proc.outLogStep, hlive, Chan.recv, hq] at hs
    rcases dispatch_cases { p.globalLog4u with c := { p.globalLog4u.c with buf := rest } }
      p.out now info hlev with hd | ⟨L2, l2, hL2, hf2, hd, -⟩
    · rw [hd] at hs
      simp only [errCatch, if_true] at hs
      injection hs with e
      subst e
      refine ⟨_, rfl, rfl, rfl, rfl, ?_, ?_, ?_⟩
      · intro now2; simp [Proc.outLogStep]
      · intro F ev; exact step_exited _ 1 rfl ev
      · intro F evs p2 h2
        have := (run_exited _ p2 1 rfl evs h2).2
        rw [this]
    · exfalso
      have : Log4u.lineOf { p.globalLog4u with c := { p.globalLog4u.c with buf := rest } }
          now info = p.globalLog4u.lineOf now info := lineOf_congr _ _ rfl now info
      rw [this, hline] at hL2
      injection hL2 with e
      subst e
      rw [hfail] at hf2
      cases hf2

set_option maxRecDepth 8000 in
theorem sink_failure_fatal_witness :
    (brokenProc.globalLog4u.loggerOf InfoLevel).Output brokenProc.out exampleTime
        (ascii "x\n") (ascii "/p/main.go") 7 = .panicked ∧
    errCatch true = some 1 ∧
    ∃ p1, brokenProc.outLogStep exampleTime = .done p1 ∧ p1.exit = some 1 ∧
      p1.out = brokenProc.out ∧
      p1.globalLog4u.c.buf = [{ level := ErrorLevel, line := 9, file := ascii "/p/main.go",
                                val := ascii "z\n" }] ∧
      (∀ now2, p1.outLogStep now2 = .blocked) ∧
      (∀ (F : Fmt) (ev : Event F), p1.step ev = .blocked) ∧
      (∀ (F : Fmt) (evs : List (Event F)) (p2 : Proc), p1.run evs = .done p2 →
        p2.out.written = brokenProc.out.written) :=
  sink_failure_fatal brokenProc exampleTime
    { level := InfoLevel, line := 7, file := ascii "/p/main.go", val := ascii "x\n" }
    [{ level := ErrorLevel, line := 9, file := ascii "/p/main.go", val := ascii "z\n" }]
    (ascii "2009-01-23 01:23:23 main.go:7: \x1b[34mINFO\x1b[0m x\n")
    rfl rfl (by decide) rfl rfl

/-- Claim C7, amended. For a valid clock reading and a line number in range,
the header is the leading prefix, the date/time block, the file block and the
trailing prefix, where the date/time block holds the date when `Ldate` is
set, the clock `HH:MM:SS` when `Ltime` or `Lmicroseconds` is set, the `.` and
six digits of microseconds when `Lmicroseconds` is set and a space after the
clock, all read in UTC when `LUTC` is set; the block is empty when none of the
three flags is set. -/
theorem date_time_block (l : Logger) (buf : Bytes) (t : Time) (file : Bytes) (line : Int)
    (ht : t.valid) (h0 : 0 ≤ line) (hl : line < 2 ^ 63) :
    formatHeader l buf t file line = some (buf ++
      (if l.flag &&& Lmsgprefix = 0 then l.prefix_ else []) ++
      dateTimeBlock l.flag t ++ fileBlock l.flag file line ++
      (if l.flag &&& Lmsgprefix ≠ 0 then l.prefix_ else []))
    ∧ (l.flag &&& Ldate = 0 → l.flag &&& Ltime = 0 → l.flag &&& Lmicroseconds = 0 →
        dateTimeBlock l.flag t = []) := by
  refine ⟨formatHeader_layout l buf t file line ht h0 hl, ?_⟩
  intro h1 h2 h3
  simp [dateTimeBlock, h1, h2, h3]

theorem date_time_block_witness :
    formatHeader (plainLogger (Lmicroseconds ||| LUTC)) [] exampleTime [] 0 =
      some (ascii "17:23:23.123123 ") :=
  ((date_time_block (plainLogger (Lmicroseconds ||| LUTC)) [] exampleTime [] 0
    (by decide) (by decide) (by decide)).1).trans (by decide)

/-- Claim C7 as stated fails with the flags `Lmicroseconds` alone: `Ltime` is
not set and `formatHeader` emits the clock `01:23:23` before the microseconds,
where the rule of the claim gives `.123123 ` only. -/
theorem clock_without_time_flag :
    Lmicroseconds &&& Ltime = 0 ∧
    formatHeader (plainLogger Lmicroseconds) [] exampleTime [] 0 =
      some (ascii "01:23:23.123123 ") ∧
    dateTimeBlockTimeOnly Lmicroseconds exampleTime = ascii ".123123 " ∧
    formatHeader (plainLogger Lmicroseconds) [] exampleTime [] 0 ≠
      some (dateTimeBlockTimeOnly Lmicroseconds exampleTime) := by
  decide

/-- Claim C6, at the input `/main.go` with `Lshortfile`: the last `/` is the
first byte, the final element of the path is `main.go`, and `formatHeader`
emits `/main.go:23: `, the name unstripped (with `/a/main.go` it emits
`main.go:23: `). -/
theorem shortfile_keeps_leading_slash :
    findLastByte 47 (ascii "/main.go") = some 0 ∧
    finalElement (ascii "/main.go") = ascii "main.go" ∧
    formatHeader (plainLogger Lshortfile) [] exampleTime (ascii "/main.go") 23 =
      some (ascii "/main.go:23: ") ∧
    formatHeader (plainLogger Lshortfile) [] exampleTime (ascii "/a/main.go") 23 =
      some (ascii "main.go:23: ") := by
  decide

set_option maxRecDepth 100000 in
/-- Claim C9, at the stack trace `ownPanicFileTrace`: the marker is found, no
`)\n\t` follows it, and `getFileAndLineByStack` panics on the slice
`stack[-1:]`, and `INFO` with it, although `runtime.Caller` reports the call
site. -/
theorem resolver_panics_on_own_panic_file :
    Index ownPanicFileTrace panicBytes ≠ -1 ∧
    getFileAndLineByStack ownPanicFileSite 1 = .panicked ∧
    INFO stringFmt initLog4u ownPanicFileSite [ascii "x"] = .panicked ∧
    getFileAndLine ownPanicFileSite 2 = (ascii "/home/u/app/src/runtime/panic.go", 12) ∧
    getFileAndLineByStack { stack := panicBytes, Caller := ownPanicFileSite.Caller } 1 =
      .panicked := by
  decide

/-! ## The stack-trace resolver -/

theorem not_prefix_across (sep pre X : Bytes) (hb : noBorder sep) (hpre : pre ≠ [])
    (hn : ¬ sep <+: pre) : ¬ sep <+: pre ++ sep ++ X := by
  intro h
  rw [List.append_assoc] at h
  by_cases hlen : sep.length ≤ pre.length
  · exact hn (List.prefix_of_prefix_length_le h (List.prefix_append _ _) hlen)
  · have hlt : pre.length < sep.length := by omega
    have hp : pre <+: sep :=
      List.prefix_of_prefix_length_le (List.prefix_append _ _) h (by omega)
    obtain ⟨t, ht⟩ := hp
    have hj : 0 < pre.length := List.length_pos.mpr hpre
    have htl : t.length = sep.length - pre.length := by
      have := congrArg List.length ht
      simp only [List.length_append] at this; omega
    have h2 : t <+: sep ++ X := by
      rw [← ht] at h
      have h3 : pre ++ t <+: pre ++ (sep ++ X) := by
        rw [ht]; rw [ht] at h; exact h
      exact (List.prefix_append_right_inj pre).mp h3
    have h3 : t <+: sep :=
      List.prefix_of_prefix_length_le h2 (List.prefix_append _ _) (by omega)
    have h4 : t = sep.take (sep.length - pre.length) := by
      rw [← htl]; exact List.prefix_iff_eq_take.mp h3
    have h5 : sep.drop pre.length = t := by
      rw [← ht]; exact List.drop_left _ _
    exact hb ⟨pre.length, hlt⟩ hj (by rw [h5]; exact h4)

theorem findSub_cons (sep : Bytes) (x : Nat) (rest : Bytes) :
    findSub sep (x :: rest) =
      if sep.isPrefixOf (x :: rest) then some 0
      else (findSub sep rest).map (fun n => n + 1) := rfl

theorem findByte_cons (c x : Nat) (rest : Bytes) :
    findByte c (x :: rest) =
      if x = c then some 0 else (findByte c rest).map (fun n => n + 1) := rfl

theorem findLastByte_cons (c x : Nat) (rest : Bytes) :
    findLastByte c (x :: rest) =
      match findLastByte c rest with
      | some n => some (n + 1)
      | none => if x = c then some 0 else none := rfl

theorem findSub_first (sep : Bytes) (hb : noBorder sep) (X : Bytes) :
    ∀ pre : Bytes, findSub sep pre = none →
      findSub sep (pre ++ sep ++ X) = some pre.length := by
  intro pre
  induction pre with
  | nil =>
    intro _
    cases hs : sep with
    | nil => simp [findSub]; cases X <;> simp [findSub]
    | cons a s =>
      have : (a :: s).isPrefixOf ((a :: s) ++ X) = true :=
        List.isPrefixOf_iff_prefix.mpr (List.prefix_append _ _)
      rw [List.nil_append, List.cons_append, findSub_cons, List.length_nil]
      rw [List.cons_append] at this
      rw [if_pos this]
  | cons x pre ih =>
    intro h
    simp only [findSub] at h
    by_cases hp : sep.isPrefixOf (x :: pre) = true
    · rw [if_pos hp] at h; cases h
    · rw [if_neg hp] at h
      have hnone : findSub sep pre = none := by
        cases hf : findSub sep pre with
        | none => rfl
        | some n => rw [hf] at h; cases h
      have hnp : ¬ sep <+: (x :: pre) := fun hh => hp (List.isPrefixOf_iff_prefix.mpr hh)
      have hnot := not_prefix_across sep (x :: pre) X hb (by simp) hnp
      have hnot2 : ¬ sep.isPrefixOf (x :: (pre ++ sep ++ X)) = true := by
        intro hh
        apply hnot
        have := List.isPrefixOf_iff_prefix.mp hh
        simpa using this
      rw [List.cons_append, List.cons_append, findSub_cons, List.length_cons]
      rw [if_neg hnot2, ih hnone]
      rfl

theorem findByte_first (c : Nat) (X : Bytes) : ∀ a : Bytes, c ∉ a →
    findByte c (a ++ c :: X) = some a.length := by
  intro a
  induction a with
  | nil => intro _; simp [findByte]
  | cons x a ih =>
    intro h
    have hx : x ≠ c := fun e => h (by rw [e]; exact List.mem_cons_self _ _)
    have ha : c ∉ a := fun hm => h (List.mem_cons_of_mem _ hm)
    rw [List.cons_append, findByte_cons, if_neg hx, ih ha, List.length_cons]
    rfl

theorem findLastByte_absent (c : Nat) : ∀ a : Bytes, c ∉ a → findLastByte c a = none := by
  intro a
  induction a with
  | nil => intro _; rfl
  | cons x a ih =>
    intro h
    have hx : x ≠ c := fun e => h (by rw [e]; exact List.mem_cons_self _ _)
    have ha : c ∉ a := fun hm => h (List.mem_cons_of_mem _ hm)
    rw [findLastByte_cons, ih ha, if_neg hx]

theorem findLastByte_last (c : Nat) (b : Bytes) (hb : c ∉ b) : ∀ a : Bytes,
    findLastByte c (a ++ c :: b) = some a.length := by
  intro a
  induction a with
  | nil => rw [List.nil_append, findLastByte_cons, findLastByte_absent c b hb]; simp
  | cons x a ih => rw [List.cons_append, findLastByte_cons, ih, List.length_cons]

theorem findSub_absent_of_byte (sep : Bytes) (c : Nat) (hc : sep.head? = some c) :
    ∀ a : Bytes, c ∉ a → findSub sep a = none := by
  intro a
  cases sep with
  | nil => simp at hc
  | cons s0 sep' =>
    simp only [List.head?_cons, Option.some.injEq] at hc
    subst hc
    induction a with
    | nil => intro _; simp [findSub]
    | cons x a ih =>
      intro h
      have hx : x ≠ s0 := fun e => h (by rw [e]; exact List.mem_cons_self _ _)
      have ha : s0 ∉ a := fun hm => h (List.mem_cons_of_mem _ hm)
      have hp : ¬ (s0 :: sep').isPrefixOf (x :: a) = true := by
        intro hh
        have := List.isPrefixOf_iff_prefix.mp hh
        obtain ⟨t, ht⟩ := this
        simp only [List.cons_append, List.cons.injEq] at ht
        exact hx ht.1.symm
      rw [findSub_cons, if_neg hp, ih ha]; rfl

theorem foldl_digits_ge (ds : Bytes) : ∀ n : Nat,
    n ≤ ds.foldl (fun n c => n * 10 + (c - 48)) n := by
  induction ds with
  | nil => intro n; exact Nat.le_refl _
  | cons c ds ih =>
    intro n
    simp only [List.foldl_cons]
    exact Nat.le_trans (by omega) (ih (n * 10 + (c - 48)))

theorem parseDigits_decimal (ds : Bytes) : ∀ (n : Nat) (us : Bool),
    (∀ c ∈ ds, 48 ≤ c ∧ c ≤ 57) →
    ds.foldl (fun n c => n * 10 + (c - 48)) n < 2 ^ 64 →
    parseDigits 10 true ds n us = .value (ds.foldl (fun n c => n * 10 + (c - 48)) n) us := by
  induction ds with
  | nil => intro n us _ _; rfl
  | cons c ds ih =>
    intro n us hd hv
    have hc := hd c (List.mem_cons_self _ _)
    have hrest : ∀ x ∈ ds, 48 ≤ x ∧ x ≤ 57 := fun x hx => hd x (List.mem_cons_of_mem _ hx)
    simp only [List.foldl_cons] at hv ⊢
    have hge := foldl_digits_ge ds (n * 10 + (c - 48))
    have h95 : ¬ (c = 95 ∧ true = true) := by omega
    have hdig : (48 ≤ c ∧ c ≤ 57) := hc
    unfold parseDigits
    rw [if_neg h95]
    simp only [if_pos hdig]
    have h1 : ¬ (c - 48 ≥ 10) := by omega
    have h2 : ¬ (n ≥ (2 ^ 64 - 1) / 10 + 1) := by
      norm_num at hv hge ⊢; omega
    have h3 : ¬ (n * 10 + (c - 48) > 2 ^ 64 - 1) := by
      norm_num at hv hge ⊢; omega
    rw [if_neg h1, if_neg h2, if_neg h3]
    exact ih _ us hrest hv

theorem ParseInt_numeral (ds : Bytes) (hn : isNumeral ds) (hv : digitsValue ds < 2 ^ 63) :
    ParseInt ds = (digitsValue ds : Int) := by
  obtain ⟨hne, hd, hz⟩ := hn
  cases ds with
  | nil => exact absurd rfl hne
  | cons c0 rest =>
    have hc0 := hd c0 (List.mem_cons_self _ _)
    have hsign : ¬ (c0 = 43 ∨ c0 = 45) := by omega
    have hneg : (decide (c0 = 45)) = false := by simp; omega
    have hU : ParseUint (c0 :: rest) = (digitsValue (c0 :: rest), 0) := by
      rcases hz with hz | hz
      · have h48 : c0 ≠ 48 := by simpa using hz
        have hp := parseDigits_decimal (c0 :: rest) 0 false hd
          (by unfold digitsValue at hv; norm_num at hv ⊢; omega)
        unfold ParseUint
        simp only [if_neg h48, hp]
        simp [digitsValue]
      · injection hz with h1 h2
        subst h1; subst h2
        decide
    unfold ParseInt
    simp only [if_neg hsign, hU, hneg]
    have hlt : ¬ (digitsValue (c0 :: rest) ≥ 2 ^ 63) := by omega
    simp only [Nat.zero_ne_one, if_false, Bool.false_eq_true, false_and, true_and, hlt]

theorem findSub_occurs (sep : Bytes) : ∀ (s : Bytes) (n : Nat), findSub sep s = some n →
    sep <:+: s := by
  intro s
  induction s with
  | nil =>
    intro n h
    unfold findSub at h
    by_cases he : sep = []
    · rw [he]
    · rw [if_neg he] at h; cases h
  | cons x rest ih =>
    intro n h
    rw [findSub_cons] at h
    by_cases hp : sep.isPrefixOf (x :: rest) = true
    · exact (List.isPrefixOf_iff_prefix.mp hp).isInfix
    · rw [if_neg hp] at h
      cases hf : findSub sep rest with
      | none => rw [hf] at h; cases h
      | some m =>
        have := ih m hf
        exact this.trans (List.suffix_cons x rest).isInfix

theorem findSub_none_of_absent (sep s : Bytes) (h : ¬ sep <:+: s) : findSub sep s = none := by
  cases hf : findSub sep s with
  | none => rfl
  | some n => exact absurd (findSub_occurs sep s n hf) h

theorem findSub_skip (sep : Bytes) (c : Nat) (hc : sep.head? = some c) (b : Bytes)
    (hb : findSub sep b = none) : ∀ a : Bytes, c ∉ a → findSub sep (a ++ b) = none := by
  intro a
  cases sep with
  | nil => simp at hc
  | cons s0 sep' =>
    simp only [List.head?_cons, Option.some.injEq] at hc
    subst hc
    induction a with
    | nil => intro _; exact hb
    | cons x a ih =>
      intro h
      have hx : x ≠ s0 := fun e => h (by rw [e]; exact List.mem_cons_self _ _)
      have ha : s0 ∉ a := fun hm => h (List.mem_cons_of_mem _ hm)
      have hp : ¬ (s0 :: sep').isPrefixOf (x :: (a ++ b)) = true := by
        intro hh
        obtain ⟨t, ht⟩ := List.isPrefixOf_iff_prefix.mp hh
        simp only [List.cons_append, List.cons.injEq] at ht
        exact hx ht.1.symm
      rw [List.cons_append, findSub_cons, if_neg hp, ih ha]; rfl

theorem sliceFrom_nat (s : Bytes) (n : Nat) (h : n ≤ s.length) :
    sliceFrom s (n : Int) = .done (s.drop n) := by
  unfold sliceFrom
  rw [if_pos ⟨by omega, by omega⟩]
  simp

theorem sliceTo_nat (s : Bytes) (n : Nat) (h : n ≤ s.length) :
    sliceTo s (n : Int) = .done (s.take n) := by
  unfold sliceTo
  rw [if_pos ⟨by omega, by omega⟩]
  simp

theorem resolve_from_trace (site : Site) (depth : Int) (pre mid file digits rest : Bytes)
    (hs : site.stack =
      pre ++ panicBytes ++ mid ++ otherBytes ++ file ++ [58] ++ digits ++ [32] ++ rest)
    (hpre : ¬ panicBytes <:+: pre) (hmid : ¬ otherBytes <:+: mid) (hfile : 32 ∉ file)
    (hd : ∀ c ∈ digits, 48 ≤ c ∧ c ≤ 57) :
    getFileAndLineByStack site depth = .done (file, ParseInt digits) := by
  have hY : ∀ Y : Bytes, site.stack = pre ++ panicBytes ++ Y →
      Index site.stack panicBytes = (pre.length : Int) := by
    intro Y hY
    unfold Index
    rw [hY, findSub_first panicBytes (by decide) Y pre (findSub_none_of_absent _ _ hpre)]
    rfl
  have h1 := hY (mid ++ otherBytes ++ file ++ [58] ++ digits ++ [32] ++ rest)
    (by rw [hs]; simp only [List.append_assoc])
  have hmid2 : findSub otherBytes (panicBytes ++ mid) = none :=
    findSub_skip otherBytes 41 (by decide) mid (findSub_none_of_absent _ _ hmid)
      panicBytes (by decide)
  have h32 : (32 : Nat) ∉ file ++ [58] ++ digits := by
    intro hm
    simp only [List.mem_append, List.mem_singleton] at hm
    rcases hm with (hm | hm) | hm
    · exact hfile hm
    · omega
    · have := hd 32 hm; omega
  have h58 : (58 : Nat) ∉ digits := by
    intro hm; have := hd 58 hm; omega
  unfold getFileAndLineByStack
  simp only [h1]
  have hne : ¬ ((pre.length : Int) = -1) := by omega
  rw [if_neg hne]
  rw [sliceFrom_nat _ _ (by rw [hs]; simp only [List.length_append]; omega)]
  simp only [Outcome.bind]
  have e1 : site.stack.drop pre.length =
      (panicBytes ++ mid) ++ otherBytes ++ (file ++ [58] ++ digits ++ [32] ++ rest) := by
    rw [hs]
    simp only [List.append_assoc]
    exact List.drop_left _ _
  rw [e1]
  have h2 : Index ((panicBytes ++ mid) ++ otherBytes ++ (file ++ [58] ++ digits ++ [32] ++ rest))
      otherBytes = ((panicBytes ++ mid).length : Int) := by
    unfold Index
    rw [findSub_first otherBytes (by decide) _ (panicBytes ++ mid) hmid2]
    rfl
  simp only [h2]
  rw [sliceFrom_nat _ _ (by simp only [List.length_append]; omega)]
  simp only []
  have e2 : ((panicBytes ++ mid) ++ otherBytes ++ (file ++ [58] ++ digits ++ [32] ++ rest)).drop
      (panicBytes ++ mid).length = otherBytes ++ (file ++ [58] ++ digits ++ [32] ++ rest) := by
    rw [List.append_assoc]; exact List.drop_left _ _
  rw [e2]
  have e3 : sliceFrom (otherBytes ++ (file ++ [58] ++ digits ++ [32] ++ rest)) 3 =
      .done ((file ++ [58] ++ digits) ++ 32 :: rest) := by
    have := sliceFrom_nat (otherBytes ++ (file ++ [58] ++ digits ++ [32] ++ rest)) 3
      (by simp only [List.length_append]; have : otherBytes.length = 3 := by decide
          omega)
    rw [show ((3 : Nat) : Int) = 3 from rfl] at this
    rw [this]
    have h3 : otherBytes.length = 3 := by decide
    rw [← h3, List.drop_left]
    simp only [List.append_assoc, List.singleton_append]
  rw [e3]
  simp only []
  have h4 : IndexByte ((file ++ [58] ++ digits) ++ 32 :: rest) 32 =
      ((file ++ [58] ++ digits).length : Int) := by
    unfold IndexByte
    rw [findByte_first 32 rest _ h32]; rfl
  simp only [h4]
  rw [sliceTo_nat _ _ (by simp only [List.length_append]; omega), List.take_left]
  simp only []
  have h5 : LastIndexByte (file ++ [58] ++ digits) 58 = (file.length : Int) := by
    unfold LastIndexByte
    rw [List.append_assoc, List.singleton_append, findLastByte_last 58 digits h58 file]; rfl
  simp only [h5]
  have e4 : sliceFrom (file ++ [58] ++ digits) ((file.length : Int) + 1) = .done digits := by
    have := sliceFrom_nat (file ++ [58] ++ digits) (file.length + 1)
      (by simp only [List.length_append, List.length_singleton]; omega)
    rw [show ((file.length + 1 : Nat) : Int) = (file.length : Int) + 1 from by push_cast; rfl]
      at this
    rw [this]
    have : (file ++ [58]).length = file.length + 1 := by simp
    rw [← this, List.drop_left]
  rw [e4]
  simp only []
  rw [sliceTo_nat _ _ (by simp only [List.length_append]; omega), List.append_assoc,
    List.take_left]

theorem takeWhile_location (rest : Bytes) : ∀ a : Bytes, 10 ∉ a → 32 ∉ a →
    ((a ++ 32 :: rest).takeWhile (fun c => c ≠ 10)).takeWhile (fun c => c ≠ 32) = a := by
  intro a
  induction a with
  | nil => intro _ _; simp [List.takeWhile]
  | cons x a ih =>
    intro h10 h32
    have hx10 : x ≠ 10 := fun e => h10 (by rw [e]; exact List.mem_cons_self _ _)
    have hx32 : x ≠ 32 := fun e => h32 (by rw [e]; exact List.mem_cons_self _ _)
    have ha10 : 10 ∉ a := fun hm => h10 (List.mem_cons_of_mem _ hm)
    have ha32 : 32 ∉ a := fun hm => h32 (List.mem_cons_of_mem _ hm)
    have e := ih ha10 ha32
    rw [List.cons_append, List.takeWhile_cons_of_pos (by simpa using hx10),
      List.takeWhile_cons_of_pos (by simpa using hx32), e]

theorem frameLocation_of_shape (stack pre mid file digits rest : Bytes)
    (hs : stack =
      pre ++ panicBytes ++ mid ++ otherBytes ++ file ++ [58] ++ digits ++ [32] ++ rest)
    (hpre : ¬ panicBytes <:+: pre) (hmid : ¬ otherBytes <:+: mid) (hfile : 32 ∉ file)
    (hline : 10 ∉ file) (hnum : isNumeral digits) :
    frameLocation stack = some (file, digitsValue digits) := by
  have hd := hnum.2.1
  have h1 : findSub panicBytes stack = some pre.length := by
    rw [hs]
    have := findSub_first panicBytes (by decide)
      (mid ++ otherBytes ++ file ++ [58] ++ digits ++ [32] ++ rest) pre
      (findSub_none_of_absent _ _ hpre)
    simpa only [List.append_assoc] using this
  have hmid2 : findSub otherBytes (panicBytes ++ mid) = none :=
    findSub_skip otherBytes 41 (by decide) mid (findSub_none_of_absent _ _ hmid)
      panicBytes (by decide)
  have e1 : stack.drop pre.length =
      (panicBytes ++ mid) ++ otherBytes ++ (file ++ [58] ++ digits ++ [32] ++ rest) := by
    rw [hs]
    simp only [List.append_assoc]
    exact List.drop_left _ _
  have h2 : findSub otherBytes (stack.drop pre.length) = some (panicBytes ++ mid).length := by
    rw [e1]
    exact findSub_first otherBytes (by decide) _ (panicBytes ++ mid) hmid2
  have e2 : (stack.drop pre.length).drop ((panicBytes ++ mid).length + 3) =
      (file ++ [58] ++ digits) ++ 32 :: rest := by
    rw [e1, ← List.drop_drop, List.append_assoc, List.drop_left]
    have h3 : otherBytes.length = 3 := by decide
    rw [← h3, List.drop_left]
    simp only [List.append_assoc, List.singleton_append]
  have h10 : (10 : Nat) ∉ file ++ [58] ++ digits := by
    intro hm
    simp only [List.mem_append, List.mem_singleton] at hm
    rcases hm with (hm | hm) | hm
    · exact hline hm
    · omega
    · have := hd 10 hm; omega
  have h32 : (32 : Nat) ∉ file ++ [58] ++ digits := by
    intro hm
    simp only [List.mem_append, List.mem_singleton] at hm
    rcases hm with (hm | hm) | hm
    · exact hfile hm
    · omega
    · have := hd 32 hm; omega
  have h58 : (58 : Nat) ∉ digits := by
    intro hm; have := hd 58 hm; omega
  have h5 : findLastByte 58 (file ++ [58] ++ digits) = some file.length := by
    rw [List.append_assoc, List.singleton_append, findLastByte_last 58 digits h58 file]
  have e3 : (file ++ [58] ++ digits).drop (file.length + 1) = digits := by
    have : (file ++ [58]).length = file.length + 1 := by simp
    rw [← this, List.drop_left]
  have e4 : (file ++ [58] ++ digits).take file.length = file := by
    rw [List.append_assoc, List.take_left]
  unfold frameLocation
  simp only [h1, h2, e2, takeWhile_location rest _ h10 h32, h5, e3, e4, if_pos hnum]

/-- Claim C11, amended. For every trace of the shape
`pre ++ "/src/runtime/panic.go" ++ mid ++ ")\n\t" ++ file ++ ":" ++ digits ++ " " ++ rest`
where `pre` does not contain the marker, `mid` does not contain `)\n\t`, `file`
holds no space and no line break, and `digits` is a decimal numeral without
leading zero that denotes a number below `2^63`, `getFileAndLineByStack`
returns `file` and the number `digits` denotes, at every depth; and that pair
is the location of the first frame after the frame of the marker, as the
reference reading `frameLocation` of the traceback gives it. -/
theorem stack_fallback_parsing (site : Site) (depth : Int) (pre mid file digits rest : Bytes)
    (hs : site.stack =
      pre ++ panicBytes ++ mid ++ otherBytes ++ file ++ [58] ++ digits ++ [32] ++ rest)
    (hpre : ¬ panicBytes <:+: pre) (hmid : ¬ otherBytes <:+: mid) (hfile : 32 ∉ file)
    (hline : 10 ∉ file) (hnum : isNumeral digits) (hv : digitsValue digits < 2 ^ 63) :
    getFileAndLineByStack site depth = .done (file, (digitsValue digits : Int)) ∧
    frameLocation site.stack = some (file, digitsValue digits) := by
  refine ⟨?_, frameLocation_of_shape site.stack pre mid file digits rest hs hpre hmid hfile
    hline hnum⟩
  rw [resolve_from_trace site depth pre mid file digits rest hs hpre hmid hfile hnum.2.1,
    ParseInt_numeral digits hnum hv]

set_option maxRecDepth 100000 in
theorem stack_fallback_parsing_witness :
    getFileAndLineByStack { stack := recoveredPanicTrace, Caller := fun _ => none } 1 =
      .done (ascii "/app/load.go", 10) ∧
    frameLocation recoveredPanicTrace = some (ascii "/app/load.go", 10) :=
  stack_fallback_parsing { stack := recoveredPanicTrace, Caller := fun _ => none } 1
    recoveredPanicPre recoveredPanicMid (ascii "/app/load.go") (ascii "10") recoveredPanicRest
    (by decide) (by decide) (by decide) (by decide) (by decide) (by decide) (by decide)

set_option maxRecDepth 100000 in
/-- Claim C11 as stated fails on a trace of the shape whose numeral is
`9223372036854775808`: it denotes `2^63`, and the line returned is `2^63 - 1`,
the value `strconv.ParseInt` gives with the range error the code drops. -/
theorem line_number_clamped :
    hugeLineTrace = [] ++ panicBytes ++ ascii ":884 +0x212\nmain.load(..." ++ otherBytes ++
      ascii "/app/load.go" ++ [58] ++ ascii "9223372036854775808" ++ [32] ++ ascii "+0x1d\n" ∧
    ¬ panicBytes <:+: [] ∧ ¬ otherBytes <:+: ascii ":884 +0x212\nmain.load(..." ∧
    32 ∉ ascii "/app/load.go" ∧ isNumeral (ascii "9223372036854775808") ∧
    digitsValue (ascii "9223372036854775808") = 2 ^ 63 ∧
    getFileAndLineByStack { stack := hugeLineTrace, Caller := fun _ => none } 1 =
      .done (ascii "/app/load.go", 2 ^ 63 - 1) := by
  decide

set_option maxRecDepth 100000 in
/-- A frame the compiler inlined is printed without a pc offset, so its line
holds no space: on `inlinedFrameTrace` the first space after `)\n\t` lies two
lines further down, and the file returned runs across three lines of the
trace, where the frame after the marker is `/app/load.go:10`. -/
theorem inlined_frame_spans_lines :
    frameLocation inlinedFrameTrace = some (ascii "/app/load.go", 10) ∧
    getFileAndLineByStack { stack := inlinedFrameTrace, Caller := fun _ => none } 1 =
      .done (ascii "/app/load.go:10\nmain.main()\n\t/app/main.go", 14) := by
  decide

/-! ## itoa, exactly -/

theorem itoaLoop_tight (k : Nat) : ∀ (n : Nat) (wid : Int) (acc : Bytes),
    (decimal n).length ≤ k → wid ≤ k →
    -(2 ^ 63) + ((decimal n).length : Int) - 1 ≤ wid → (k : Int) ≤ 2 ^ 63 →
    itoaLoop k (n : Int) wid acc = some (zeroPad (max wid 1).toNat (decimal n) ++ acc) := by
  induction k with
  | zero =>
    intro n wid acc hlen
    have := decimal_length_pos n
    omega
  | succ k ih =>
    intro n wid acc hlen hw hlo hk
    unfold itoaLoop
    split
    · rename_i hc
      simp only []
      have hq : Int.tdiv (n : Int) 10 = ((n / 10 : Nat) : Int) := by
        rw [Int.tdiv_eq_ediv (by omega) (by norm_num)]; omega
      by_cases h10 : 10 ≤ n
      · have hd := decimal_ge_ten n h10
        have hp := decimal_length_pos (n / 10)
        rw [hd] at hlen hlo
        simp only [List.length_append, List.length_singleton] at hlen hlo
        rw [digit_byte, hq, wrap64_id _ (by unfold isInt64; push_cast at *; omega)]
        rw [hd]
        rw [ih (n / 10) (wid - 1) _ (by omega) (by push_cast at *; omega)
          (by push_cast at *; omega) (by push_cast at *; omega)]
        simp only [zeroPad, List.length_append, List.length_singleton, Option.some.injEq]
        have : (max (wid - 1) 1).toNat - (decimal (n / 10)).length =
            (max wid 1).toNat - ((decimal (n / 10)).length + 1) := by omega
        rw [this]; simp
      · have hw1 : wid > 1 := by
          rcases hc with hc | hc
          · omega
          · exact hc
        have hn : n < 10 := by omega
        have hq0 : n / 10 = 0 := by omega
        rw [digit_byte, hq, wrap64_id _ (by unfold isInt64; push_cast at *; omega)]
        rw [hq0, ih 0 (wid - 1) _ (by rw [decimal_lt_ten 0 (by norm_num)]; simp; omega)
          (by push_cast at *; omega)
          (by rw [decimal_lt_ten 0 (by norm_num)]; simp; omega) (by push_cast at *; omega)]
        rw [decimal_lt_ten 0 (by norm_num), decimal_lt_ten n hn, Nat.mod_eq_of_lt hn]
        simp only [zeroPad, List.length_singleton, Option.some.injEq]
        have : (max wid 1).toNat - 1 = ((max (wid - 1) 1).toNat - 1) + 1 := by omega
        rw [this, List.replicate_succ']
        simp
    · rename_i hc
      have hn : n < 10 := by omega
      have hw1 : wid ≤ 1 := by omega
      rw [decimal_lt_ten n hn]
      have : (max wid 1).toNat = 1 := by omega
      simp only [zeroPad, this, List.length_singleton]
      have : ((48 + (n : Int)) % 256).toNat = 48 + n := by omega
      rw [this]; simp

theorem zeroPad_length (w : Nat) (ds : Bytes) : (zeroPad w ds).length = max w ds.length := by
  simp only [zeroPad, List.length_append, List.length_replicate]; omega

theorem zeroPad_short (w : Nat) (ds : Bytes) (h : w ≤ ds.length) : zeroPad w ds = ds := by
  have : w - ds.length = 0 := by omega
  simp [zeroPad, this]

/-- Claim C18, amended. For `0 <= i < 2^63`, `wid <= 20` and `wid` at least
`-2^63 + d - 1`, `d` the number of digits of `i` (so for every `wid` from
`-2^63 + 18` on), and every buffer `b`: `itoa` leaves `b` in front and appends
the decimal digits of `i`, zero-padded on the left to `max(wid, 1, d)`
characters; with `wid = -1` the plain numeral; with `wid` 2, 4 or 6 and a value
that fits, exactly `wid` characters. -/
theorem itoa_renders_decimal (b : Bytes) (i wid : Int) (h0 : 0 ≤ i) (hi : i < 2 ^ 63)
    (hw : wid ≤ 20) (hlo : -(2 ^ 63) + ((decimal i.toNat).length : Int) - 1 ≤ wid) :
    itoa b i wid = some (b ++ zeroPad (max wid 1).toNat (decimal i.toNat))
    ∧ (zeroPad (max wid 1).toNat (decimal i.toNat)).length =
        max (max wid 1).toNat (decimal i.toNat).length
    ∧ decimal i.toNat =
        (if i.toNat = 0 then [48] else (Nat.digits 10 i.toNat).reverse.map (fun d => 48 + d))
    ∧ (decimal i.toNat).length ≤ 19
    ∧ (wid = -1 → itoa b i wid = some (b ++ decimal i.toNat))
    ∧ ((wid = 2 ∨ wid = 4 ∨ wid = 6) → i < 10 ^ wid.toNat →
        ∃ ds, itoa b i wid = some (b ++ ds) ∧ (ds.length : Int) = wid) := by
  have hn : i.toNat < 2 ^ 63 := by omega
  have hlen : (decimal i.toNat).length ≤ 19 :=
    decimal_length_le 18 i.toNat (by norm_num at hn ⊢; omega)
  have hmain : itoa b i wid = some (b ++ zeroPad (max wid 1).toNat (decimal i.toNat)) := by
    have e : i = ((i.toNat : Nat) : Int) := (Int.toNat_of_nonneg h0).symm
    unfold itoa
    conv_lhs => rw [e]
    rw [itoaLoop_tight 20 i.toNat wid [] (by omega) (by simpa using hw) hlo (by norm_num)]
    simp
  refine ⟨hmain, zeroPad_length _ _, decimal_eq_digits _, hlen, ?_, ?_⟩
  · intro h1
    rw [hmain, h1]
    have : (max (-1 : Int) 1).toNat = 1 := by decide
    rw [this, zeroPad_short 1 _ (decimal_length_pos _)]
  · intro hwid hfit
    refine ⟨_, hmain, ?_⟩
    rw [zeroPad_length]
    have hfit2 : i.toNat < 10 ^ wid.toNat := by
      have : ((i.toNat : Nat) : Int) < ((10 ^ wid.toNat : Nat) : Int) := by
        rw [Int.toNat_of_nonneg h0]; push_cast; exact hfit
      exact_mod_cast this
    rcases hwid with h | h | h <;> subst h
    · have := decimal_length_le 1 i.toNat (by simpa using hfit2)
      have e : (max (2 : Int) 1).toNat = 2 := by decide
      rw [e]; omega
    · have := decimal_length_le 3 i.toNat (by simpa using hfit2)
      have e : (max (4 : Int) 1).toNat = 4 := by decide
      rw [e]; omega
    · have := decimal_length_le 5 i.toNat (by simpa using hfit2)
      have e : (max (6 : Int) 1).toNat = 6 := by decide
      rw [e]; omega

theorem itoa_renders_decimal_witness :
    itoa (ascii "a.go:") 23 (-1) = some (ascii "a.go:23") ∧
    itoa (ascii "T") 7 2 = some (ascii "T07") ∧
    itoa [] 2009 4 = some (ascii "2009") ∧
    itoa [] 123 6 = some (ascii "000123") ∧
    itoa [] 9223372036854775807 20 = some (ascii "09223372036854775807") :=
  ⟨((itoa_renders_decimal (ascii "a.go:") 23 (-1) (by decide) (by decide) (by decide)
      (by decide)).1).trans (by decide),
   ((itoa_renders_decimal (ascii "T") 7 2 (by decide) (by decide) (by decide)
      (by decide)).1).trans (by decide),
   ((itoa_renders_decimal [] 2009 4 (by decide) (by decide) (by decide)
      (by decide)).1).trans (by decide),
   ((itoa_renders_decimal [] 123 6 (by decide) (by decide) (by decide)
      (by decide)).1).trans (by decide),
   ((itoa_renders_decimal [] 9223372036854775807 20 (by decide) (by decide) (by decide)
      (by decide)).1).trans (by decide)⟩

/-- Claim C18 as stated fails at `i = 10`, `wid = -2^63`: the first `wid--`
wraps to `2^63 - 1`, the loop runs on until the store `b[-1]`, and `itoa`
panics. -/
theorem itoa_width_underflow :
    (10 : Int) < 2 ^ 63 ∧ -(2 ^ 63 : Int) ≤ 20 ∧ itoa [] 10 (-(2 ^ 63)) = none ∧
    itoa [] 10 (-(2 ^ 63)) ≠ some (zeroPad (max (-(2 ^ 63) : Int) 1).toNat (decimal 10)) ∧
    wrap64 (-(2 ^ 63) - 1) = 2 ^ 63 - 1 := by
  decide

/-! ## The sentinel, the threshold and the consumer -/

theorem wrap64_succ (depth : Int) (h1 : -(2 ^ 63) ≤ depth + 1) (h2 : depth + 1 < 2 ^ 63) :
    wrap64 (depth + 1) = depth + 1 :=
  wrap64_id _ ⟨h1, h2⟩

/-- Claim C12. For every depth, `getFileAndLine(depth)` returns the file and
line the runtime reports for skip `depth + 1` (the Go expression: it is
`depth + 1` itself whenever that is an `int`), and exactly `("???", 0)` when
the runtime reports none; it always returns a pair. -/
theorem sentinel_location (site : Site) (depth : Int) :
    (∀ file line, site.Caller (wrap64 (depth + 1)) = some (file, line) →
        getFileAndLine site depth = (file, line))
    ∧ (site.Caller (wrap64 (depth + 1)) = none → getFileAndLine site depth = (ascii "???", 0))
    ∧ (-(2 ^ 63) ≤ depth + 1 → depth + 1 < 2 ^ 63 → wrap64 (depth + 1) = depth + 1)
    ∧ (∃ file line, getFileAndLine site depth = (file, line)) := by
  refine ⟨?_, ?_, wrap64_succ depth, ⟨(getFileAndLine site depth).1,
    (getFileAndLine site depth).2, rfl⟩⟩
  · intro file line h
    simp [getFileAndLine, h]
  · intro h
    simp [getFileAndLine, h]

theorem sentinel_location_witness :
    getFileAndLine exampleSite 2 = (ascii "/p/main.go", 7) ∧
    getFileAndLine exampleSite 5 = (ascii "???", 0) :=
  ⟨(sentinel_location exampleSite 2).1 (ascii "/p/main.go") 7 (by decide),
   (sentinel_location exampleSite 5).2.1 (by decide)⟩

theorem dispatch_level (l : Log4u) (t : Nat) (out : Sink) (now : Time) (info : logInfo) :
    ({ l with level := t }).dispatch out now info =
      (l.dispatch out now info).map fun (l2, o) => ({ l2 with level := t }, o) := by
  unfold Log4u.dispatch
  split
  · cases h : l.o.Output out now info.val info.file info.line <;>
      simp [Outcome.bind, Outcome.map, h]
  · split
    · cases h : l.i.Output out now info.val info.file info.line <;>
        simp [Outcome.bind, Outcome.map, h]
    · split
      · cases h : l.w.Output out now info.val info.file info.line <;>
          simp [Outcome.bind, Outcome.map, h]
      · split
        · cases h : l.e.Output out now info.val info.file info.line <;>
            simp [Outcome.bind, Outcome.map, h]
        · simp [Outcome.map]

theorem outLogStep_ok (p : Proc) (now : Time) (r : logInfo) (rest : List logInfo) (L : Bytes)
    (hlive : p.exit = none) (hq : p.globalLog4u.c.buf = r :: rest) (hlev : r.level ≤ OutLevel)
    (hL : p.globalLog4u.lineOf now r = some L) (hf : p.out.failing p.out.written L = false) :
    ∃ p2, p.outLogStep now = .done p2 ∧ p2.exit = none ∧
      p2.globalLog4u.c = { p.globalLog4u.c with buf := rest } ∧
      p2.globalLog4u.level = p.globalLog4u.level ∧
      p2.globalLog4u.configs = p.globalLog4u.configs ∧
      p2.out = { p.out with written := p.out.written ++ [L] } := by
  obtain ⟨g, out, ex⟩ := p
  obtain ⟨o, i, w, e, lvl, ⟨buf, cap⟩⟩ := g
  simp only at hlive hq hL hf
  subst hlive
  subst hq
  have hL2 : Log4u.lineOf ⟨o, i, w, e, lvl, ⟨rest, cap⟩⟩ now r = some L := by
    rw [← hL]; exact lineOf_congr _ _ rfl now r
  obtain ⟨l2, hd, h1, h2, h3⟩ := dispatch_done ⟨o, i, w, e, lvl, ⟨rest, cap⟩⟩ out now r L hlev
    hL2 hf
  refine ⟨⟨l2, { out with written := out.written ++ [L] }, none⟩, ?_, rfl, h2, h3, h1, rfl⟩
  simp only [Proc.outLogStep, Chan.recv, hd]

/-- Claim C13. `SetLevel` leaves the queue and the four loggers as they were;
the switch of the consumer gives the same result whatever the threshold is
(only the threshold field of the state differs); so with a record at the head
of the queue, setting the threshold to any value and then running the consumer
writes the line of that record. -/
theorem threshold_not_retroactive (p : Proc) (now : Time) (v : Nat) (r : logInfo)
    (rest : List logInfo) (L : Bytes) (hlive : p.exit = none)
    (hq : p.globalLog4u.c.buf = r :: rest) (hlev : r.level ≤ OutLevel)
    (hL : p.globalLog4u.lineOf now r = some L)
    (hf : p.out.failing p.out.written L = false) :
    ((SetLevel p.globalLog4u v).c = p.globalLog4u.c ∧
      (SetLevel p.globalLog4u v).o = p.globalLog4u.o ∧
      (SetLevel p.globalLog4u v).i = p.globalLog4u.i ∧
      (SetLevel p.globalLog4u v).w = p.globalLog4u.w ∧
      (SetLevel p.globalLog4u v).e = p.globalLog4u.e)
    ∧ (∀ (t : Nat) (out : Sink) (info : logInfo),
        ({ p.globalLog4u with level := t }).dispatch out now info =
          (p.globalLog4u.dispatch out now info).map fun (l2, o) => ({ l2 with level := t }, o))
    ∧ ∃ p2, Proc.run (F := stringFmt) p [.setLevel v, .consume now] = .done p2 ∧
        p2.exit = none ∧ p2.globalLog4u.level = clampLevel v ∧
        p2.globalLog4u.c.buf = rest ∧ p2.out.written = p.out.written ++ [L] := by
  refine ⟨SetLevel_rest p.globalLog4u v, fun t out info => dispatch_level _ t out now info, ?_⟩
  obtain ⟨hc, ho, hi, hw, he⟩ := SetLevel_rest p.globalLog4u v
  obtain ⟨p2, hstep, hx, hc2, hl2, -, hout⟩ := outLogStep_ok
    { p with globalLog4u := SetLevel p.globalLog4u v } now r rest L hlive
    (by simp only [hc]; exact hq)
    hlev
    (by rw [← hL]; exact lineOf_congr _ _ (by simp [Log4u.configs, ho, hi, hw, he]) now r)
    hf
  rw [hlive] at hstep
  refine ⟨p2, ?_, hx, ?_, ?_, ?_⟩
  · simp only [Proc.run, Proc.step, hlive, Outcome.bind, hstep]
  · rw [hl2]; exact SetLevel_level _ _
  · rw [hc2]
  · rw [hout]

set_option maxRecDepth 8000 in
theorem threshold_not_retroactive_witness :
    ∃ p2, Proc.run (F := stringFmt) fullProc [.setLevel ErrorLevel, .consume exampleTime] =
        .done p2 ∧
      p2.exit = none ∧ p2.globalLog4u.level = clampLevel ErrorLevel ∧
      p2.globalLog4u.c.buf =
        [{ level := OutLevel, line := 0, file := [], val := ascii "b\n" }] ∧
      p2.out.written = fullProc.out.written ++ [ascii "a\n"] :=
  (threshold_not_retroactive fullProc exampleTime ErrorLevel
    { level := OutLevel, line := 0, file := [], val := ascii "a\n" }
    [{ level := OutLevel, line := 0, file := [], val := ascii "b\n" }] (ascii "a\n")
    rfl rfl (by decide) rfl rfl).2.2

/-! ## Determinism and the record of OUT -/

/-- Claim C14. With the prefix, flags, clock reading, file, line and body
fixed, the line rendered is the same for every logger state, whatever its
buffer holds; `Output` hands exactly that line to `Write` from any such state
and any sink; and a second `Output` with the same arguments right after the
first writes the same line again. -/
theorem deterministic_formatting (l : Logger) (out : Sink) (now : Time) (s file : Bytes)
    (line : Int) :
    (∀ l2 : Logger, l2.prefix_ = l.prefix_ → l2.flag = l.flag →
        l2.line now s file line = l.line now s file line)
    ∧ (∀ (l2 : Logger) (out2 : Sink) (L : Bytes), l2.prefix_ = l.prefix_ → l2.flag = l.flag →
        l.line now s file line = some L →
        l2.Output out2 now s file line =
          if out2.failing out2.written L then .panicked
          else .done ({ l2 with buf := L }, { out2 with written := out2.written ++ [L] }))
    ∧ (∀ (l1 : Logger) (out1 : Sink), l.Output out now s file line = .done (l1, out1) →
        ∃ L, l.line now s file line = some L ∧ l1 = { l with buf := L } ∧
          out1.written = out.written ++ [L] ∧
          ∀ (l2 : Logger) (out2 : Sink), l1.Output out1 now s file line = .done (l2, out2) →
            out2.written = out.written ++ [L, L] ∧ l2 = l1) := by
  have hcongr : ∀ l2 : Logger, l2.prefix_ = l.prefix_ → l2.flag = l.flag →
      l2.line now s file line = l.line now s file line := by
    intro l2 h1 h2
    exact line_congr l2 l (by simp [Logger.config, h1, h2]) now s file line
  refine ⟨hcongr, ?_, ?_⟩
  · intro l2 out2 L h1 h2 hL
    exact Output_eq l2 out2 now s file line L ((hcongr l2 h1 h2).trans hL)
  · intro l1 out1 h
    rcases Output_cases l out now s file line with hp | ⟨L, hL, hf, hd⟩
    · rw [hp] at h; cases h
    · rw [hd] at h
      injection h with e
      injection e with e1 e2
      subst e1; subst e2
      refine ⟨L, hL, rfl, rfl, ?_⟩
      intro l2 out2 h2
      have hL1 : Logger.line { l with buf := L } now s file line = some L :=
        (hcongr { l with buf := L } rfl rfl).trans hL
      rcases Output_cases { l with buf := L } { out with written := out.written ++ [L] } now s
        file line with hp | ⟨L3, hL3, hf3, hd3⟩
      · rw [hp] at h2; cases h2
      · rw [hL1] at hL3
        injection hL3 with e
        subst e
        rw [hd3] at h2
        injection h2 with e
        injection e with e1 e2
        subst e1; subst e2
        simp

set_option maxRecDepth 8000 in
theorem deterministic_formatting_witness :
    ({ initLog4u.w with buf := ascii "left over from an earlier record\n" }).line exampleTime
        (ascii "y\n") (ascii "/p/main.go") 7 = some warnLineY ∧
    initLog4u.w.line exampleTime (ascii "y\n") (ascii "/p/main.go") 7 = some warnLineY :=
  ⟨((deterministic_formatting initLog4u.w goodSink exampleTime (ascii "y\n") (ascii "/p/main.go")
      7).1 { initLog4u.w with buf := ascii "left over from an earlier record\n" } rfl rfl).trans
      rfl, rfl⟩

/-- Claim C16. Whenever `OUT`, as a method or as the free function, returns, the
state is unchanged or the queue has gained exactly the record with level
`OutLevel`, the empty file, line 0 and the body `Sprintln(v...)`; it gains it
when the gate passes and the channel has room. In `core.go` the record of `OUT`
has no location fields at all. -/
theorem out_record_unlocated {F : Fmt} (l l1 : Log4u) (v : List F.Any) :
    ((l.OUT F v = .done l1 ∨ OUT F l v = .done l1) →
      l1 = l ∨ l1 = { l with c := { l.c with buf := l.c.buf ++
        [{ level := OutLevel, line := 0, file := [], val := F.Sprintln v }] } })
    ∧ (¬ l.level < OutLevel → l.c.buf.length < l.c.cap →
        l.OUT F v = .done { l with c := { l.c with buf := l.c.buf ++
          [{ level := OutLevel, line := 0, file := [], val := F.Sprintln v }] } } ∧
        OUT F l v = .done { l with c := { l.c with buf := l.c.buf ++
          [{ level := OutLevel, line := 0, file := [], val := F.Sprintln v }] } })
    ∧ (∀ gc : CorePkg.Log4u, ¬ gc.level < OutLevel → gc.c.length < gc.cap →
        CorePkg.Log4u.OUT F gc v =
          ([], .done { gc with c := gc.c ++ [{ level := OutLevel, val := F.Sprintln v }] }) ∧
        CorePkg.OUT F gc v =
          ([], .done { gc with c := gc.c ++ [{ level := OutLevel, val := F.Sprintln v }] })) := by
  refine ⟨?_, ?_, ?_⟩
  · intro h
    have h2 : l.OUT F v = .done l1 := by
      rcases h with h | h
      · exact h
      · exact h
    unfold Log4u.OUT at h2
    split at h2
    · left; injection h2 with e; exact e.symm
    · right
      simp only [Chan.send] at h2
      split at h2
      · simp only [Outcome.bind] at h2
        injection h2 with e; exact e.symm
      · simp [Outcome.bind] at h2
  · intro hg hroom
    simp [Log4u.OUT, OUT, hg, hroom, Chan.send, Outcome.bind]
  · intro gc hg hroom
    simp [CorePkg.Log4u.OUT, CorePkg.OUT, CorePkg.Log4u.send, hg, hroom]

theorem out_record_unlocated_witness :
    OUT stringFmt initLog4u [ascii "a", ascii "b"] =
      .done { initLog4u with
        c := { buf := [{ level := OutLevel, line := 0, file := [], val := ascii "a b\n" }],
               cap := 200 } } :=
  ((out_record_unlocated (F := stringFmt) initLog4u initLog4u [ascii "a", ascii "b"]).2.1
    (by decide) (by decide)).2

/-! ## The direct strategy -/

theorem resolve_direct (site : Site) (depth : Int) (hno : ¬ panicBytes <:+: site.stack) :
    getFileAndLineByStack site depth = .done (getFileAndLine site (wrap64 (depth + 1))) := by
  unfold getFileAndLineByStack
  have : Index site.stack panicBytes = -1 := by
    unfold Index
    rw [findSub_none_of_absent _ _ hno]; rfl
  simp only [this, if_true]

theorem frameSite_caller (stack : Bytes) (inner above : List (Bytes × Int))
    (caller : Bytes × Int) (hin : inner.length = 3) :
    (frameSite stack inner (caller :: above)).Caller 3 = some caller := by
  match inner, hin with
  | [a, b, c], _ => rfl

/-- Claim C19. When the stack trace does not contain the marker,
`getFileAndLineByStack(depth)` returns `getFileAndLine(depth+1)`, the frame at
skip `depth + 2`; every call other than `OUT` resolves to the frame at skip 3,
which is the frame that called the public operation, and that is the file and
line of the record it enqueues, as a method and as a free function. -/
theorem direct_strategy {F : Fmt} (site : Site) (depth : Int)
    (hno : ¬ panicBytes <:+: site.stack) :
    getFileAndLineByStack site depth = .done (getFileAndLine site (wrap64 (depth + 1)))
    ∧ (-(2 ^ 63) ≤ depth + 1 → depth + 2 < 2 ^ 63 →
        getFileAndLineByStack site depth = .done (match site.Caller (depth + 2) with
          | some (file, line) => (file, line)
          | none => (ascii "???", 0)))
    ∧ (∀ c : Call F, c.site? = some site →
        c.locate = .done (match site.Caller 3 with
          | some (file, line) => (file, line)
          | none => (ascii "???", 0)))
    ∧ (∀ (inner above : List (Bytes × Int)) (caller : Bytes × Int) (c : Call F)
        (l : Log4u) (asMethod : Bool),
        inner.length = 3 → site = frameSite site.stack inner (caller :: above) →
        c.site? = some site → c.level ≤ l.level → l.c.buf.length < l.c.cap →
        c.run asMethod l = .done { l with c := { l.c with buf := l.c.buf ++
          [{ level := c.level, line := caller.2, file := caller.1, val := c.body }] } }) := by
  have h1 := resolve_direct site depth hno
  have h3 : ∀ c : Call F, c.site? = some site →
      c.locate = .done (match site.Caller 3 with
        | some (file, line) => (file, line)
        | none => (ascii "???", 0)) := by
    intro c hc
    have hloc : c.locate = getFileAndLineByStack site 1 := by
      cases c <;> simp only [Call.site?, Option.some.injEq] at hc <;>
        first
        | (subst hc; rfl)
        | cases hc
    rw [hloc, resolve_direct site 1 hno]
    rfl
  refine ⟨h1, ?_, h3, ?_⟩
  · intro hlo hhi
    rw [h1]
    unfold getFileAndLine
    have e1 : wrap64 (depth + 1) = depth + 1 := wrap64_id _ ⟨hlo, by omega⟩
    have e2 : wrap64 (depth + 1 + 1) = depth + 2 := by
      rw [show depth + 1 + 1 = depth + 2 by ring]
      exact wrap64_id _ ⟨by omega, hhi⟩
    rw [e1, e2]
    try rfl
  · intro inner above caller c l asMethod hin hsite hc hle hroom
    have hcall : site.Caller 3 = some caller := by
      rw [hsite]; exact frameSite_caller _ inner above caller hin
    have hloc := h3 c hc
    rw [hcall] at hloc
    exact call_run_pass l c asMethod caller.1 caller.2 hle hloc hroom

set_option maxRecDepth 100000 in
theorem direct_strategy_witness :
    getFileAndLineByStack mainCallSite 1 = .done (ascii "/app/main.go", 14) ∧
    WARN stringFmt initLog4u mainCallSite [ascii "y"] =
      .done { initLog4u with
        c := { buf := [{ level := WarnLevel, line := 14, file := ascii "/app/main.go",
                         val := ascii "y\n" }],
               cap := 200 } } :=
  ⟨((direct_strategy (F := stringFmt) mainCallSite 1 (by decide)).1).trans (by decide),
   (direct_strategy (F := stringFmt) mainCallSite 1 (by decide)).2.2.2
      [(ascii "/p/log4u.go", 190), (ascii "/p/log4u.go", 206), (ascii "/p/log4u.go", 344)]
      [(ascii "/usr/local/go/src/runtime/proc.go", 267)]
      (ascii "/app/main.go", 14) (.WARN mainCallSite [ascii "y"]) initLog4u false rfl rfl
      rfl (by decide) (by decide)⟩

/-! ## One gate; free functions and methods -/

theorem free_eq_method {F : Fmt} (l : Log4u) (c : Call F) : c.free l = c.method (Inject l) := by
  cases c <;> rfl

/-- Claim C20. Every call, `ERROR` and `ERRORF` included, as a method or as a
free function, does what the single rule `shouldEmit(callLevel, threshold)`
prescribes; `threshold < ErrorLevel` is false and `shouldEmit(ErrorLevel, t)`
true for every threshold; putting the gate test in front of `ERROR` or
`ERRORF` changes nothing. -/
theorem error_gate_coincides {F : Fmt} (l : Log4u) (c : Call F) (asMethod : Bool) :
    c.run asMethod l = c.gated l
    ∧ (∀ t : Nat, ¬ t < ErrorLevel)
    ∧ (∀ t : Nat, shouldEmit ErrorLevel t = true)
    ∧ (∀ (site : Site) (format : Bytes) (v : List F.Any),
        (if l.level < ErrorLevel then Outcome.done l else l.ERROR F site v) = l.ERROR F site v ∧
        (if l.level < ErrorLevel then Outcome.done l else ERROR F l site v) = ERROR F l site v ∧
        (if l.level < ErrorLevel then Outcome.done l else l.ERRORF F site format v) =
          l.ERRORF F site format v ∧
        (if l.level < ErrorLevel then Outcome.done l else ERRORF F l site format v) =
          ERRORF F l site format v) := by
  have hE : ∀ t : Nat, ¬ t < ErrorLevel := by intro t; simp [ErrorLevel]
  refine ⟨?_, hE, ?_, ?_⟩
  · have hm : c.run asMethod l = c.method l := by
      cases asMethod
      · simp only [Call.run, Bool.false_eq_true, if_false]; exact free_eq_method l c
      · simp only [Call.run, if_true]; rfl
    rw [hm]
    unfold Call.gated shouldEmit
    by_cases hg : c.level ≤ l.level
    · have hlt : ¬ l.level < c.level := by omega
      simp only [hg, decide_True, if_true]
      cases c <;>
        (simp only [Call.level] at hlt
         simp only [Call.method, Log4u.OUT, Log4u.INFO, Log4u.INFOF, Log4u.WARN, Log4u.WARNF,
           Log4u.ERROR, Log4u.ERRORF, Call.level, Call.locate, Call.body, if_neg hlt]
         try rfl)
    · have hlt : l.level < c.level := by omega
      simp only [hg, decide_False, Bool.false_eq_true, if_false]
      cases c <;>
        simp only [Call.level] at hlt <;>
        first
        | exact absurd hlt (hE _)
        | (simp only [Call.method, Log4u.OUT, Log4u.INFO, Log4u.INFOF, Log4u.WARN, Log4u.WARNF,
            if_pos hlt])
  · intro t; simp [shouldEmit, ErrorLevel]
  · intro site format v
    simp only [if_neg (hE l.level), and_self]

theorem error_gate_coincides_witness :
    Call.gated (F := stringFmt) (SetLevel initLog4u ErrorLevel) (.ERROR exampleSite [ascii "z"]) =
      ERROR stringFmt (SetLevel initLog4u ErrorLevel) exampleSite [ascii "z"] ∧
    Call.gated (F := stringFmt) (SetLevel initLog4u ErrorLevel) (.WARN exampleSite [ascii "y"]) =
      .done (SetLevel initLog4u ErrorLevel) :=
  ⟨((error_gate_coincides (F := stringFmt) (SetLevel initLog4u ErrorLevel)
      (.ERROR exampleSite [ascii "z"]) false).1).symm,
   (((error_gate_coincides (F := stringFmt) (SetLevel initLog4u ErrorLevel)
      (.WARN exampleSite [ascii "y"]) false).1).symm).trans (by decide)⟩

theorem core_free_eq_method {F : Fmt} (gc : CorePkg.Log4u) (format : Bytes) (v : List F.Any)
    (Caller : Int → Option (Bytes × Int)) :
    CorePkg.OUT F gc v = CorePkg.Log4u.OUT F (CorePkg.New gc) v ∧
    CorePkg.INFO F gc v = CorePkg.Log4u.INFO F (CorePkg.New gc) v ∧
    CorePkg.INFOF F gc format v = CorePkg.Log4u.INFOF F (CorePkg.New gc) format v ∧
    CorePkg.WARN F gc v = CorePkg.Log4u.WARN F (CorePkg.New gc) v ∧
    CorePkg.WARNF F gc format v = CorePkg.Log4u.WARNF F (CorePkg.New gc) format v ∧
    CorePkg.ERRORF F gc format v = CorePkg.Log4u.ERRORF F (CorePkg.New gc) format v ∧
    (CorePkg.ERROR F gc v).2 = (CorePkg.Log4u.ERROR F (CorePkg.New gc) Caller v).2 ∧
    (CorePkg.ERROR F gc v).1 = [] ∧
    (CorePkg.Log4u.ERROR F (CorePkg.New gc) Caller v).1 ≠ [] :=
  ⟨rfl, rfl, rfl, rfl, rfl, rfl, rfl, rfl, by simp [CorePkg.Log4u.ERROR]⟩

/-- Claim C15, at a call of `ERROR` in `core.go`: the method on `New()` writes
the file of `runtime.Caller(2)` and a newline to the standard output and then
enqueues the record; the free function enqueues the same record and writes
nothing. In `log4u.go` every free function is its method on `Inject()`. -/
theorem core_error_method_prints_file :
    CorePkg.Log4u.ERROR stringFmt (CorePkg.New CorePkg.initLog4u)
        (fun skip => if skip = 2 then some (ascii "/app/main.go", 14) else none) [ascii "z"] =
      (ascii "/app/main.go\n",
        .done { CorePkg.initLog4u with c := [{ level := ErrorLevel, val := ascii "z\n" }] }) ∧
    CorePkg.ERROR stringFmt CorePkg.initLog4u [ascii "z"] =
      ([], .done { CorePkg.initLog4u with c := [{ level := ErrorLevel, val := ascii "z\n" }] }) ∧
    (∀ c : Call stringFmt, c.free initLog4u = c.method (Inject initLog4u)) :=
  ⟨by decide, by decide, fun c => free_eq_method initLog4u c⟩

/-! ## Backpressure -/

theorem call_run_full {F : Fmt} (l : Log4u) (c : Call F) (asMethod : Bool)
    (file : Bytes) (line : Int) (hle : c.level ≤ l.level)
    (hloc : c.locate = .done (file, line)) (hfull : l.c.cap ≤ l.c.buf.length) :
    c.run asMethod l = .blocked := by
  have hnot : ¬ l.c.buf.length < l.c.cap := by omega
  cases c <;> cases asMethod <;>
    simp_all [Call.run, Inject, Call.level, Call.locate, Call.method, Call.free, Call.body,
      Log4u.OUT, Log4u.INFO, Log4u.INFOF, Log4u.WARN, Log4u.WARNF, OUT, INFO, INFOF, WARN,
      WARNF, Log4u.ERROR, Log4u.ERRORF, ERROR, ERRORF, Outcome.bind, Chan.send, Nat.not_lt.mpr]

theorem call_run_bounded {F : Fmt} (l l1 : Log4u) (c : Call F) (asMethod : Bool)
    (h : c.run asMethod l = .done l1) (hb : l.c.buf.length ≤ l.c.cap) :
    l1.c.buf.length ≤ l1.c.cap ∧ l1.c.cap = l.c.cap := by
  rcases call_run_done c asMethod l l1 h with ⟨-, e⟩ | ⟨hle, r, hr, -, e⟩
  · rw [e]; exact ⟨hb, rfl⟩
  · subst e
    by_cases hroom : l.c.buf.length < l.c.cap
    · exact ⟨by simp only [List.length_append, List.length_singleton]; omega, rfl⟩
    · exfalso
      cases hl : c.locate with
      | done fl =>
        have := call_run_full l c asMethod fl.1 fl.2 hle hl (by omega)
        rw [this] at h; cases h
      | blocked => simp [Call.record?, hl] at hr
      | panicked => simp [Call.record?, hl] at hr

theorem step_bounded {F : Fmt} (p p1 : Proc) (ev : Event F) (h : p.step ev = .done p1)
    (hb : p.globalLog4u.c.buf.length ≤ p.globalLog4u.c.cap) :
    p1.globalLog4u.c.buf.length ≤ p1.globalLog4u.c.cap ∧
    p1.globalLog4u.c.cap = p.globalLog4u.c.cap := by
  cases ev with
  | call asMethod c =>
    simp only [Proc.step] at h
    cases hx : p.exit with
    | some code => rw [hx] at h; cases h
    | none =>
      rw [hx] at h
      obtain ⟨l1, hcall, hp1⟩ := bind_done _ _ _ h
      injection hp1 with hp1
      subst hp1
      exact call_run_bounded _ _ c asMethod hcall hb
  | consume now =>
    simp only [Proc.step, Proc.outLogStep] at h
    cases hx : p.exit with
    | some code => rw [hx] at h; cases h
    | none =>
      rw [hx] at h
      cases hq : p.globalLog4u.c.buf with
      | nil => simp [Chan.recv, hq] at h
      | cons r rest =>
        simp only [Chan.recv, hq] at h
        have hlen : rest.length ≤ p.globalLog4u.c.cap := by
          rw [hq] at hb; simp only [List.length_cons] at hb; omega
        have key : ∀ l2 : Log4u, (∃ o, Log4u.dispatch
            { p.globalLog4u with c := { p.globalLog4u.c with buf := rest } } p.out now r =
              .done (l2, o)) → l2.c = { p.globalLog4u.c with buf := rest } := by
          intro l2 ⟨o, hd⟩
          unfold Log4u.dispatch at hd
          split at hd
          · obtain ⟨a, -, ha⟩ := bind_done _ _ _ hd
            injection ha with ha; injection ha with ha1 ha2; rw [← ha1]
          · split at hd
            · obtain ⟨a, -, ha⟩ := bind_done _ _ _ hd
              injection ha with ha; injection ha with ha1 ha2; rw [← ha1]
            · split at hd
              · obtain ⟨a, -, ha⟩ := bind_done _ _ _ hd
                injection ha with ha; injection ha with ha1 ha2; rw [← ha1]
              · split at hd
                · obtain ⟨a, -, ha⟩ := bind_done _ _ _ hd
                  injection ha with ha; injection ha with ha1 ha2; rw [← ha1]
                · injection hd with ha; injection ha with ha1 ha2; rw [← ha1]
        cases hd : Log4u.dispatch
            { p.globalLog4u with c := { p.globalLog4u.c with buf := rest } } p.out now r with
        | done lo =>
          rw [hd] at h
          obtain ⟨l2, o⟩ := lo
          simp only at h
          injection h with e
          subst e
          have := key l2 ⟨o, hd⟩
          rw [this]
          exact ⟨hlen, rfl⟩
        | blocked => rw [hd] at h; cases h
        | panicked =>
          rw [hd] at h
          simp only [errCatch, if_true] at h
          injection h with e
          subst e
          exact ⟨hlen, rfl⟩
  | setLevel v =>
    simp only [Proc.step] at h
    cases hx : p.exit with
    | some code => rw [hx] at h; cases h
    | none =>
      rw [hx] at h
      injection h with e
      subst e
      have := (SetLevel_rest p.globalLog4u v).1
      rw [this]
      exact ⟨hb, rfl⟩

theorem run_bounded {F : Fmt} (evs : List (Event F)) : ∀ (p p1 : Proc),
    p.run evs = .done p1 → p.globalLog4u.c.buf.length ≤ p.globalLog4u.c.cap →
    p1.globalLog4u.c.buf.length ≤ p1.globalLog4u.c.cap ∧
    p1.globalLog4u.c.cap = p.globalLog4u.c.cap := by
  induction evs with
  | nil =>
    intro p p1 h hb
    simp only [Proc.run] at h
    injection h with e; subst e
    exact ⟨hb, rfl⟩
  | cons ev rest ih =>
    intro p p1 h hb
    simp only [Proc.run] at h
    obtain ⟨p2, hstep, hrest⟩ := bind_done _ _ _ h
    obtain ⟨h1, h2⟩ := step_bounded p p2 ev hstep hb
    obtain ⟨h3, h4⟩ := ih p2 p1 hrest h1
    exact ⟨h3, h4.trans h2⟩

/-- Claim C17. With the queue full (as many records pending as the capacity,
200 after `init`), a call that passes the gate blocks, and the schedule that
makes it before the consumer has advanced cannot run; once the consumer has
taken the head record the same call returns, its record behind the records
that were pending, none of them lost; and along every schedule the number of
pending records stays at most the capacity. -/
theorem backpressure {F : Fmt} (p : Proc) (now : Time) (c : Call F) (asMethod : Bool)
    (file : Bytes) (line : Int) (r : logInfo) (rest : List logInfo) (L : Bytes)
    (hlive : p.exit = none) (hq : p.globalLog4u.c.buf = r :: rest)
    (hfull : p.globalLog4u.c.buf.length = p.globalLog4u.c.cap)
    (hlev : r.level ≤ OutLevel) (hL : p.globalLog4u.lineOf now r = some L)
    (hf : p.out.failing p.out.written L = false)
    (hle : c.level ≤ p.globalLog4u.level) (hloc : c.locate = .done (file, line)) :
    c.run asMethod p.globalLog4u = .blocked
    ∧ p.run [.call asMethod c] = .blocked
    ∧ (∃ p2, p.run [.consume now, .call asMethod c] = .done p2 ∧ p2.exit = none ∧
        p2.globalLog4u.c.buf =
          rest ++ [{ level := c.level, line := line, file := file, val := c.body }] ∧
        p2.globalLog4u.c.buf.length = p.globalLog4u.c.cap ∧
        p2.out.written = p.out.written ++ [L])
    ∧ (∀ (q q1 : Proc) (evs : List (Event F)), q.run evs = .done q1 →
        q.globalLog4u.c.buf.length ≤ q.globalLog4u.c.cap →
        q1.globalLog4u.c.buf.length ≤ q1.globalLog4u.c.cap ∧
        q1.globalLog4u.c.cap = q.globalLog4u.c.cap)
    ∧ initLog4u.c.cap = 200 := by
  have hblock := call_run_full p.globalLog4u c asMethod file line hle hloc (by omega)
  refine ⟨hblock, ?_, ?_, fun q q1 evs h hb => run_bounded evs q q1 h hb, rfl⟩
  · simp only [Proc.run, Proc.step, hlive, hblock, Outcome.bind]
  · obtain ⟨p1, hstep, hx, hc1, hl1, -, hout⟩ := outLogStep_ok p now r rest L hlive hq hlev hL hf
    have hlen : rest.length + 1 = p.globalLog4u.c.cap := by
      rw [← hfull, hq]; rfl
    have hcall := call_run_pass p1.globalLog4u c asMethod file line (by rw [hl1]; exact hle) hloc
      (by rw [hc1]; simp only; omega)
    refine ⟨{ p1 with globalLog4u := { p1.globalLog4u with c := { p1.globalLog4u.c with
      buf := p1.globalLog4u.c.buf ++
        [{ level := c.level, line := line, file := file, val := c.body }] } } },
      ?_, hx, ?_, ?_, ?_⟩
    · simp only [Proc.run, Proc.step, hstep, Outcome.bind, hx, hcall]
    · simp only [hc1]
    · simp only [hc1, List.length_append, List.length_singleton]; omega
    · simp only [hout]

set_option maxRecDepth 8000 in
theorem backpressure_witness :
    Call.run (F := stringFmt) false fullProc.globalLog4u (.OUT [ascii "c"]) = .blocked
    ∧ fullProc.run (F := stringFmt) [.call false (.OUT [ascii "c"])] = .blocked
    ∧ (∃ p2, fullProc.run (F := stringFmt) [.consume exampleTime, .call false (.OUT [ascii "c"])]
          = .done p2 ∧ p2.exit = none ∧
        p2.globalLog4u.c.buf =
          [{ level := OutLevel, line := 0, file := [], val := ascii "b\n" }] ++
            [{ level := OutLevel, line := 0, file := [], val := ascii "c\n" }] ∧
        p2.globalLog4u.c.buf.length = 2 ∧
        p2.out.written = fullProc.out.written ++ [ascii "a\n"]) :=
  ⟨(backpressure (F := stringFmt) fullProc exampleTime (.OUT [ascii "c"]) false [] 0
      { level := OutLevel, line := 0, file := [], val := ascii "a\n" }
      [{ level := OutLevel, line := 0, file := [], val := ascii "b\n" }] (ascii "a\n")
      rfl rfl rfl (by decide) rfl rfl (by decide) rfl).1,
   (backpressure (F := stringFmt) fullProc exampleTime (.OUT [ascii "c"]) false [] 0
      { level := OutLevel, line := 0, file := [], val := ascii "a\n" }
      [{ level := OutLevel, line := 0, file := [], val := ascii "b\n" }] (ascii "a\n")
      rfl rfl rfl (by decide) rfl rfl (by decide) rfl).2.1,
   (backpressure (F := stringFmt) fullProc exampleTime (.OUT [ascii "c"]) false [] 0
      { level := OutLevel, line := 0, file := [], val := ascii "a\n" }
      [{ level := OutLevel, line := 0, file := [], val := ascii "b\n" }] (ascii "a\n")
      rfl rfl rfl (by decide) rfl rfl (by decide) rfl).2.2.1⟩

/-! ## Calls lost in the caller resolver -/

set_option maxRecDepth 100000 in
/-- Claim C1 fails at `INFO` called from the site `ownPanicFileSite`, with the
threshold `init` sets (`OutLevel`) or `InfoLevel` and the queue empty with room
for 200 records: the level of the call passes the gate, and the call, as a free
function or as a method, panics in `getFileAndLineByStack` before the send, so
no record is appended. At threshold `WarnLevel` the same call is gated and
returns; from an ordinary site it appends its record. -/
theorem info_lost_to_resolver_panic :
    InfoLevel ≤ initLog4u.level ∧ initLog4u.c.buf.length < initLog4u.c.cap ∧
    Call.run (F := stringFmt) false initLog4u (.INFO ownPanicFileSite [ascii "x"]) = .panicked ∧
    Call.run (F := stringFmt) true initLog4u (.INFO ownPanicFileSite [ascii "x"]) = .panicked ∧
    Call.run (F := stringFmt) false (SetLevel initLog4u InfoLevel)
      (.INFO ownPanicFileSite [ascii "x"]) = .panicked ∧
    Call.run (F := stringFmt) false (SetLevel initLog4u WarnLevel)
      (.INFO ownPanicFileSite [ascii "x"]) = .done (SetLevel initLog4u WarnLevel) ∧
    Call.run (F := stringFmt) false initLog4u (.INFO exampleSite [ascii "x"]) =
      .done { initLog4u with
        c := { buf := [{ level := InfoLevel, line := 7, file := ascii "/p/main.go",
                         val := ascii "x\n" }], cap := 200 } } := by
  decide

set_option maxRecDepth 100000 in
/-- Claim C2 fails at `ERROR` and `ERRORF` called from the site
`spacePathSite`, a deferred function that recovers a panic in a program under
`/home/u/my app`: the marker is found, the first space after `)\n\t` lies
inside the path, no colon precedes it, and `getFileAndLineByStack` panics on
`stack[:-1]`; at each of the four thresholds the call panics before the send
and appends nothing, although `runtime.Caller` reports the call site. -/
theorem error_lost_to_resolver_panic :
    Index spacePathTrace panicBytes ≠ -1 ∧
    getFileAndLineByStack spacePathSite 1 = .panicked ∧
    getFileAndLine spacePathSite 2 = (ascii "/home/u/my app/main.go", 9) ∧
    (∀ t ∈ [ErrorLevel, WarnLevel, InfoLevel, OutLevel],
      Call.run (F := stringFmt) false (SetLevel initLog4u t)
          (.ERROR spacePathSite [ascii "z"]) = .panicked ∧
      Call.run (F := stringFmt) true (SetLevel initLog4u t)
          (.ERRORF spacePathSite (ascii "z") []) = .panicked) := by
  decide

set_option maxRecDepth 100000 in
/-- Claim C4 fails at threshold `Warn` on the calls `Info("x")`, `Warn("y")`,
`Error("z")` with the last one made from `spacePathSite`: the calls for `y` and
`z` pass the gate, the call for `z` panics in the resolver, and the run of the
three calls ends in that panic; after the first two calls one step of the
consumer writes the line for `y` and empties the queue, and a second step
finds nothing to write. The line for `z` is never written. -/
theorem passing_call_never_written :
    (passing warnProc.globalLog4u.level lostErrorCalls).map Call.body =
      [ascii "y\n", ascii "z\n"] ∧
    (passing warnProc.globalLog4u.level lostErrorCalls).map Call.level =
      [WarnLevel, ErrorLevel] ∧
    warnProc.run lostErrorCalls = .panicked ∧
    (warnProc.run (lostErrorCalls.take 2 ++ [.consume exampleTime])).map
      (fun p => (p.out.written, p.globalLog4u.c.buf, p.exit)) = .done ([warnLineY], [], none) ∧
    warnProc.run (lostErrorCalls.take 2 ++ [.consume exampleTime, .consume exampleTime]) =
      .blocked := by
  refine ⟨by decide, by decide, rfl, by decide, rfl⟩

end Log4uPkg
